import Mathlib

/-!
# fam100: round and game engine

A shallow embedding of `round.go` and `game.go` (package `fam100`).

Conventions of the embedding.

* Go `int` is 64 bit.  Values are carried as `Int`; the additions of the source
  whose operands are data (`ps.Score += score`, `g.TotalRoundPlayed++`) go
  through `intAdd`, which wraps around like the machine addition.  Indices into
  slices and the loop counter of `Start` are bounded by a slice length or by
  `RoundPerGame` and are carried without wrap-around.
* A Go `map` is an association list with distinct keys (`mapGet`, `mapSet`); the
  order in which `range` walks a map is not fixed by the language, so it is a
  parameter (`World.mapOrder`).
* A function that can panic with an index out of range returns `Option`; `none`
  is the panic.
* The roster `players` is one map shared by the game and its rounds; the round
  loop keeps `Game.players` equal to the roster of the running round.
* The `select` loop of `startRound` handles one event at a time; the events it
  picks are given as a list (`Event`), its sends on `g.Out` are the output list.
* Wall-clock values (`endAt`, `TimeLeft`, the pause between rounds), logging,
  metrics, the cache of active players and the usage counters and score store of
  `DefaultDB` are outside the embedding.
-/

namespace Fam100

/-! ## Machine integers -/

/-- The value of a 64 bit two's complement register holding `x`. -/
def wrapInt (x : Int) : Int := (x + 2 ^ 63) % 2 ^ 64 - 2 ^ 63

/-- Go `a + b` on `int`. -/
def intAdd (a b : Int) : Int := wrapInt (a + b)

/-- The values a Go `int` can hold. -/
def inRange (x : Int) : Prop := -(2 ^ 63) ≤ x ∧ x < 2 ^ 63

instance (x : Int) : Decidable (inRange x) :=
  inferInstanceAs (Decidable (-(2 ^ 63) ≤ x ∧ x < 2 ^ 63))

/-! ## Go maps with string keys -/

/-- A map with `string` keys: an association list, keys distinct. -/
abbrev GoMap (β : Type) := List (String × β)

/-- Go `v, ok := m[k]`. -/
def mapGet {β : Type} : GoMap β → String → Option β
  | [], _ => none
  | (k', v) :: m, k => if k' = k then some v else mapGet m k

/-- Go `m[k] = v`. -/
def mapSet {β : Type} : GoMap β → String → β → GoMap β
  | [], k, v => [(k, v)]
  | (k', v') :: m, k, v => if k' = k then (k, v) :: m else (k', v') :: mapSet m k v

/-- The keys of a map. -/
def mapKeys {β : Type} (m : GoMap β) : List String := m.map Prod.fst

/-- The values of a map, in the order of insertion. -/
def mapValues {β : Type} (m : GoMap β) : List β := m.map Prod.snd

/-! ## Data model (`game.go`) -/

/-- PlayerID is the player ID type (`type PlayerID string`). -/
abbrev PlayerID := String

/-- Player of the game. -/
structure Player where
  ID : PlayerID
  Name : String
deriving DecidableEq, Repr

/-- The zero value of `Player`, what `m[k]` yields for an absent key. -/
def Player.zero : Player := { ID := "", Name := "" }

/-- State represents state of the round (the constants of `game.go`). -/
inductive State where
  | Created
  | Started
  | Finished
  | RoundStarted
  | RoundTimeout
  | RoundFinished
deriving DecidableEq, Repr

/-- Modelled from the spec: the declaration of `Answer` is not part of the
sources at hand; an answer is `{text, score}`, `Text` being the display text
`ans.String()` and `Score` the point value. -/
structure Answer where
  Text : String
  Score : Int
deriving DecidableEq, Repr

/-- Modelled from the spec: the declaration of `Question` is not part of the
sources at hand; a question is `{id, text, answers}`.  Its matcher
`checkAnswer(text)`, which returns `(correct, score, index)`, is a parameter. -/
structure Question where
  ID : Int
  Text : String
  Answers : List Answer
  checkAnswer : String → Bool × Int × Int

/-- One row of a question view. -/
structure roundAnswers where
  Text : String
  Score : Int
  Answered : Bool
  PlayerName : String
  Highlight : Bool
deriving DecidableEq, Repr

/-- QNAMessage represents question and answer for a round. -/
structure QNAMessage where
  ChanID : String
  Round : Int
  QuestionText : String
  QuestionID : Int
  Answers : List roundAnswers
  ShowUnanswered : Bool
deriving DecidableEq, Repr

/-- The zero value of `QNAMessage`. -/
def QNAMessage.zero : QNAMessage :=
  { ChanID := "", Round := 0, QuestionText := "", QuestionID := 0, Answers := [],
    ShowUnanswered := false }

/-- Modelled from the spec: the declaration of `PlayerScore` is not part of the
sources at hand; an entry of a rank is `{playerId, name, score, position}`, the
fields `round.ranking` writes. -/
structure PlayerScore where
  PlayerID : PlayerID
  Name : String
  Score : Int
  Position : Int
deriving DecidableEq, Repr

/-- Modelled from the spec: the declaration of `Rank` is not part of the sources
at hand; a rank is an ordered sequence of `PlayerScore` (`ranking` appends to
it and indexes it as a slice). -/
abbrev Rank := List PlayerScore

/-- StateMessage represents state change in the game. -/
structure StateMessage where
  ChanID : String
  Round : Int
  State : State
  RoundText : QNAMessage
deriving DecidableEq, Repr

/-- RankMessage carries the cumulative rank after a round. -/
structure RankMessage where
  ChanID : String
  Round : Int
  Rank : Rank
  Final : Bool
deriving DecidableEq, Repr

/-- Message to communicate between player and the game (`interface{}`): the
message types of `game.go`, and `other` for a value of any other type. -/
inductive Message where
  | text (ChanID : String) (Player : Player) (Text : String)
  | state (m : StateMessage)
  | tick (ChanID : String)
  | wrongAnswer (ChanID : String)
  | qna (m : QNAMessage)
  | rank (m : RankMessage)
  | other
deriving DecidableEq, Repr

/-! ## `round.go` -/

/-- The round: one question, the claim slots `correct` ("" means not answered)
and the roster. -/
structure round where
  q : Question
  state : State
  correct : List PlayerID
  players : GoMap Player

/-- Go `newRound`; `nextQuestion` is what `NextQuestion(seed, totalRoundPlayed,
questionLimit)` returned (`none`: an error). -/
def newRound (nextQuestion : Option Question) (players : GoMap Player) : Option round :=
  match nextQuestion with
  | none => none
  | some q =>
    some { q := q, correct := List.replicate q.Answers.length "", state := State.Created,
           players := players }

/-- Go `r.players[pID].Name`. -/
def playerName (players : GoMap Player) (pID : PlayerID) : String :=
  ((mapGet players pID).getD Player.zero).Name

/-- The row `ra` the loop of `questionText` builds for the answer `ans` whose
slot holds `pID`. -/
def viewRow (players : GoMap Player) (pID : PlayerID) (ans : Answer) : roundAnswers :=
  if pID ≠ "" then
    { Text := ans.Text, Score := ans.Score, Answered := true,
      PlayerName := playerName players pID, Highlight := false }
  else
    { Text := ans.Text, Score := ans.Score, Answered := false,
      PlayerName := "", Highlight := false }

/-- The loop of `questionText` over `r.q.Answers`, from index `i` on. -/
def questionTextRows (r : round) : Nat → List Answer → Option (List roundAnswers)
  | _, [] => some []
  | i, ans :: rest =>
    match r.correct[i]? with
    | none => none
    | some pID =>
      match questionTextRows r (i + 1) rest with
      | none => none
      | some ras => some (viewRow r.players pID ans :: ras)

/-- Go `round.questionText`: the question view. -/
def round.questionText (r : round) (gameID : String) (showUnAnswered : Bool) :
    Option QNAMessage :=
  match questionTextRows r 0 r.q.Answers with
  | none => none
  | some ras =>
    some { ChanID := gameID, Round := 0, QuestionText := r.q.Text, QuestionID := r.q.ID,
           ShowUnanswered := showUnAnswered, Answers := ras }

/-- Go `round.finised`. -/
def round.finised (r : round) : Bool :=
  let answered : Nat := r.correct.foldl (fun n pID => if pID ≠ "" then n + 1 else n) 0
  decide (answered = r.q.Answers.length)

/-- The roster update of `answer`:
`if _, ok := r.players[p.ID]; !ok { r.players[p.ID] = p }`. -/
def round.register (r : round) (p : Player) : round :=
  match mapGet r.players p.ID with
  | none => { r with players := mapSet r.players p.ID p }
  | some _ => r

/-- Go `round.answer`: the round after the call and `(correct, answered, index)`. -/
def round.answer (r : round) (p : Player) (text : String) :
    Option (round × (Bool × Bool × Int)) :=
  if r.state ≠ State.RoundStarted then
    some (r, (false, false, -1))
  else
    let r1 : round := r.register p
    match r1.q.checkAnswer text with
    | (true, _, i) =>
      if 0 ≤ i then
        match r1.correct[i.toNat]? with
        | none => none
        | some c =>
          if c ≠ "" then
            some (r1, (true, true, i))
          else
            some ({ r1 with correct := r1.correct.set i.toNat p.ID }, (true, false, i))
      else none
    | (false, _, _) => some (r1, (false, false, -1))

/-- A sequence of `answer` calls, one after the other. -/
def answerAll : round → List (Player × String) → Option round
  | r, [] => some r
  | r, (p, text) :: rest =>
    match r.answer p text with
    | none => none
    | some (r', _) => answerAll r' rest

/-- Modelled from the spec: the `sort.Interface` methods of `Rank` are not part
of the sources at hand; the spec fixes the order of a rank as descending by
score, so `Less(i, j)` is `r[i].Score > r[j].Score`. -/
def Rank.Less (a b : PlayerScore) : Bool := decide (a.Score > b.Score)

/-- The order `sort.Sort` establishes between an earlier entry `a` and a later
entry `b`: the later one is not `Less` than the earlier one. -/
def Rank.inOrder (a b : PlayerScore) : Prop := Rank.Less b a = false

instance : DecidableRel Rank.inOrder := fun a b =>
  inferInstanceAs (Decidable (Rank.Less b a = false))

/-- Go `sort.Sort(rank)`.  The library sort is not stable; as the order in which
the entries arrive (`World.mapOrder`) is arbitrary, an insertion sort of that
arbitrary arrangement reaches every result the library sort can produce. -/
def sortRank (rk : Rank) : Rank := rk.insertionSort Rank.inOrder

/-- Go `for i := range rank { rank[i].Position = i + 1 }`, from index `i` on. -/
def setPositions : Nat → Rank → Rank
  | _, [] => []
  | i, ps :: rest => { ps with Position := (i : Int) + 1 } :: setPositions (i + 1) rest

/-- The first loop of `ranking`, over `r.correct` from index `i` on: the scores
are gathered per player in the map `lookup`. -/
def rankingLoop (r : round) : Nat → List PlayerID → GoMap PlayerScore →
    Option (GoMap PlayerScore)
  | _, [], lookup => some lookup
  | i, pID :: rest, lookup =>
    if pID ≠ "" then
      match r.q.Answers[i]? with
      | none => none
      | some ans =>
        let score := ans.Score
        match mapGet lookup pID with
        | none =>
          rankingLoop r (i + 1) rest
            (mapSet lookup pID
              { PlayerID := pID, Name := playerName r.players pID, Score := score,
                Position := 0 })
        | some ps =>
          rankingLoop r (i + 1) rest
            (mapSet lookup pID { ps with Score := intAdd ps.Score score })
    else rankingLoop r (i + 1) rest lookup

/-- Go `round.ranking`; `mapOrder` is the order in which `range lookup` yields
the entries of the map. -/
def round.ranking (mapOrder : List PlayerScore → List PlayerScore) (r : round) :
    Option Rank :=
  match rankingLoop r 0 r.correct [] with
  | none => none
  | some lookup => some (setPositions 0 (sortRank (mapOrder (mapValues lookup))))

/-- Modelled from the spec: one step of the merge, "add its score to the
matching cumulative entry (by playerId) or insert a new entry if absent". -/
def Rank.addEntry : Rank → PlayerScore → Rank
  | [], e => [e]
  | x :: xs, e =>
    if x.PlayerID = e.PlayerID then { x with Score := intAdd x.Score e.Score } :: xs
    else x :: Rank.addEntry xs e

/-- Modelled from the spec: `Rank.Add` is not part of the sources at hand;
`cumulativeRank.merge(roundRank)` merges every entry of the round rank, then
re-sorts and re-assigns positions as `ranking` does. -/
def Rank.Add (c r : Rank) : Rank := setPositions 0 (sortRank (r.foldl Rank.addEntry c))

/-! ## `game.go` -/

/-- The package variables that configure a game. -/
structure Config where
  TickAfterWrongAnswer : Bool
  RoundPerGame : Int
  DefaultQuestionLimit : Int

/-- The collaborators of the game: the question bank, the channel
configuration of `DefaultDB`, `strconv.ParseInt` (base 10), and the order in
which the runtime walks a map. -/
structure World where
  NextQuestion : Int → Int → Int → Option Question
  ChannelConfig : String → String → String → Option String
  ParseInt : String → Option Int
  mapOrder : List PlayerScore → List PlayerScore

/-- Game can consists of multiple round; `In` and `Out` are the event list and
the output list of the functions below. -/
structure Game where
  ChanID : String
  ChanName : String
  State : Fam100.State
  TotalRoundPlayed : Int
  players : GoMap Player
  seed : Int
  rank : Rank
  currentRound : Option round

/-- What the `select` of the round loop picks. -/
inductive Event where
  | msg (raw : Message)
  | tick (ready : Bool)
  | timeUp

/-- Control after one pass through the body of the round loop. -/
inductive Step where
  | next (g : Game) (r : round) (out : List Message)
  | ret (g : Game) (r : round) (out : List Message)
  | panic

/-- How a call of `startRound` ends: `failed` returns the error of `newRound`,
`returned` returns `nil` leaving the events `rest` unhandled, `waiting` is a loop
that has handled every event given and sits in its `select`. -/
inductive RoundOutcome where
  | failed (g : Game)
  | returned (g : Game) (r : round) (out : List Message) (rest : List Event)
  | waiting (g : Game) (r : round) (out : List Message)
  | panic

/-- Go `Game.updateRanking`. -/
def Game.updateRanking (g : Game) (r : Rank) : Game := { g with rank := Rank.Add g.rank r }

/-- Go `qnaText.Answers[idx].Highlight = true`. -/
def setHighlight (m : QNAMessage) (idx : Int) : Option QNAMessage :=
  if 0 ≤ idx then
    match m.Answers[idx.toNat]? with
    | none => none
    | some ra => some { m with Answers := m.Answers.set idx.toNat { ra with Highlight := true } }
  else none

/-- The `case rawMsg := <-g.In` branch of the round loop. -/
def Game.handleMessage (cfg : Config) (w : World) (g : Game) (r : round) (currentRound : Int)
    (rawMsg : Message) : Step :=
  match rawMsg with
  | Message.text _ player answer =>
    match r.answer player answer with
    | none => Step.panic
    | some (r1, (correct, alreadyAnswered, idx)) =>
      let g1 : Game := { g with players := r1.players, currentRound := some r1 }
      if !correct then
        Step.next g1 r1 (if cfg.TickAfterWrongAnswer then [Message.wrongAnswer g.ChanID] else [])
      else if alreadyAnswered then
        if 0 ≤ idx then
          match r1.correct[idx.toNat]? with
          | none => Step.panic
          | some _ => Step.next g1 r1 []
        else Step.panic
      else
        match r1.questionText g.ChanID false with
        | none => Step.panic
        | some qnaText =>
          match setHighlight qnaText idx with
          | none => Step.panic
          | some qnaText =>
            if r1.finised then
              let r2 : round := { r1 with state := State.RoundFinished }
              match r2.ranking w.mapOrder with
              | none => Step.panic
              | some rk =>
                Step.ret ({ g1 with currentRound := some r2 }.updateRanking rk) r2
                  [Message.qna qnaText,
                   Message.state { ChanID := g.ChanID, State := State.RoundFinished,
                                   Round := currentRound, RoundText := QNAMessage.zero }]
            else Step.next g1 r1 [Message.qna qnaText]
  | _ => Step.next g r []

/-- The `case <-timeUp` branch of the round loop. -/
def Game.handleTimeUp (w : World) (g : Game) (r : round) (currentRound : Int) : Step :=
  let g1 : Game := { g with State := State.RoundFinished }
  match r.ranking w.mapOrder with
  | none => Step.panic
  | some rk =>
    let g2 := g1.updateRanking rk
    match r.questionText g.ChanID true with
    | none => Step.panic
    | some qnaText =>
      Step.ret g2 r
        [Message.state { ChanID := g.ChanID, State := State.RoundTimeout,
                         Round := currentRound, RoundText := QNAMessage.zero },
         Message.qna qnaText]

/-- One pass through the `select` of the round loop. -/
def Game.handleEvent (cfg : Config) (w : World) (g : Game) (r : round) (currentRound : Int) :
    Event → Step
  | Event.msg rawMsg => g.handleMessage cfg w r currentRound rawMsg
  | Event.tick ready => Step.next g r (if ready then [Message.tick g.ChanID] else [])
  | Event.timeUp => g.handleTimeUp w r currentRound

/-- Puts the messages sent before in front of the output of an outcome. -/
def RoundOutcome.emit (pre : List Message) : RoundOutcome → RoundOutcome
  | RoundOutcome.returned g r out rest => RoundOutcome.returned g r (pre ++ out) rest
  | RoundOutcome.waiting g r out => RoundOutcome.waiting g r (pre ++ out)
  | RoundOutcome.failed g => RoundOutcome.failed g
  | RoundOutcome.panic => RoundOutcome.panic

/-- The `for { select { ... } }` loop of `startRound` on the events given. -/
def Game.roundLoop (cfg : Config) (w : World) (currentRound : Int) :
    Game → round → List Event → RoundOutcome
  | g, r, [] => RoundOutcome.waiting g r []
  | g, r, ev :: rest =>
    match g.handleEvent cfg w r currentRound ev with
    | Step.next g1 r1 out => (Game.roundLoop cfg w currentRound g1 r1 rest).emit out
    | Step.ret g1 r1 out => RoundOutcome.returned g1 r1 out rest
    | Step.panic => RoundOutcome.panic

/-- The question limit `startRound` computes from the channel configuration. -/
def Game.questionLimit (cfg : Config) (w : World) (g : Game) : Int :=
  match w.ChannelConfig g.ChanID "questionLimit" "" with
  | some limitConf =>
    if limitConf ≠ "" then
      match w.ParseInt limitConf with
      | some limit => limit
      | none => cfg.DefaultQuestionLimit
    else cfg.DefaultQuestionLimit
  | none => cfg.DefaultQuestionLimit

/-- Go `Game.startRound`, on the events its loop picks. -/
def Game.startRound (cfg : Config) (w : World) (g : Game) (currentRound : Int)
    (events : List Event) : RoundOutcome :=
  let g1 : Game := { g with TotalRoundPlayed := intAdd g.TotalRoundPlayed 1 }
  let questionLimit := g1.questionLimit cfg w
  match newRound (w.NextQuestion g1.seed g1.TotalRoundPlayed questionLimit) g1.players with
  | none => RoundOutcome.failed g1
  | some r0 =>
    let r : round := { r0 with state := State.RoundStarted }
    let g2 : Game := { g1 with currentRound := some r }
    match r.questionText g2.ChanID false with
    | none => RoundOutcome.panic
    | some qnaText =>
      (Game.roundLoop cfg w currentRound g2 r events).emit
        [Message.state { ChanID := g2.ChanID, State := State.RoundStarted,
                         Round := currentRound, RoundText := qnaText }]

/-- The loop `for i := 1; i <= RoundPerGame; i++` of `Start` with `k` passes
left, at counter `i`; `sched i` are the events the loop of round `i` picks.
The result is `none` when a round neither returns nor fails. -/
def Game.startRounds (cfg : Config) (w : World) (sched : Int → List Event) :
    Nat → Int → Game → Option (Game × List Message)
  | 0, _, g => some (g, [])
  | k + 1, i, g =>
    let afterRound : Option (Game × List Message) :=
      match g.startRound cfg w i (sched i) with
      | RoundOutcome.failed g1 => some (g1, [])
      | RoundOutcome.returned g1 _ out _ => some (g1, out)
      | RoundOutcome.waiting _ _ _ => none
      | RoundOutcome.panic => none
    match afterRound with
    | none => none
    | some (g1, out) =>
      let final : Bool := decide (i = cfg.RoundPerGame)
      let rankMsg := Message.rank { ChanID := g1.ChanID, Round := i, Rank := g1.rank, Final := final }
      match Game.startRounds cfg w sched k (i + 1) g1 with
      | none => none
      | some (g2, outs) => some (g2, out ++ rankMsg :: outs)

/-- Go `Game.Start`: the state of the game after its task has run and what the
task sent on `g.Out`. -/
def Game.Start (cfg : Config) (w : World) (sched : Int → List Event) (g : Game) :
    Option (Game × List Message) :=
  let g0 : Game := { g with State := State.Started }
  match Game.startRounds cfg w sched cfg.RoundPerGame.toNat 1 g0 with
  | none => none
  | some (g1, outs) =>
    some ({ g1 with State := State.Finished },
      Message.state { ChanID := g0.ChanID, Round := 0, State := State.Started,
                      RoundText := QNAMessage.zero } :: outs ++
      [Message.state { ChanID := g1.ChanID, Round := 0, State := State.Finished,
                       RoundText := QNAMessage.zero }])

/-! ## Notions the statements about `ranking` are written with -/

/-- The claim slots of a round, each paired with the answer it belongs to. -/
def round.slots (r : round) : List (PlayerID × Answer) := r.correct.zip r.q.Answers

/-- The sum of the scores of the slots in `slots` that `pid` holds. -/
def heldSum (slots : List (PlayerID × Answer)) (pid : PlayerID) : Int :=
  ((slots.filter (fun s => decide (s.1 = pid))).map (fun s => s.2.Score)).sum

/-- The sum of the scores of the slots in `slots` that are claimed. -/
def claimedSum (slots : List (PlayerID × Answer)) : Int :=
  ((slots.filter (fun s => decide (s.1 ≠ ""))).map (fun s => s.2.Score)).sum

/-- The sum of the scores of the answers whose slots `pid` holds in `r`. -/
def round.heldScore (r : round) (pid : PlayerID) : Int := heldSum r.slots pid

/-- The total score of all claimed slots of `r`. -/
def round.claimedScore (r : round) : Int := claimedSum r.slots

/-- The body of the first loop of `ranking` for the slot `s`, as a function of
the map gathered so far (the index is in range, so there is no panic). -/
def rankStep (players : GoMap Player) (lookup : GoMap PlayerScore)
    (s : PlayerID × Answer) : GoMap PlayerScore :=
  if s.1 ≠ "" then
    match mapGet lookup s.1 with
    | none =>
      mapSet lookup s.1
        { PlayerID := s.1, Name := playerName players s.1, Score := s.2.Score, Position := 0 }
    | some ps => mapSet lookup s.1 { ps with Score := intAdd ps.Score s.2.Score }
  else lookup

/-- The score the map `m` holds for the key `k`, 0 when there is none. -/
def scoreOf (m : GoMap PlayerScore) (k : PlayerID) : Int :=
  match mapGet m k with
  | none => 0
  | some ps => ps.Score

/-- Every value of the map is stored under its own player id. -/
def KeyOK (m : GoMap PlayerScore) : Prop := ∀ k v, mapGet m k = some v → v.PlayerID = k

/-- The map `ranking` has gathered when its first loop ends. -/
def round.gathered (r : round) : GoMap PlayerScore := r.slots.foldl (rankStep r.players) []

/-! ## Notions the statements about the game are written with -/

/-- The matcher of the question reports only indices of its answers. -/
def Question.inBounds (q : Question) : Prop :=
  ∀ text, (q.checkAnswer text).1 = true →
    0 ≤ (q.checkAnswer text).2.2 ∧ (q.checkAnswer text).2.2 < q.Answers.length

/-- A round with one claim slot per answer whose matcher stays in bounds. -/
def round.wellFormed (r : round) : Prop :=
  r.correct.length = r.q.Answers.length ∧ r.q.inBounds

/-- The ranking events among the messages sent: round number and final flag. -/
def rankEvents (out : List Message) : List (Int × Bool) :=
  out.filterMap (fun m =>
    match m with
    | Message.rank rm => some (rm.Round, rm.Final)
    | _ => none)

/-- The round a call of `startRound` leaves behind, if it returned `nil`. -/
def RoundOutcome.round? : RoundOutcome → Option round
  | RoundOutcome.returned _ r _ _ => some r
  | _ => none

/-- The game a call of `startRound` leaves behind, if it returned. -/
def RoundOutcome.game? : RoundOutcome → Option Game
  | RoundOutcome.returned g _ _ _ => some g
  | RoundOutcome.failed g => some g
  | _ => none

/-- The messages a call of `startRound` sent. -/
def RoundOutcome.out : RoundOutcome → List Message
  | RoundOutcome.returned _ _ out _ => out
  | RoundOutcome.waiting _ _ out => out
  | _ => []

/-- The collaborators of a small world: the question bank answers by the round
index alone, as `bank` says; the channel has no configuration; the runtime
walks a map in the order of insertion. -/
def worldOf (bank : Int → Option Question) : World :=
  { NextQuestion := fun _ totalRoundPlayed _ => bank totalRoundPlayed,
    ChannelConfig := fun _ _ _ => none,
    ParseInt := fun _ => none,
    mapOrder := id }

/-! ## Concrete rounds used to evaluate the definitions -/

/-- A question with the answers "nasi" (40 points) and "mie" (25 points); the
matcher knows these two texts. -/
def demoQuestion : Question :=
  { ID := 7, Text := "makanan pokok", Answers := [{ Text := "nasi", Score := 40 }, { Text := "mie", Score := 25 }],
    checkAnswer := fun t =>
      if t = "nasi" then (true, 40, 0) else if t = "mie" then (true, 25, 1) else (false, 0, -1) }

/-- A started round on `demoQuestion`, no slot claimed, empty roster. -/
def demoRound : round :=
  { q := demoQuestion, state := State.RoundStarted, correct := ["", ""], players := [] }

/-- A player with id and name. -/
def ani : Player := { ID := "u1", Name := "Ani" }

/-- A second player. -/
def budi : Player := { ID := "u2", Name := "Budi" }

/-- A player value whose id is the empty string. -/
def noID : Player := { ID := "", Name := "anon" }

/-- The round `demoRound` after Ani has claimed "nasi". -/
def demoRound1 : round :=
  { demoRound with correct := ["u1", ""], players := [("u1", ani)] }

/-- The round `demoRound1` after Budi has claimed "mie". -/
def demoRound2 : round :=
  { demoRound with correct := ["u1", "u2"], players := [("u1", ani), ("u2", budi)] }

/-- The package variables as `game.go` initialises them. -/
def demoConfig : Config :=
  { TickAfterWrongAnswer := false, RoundPerGame := 3, DefaultQuestionLimit := 450 }

/-- A game as `NewGame` builds it, for a channel that has played no round. -/
def demoGame : Game :=
  { ChanID := "c1", ChanName := "kanal", State := State.Created, TotalRoundPlayed := 0,
    players := [], seed := 5, rank := [], currentRound := none }

/-- A question bank that has no question for round index 2. -/
def demoBank (totalRoundPlayed : Int) : Option Question :=
  if totalRoundPlayed = 2 then none else some demoQuestion

/-- The events of the rounds of a game: in round 1 Ani and Budi find both
answers before the deadline; in the other rounds a wrong guess and a tick come
before the deadline. -/
def demoSched (i : Int) : List Event :=
  if i = 1 then
    [Event.msg (Message.text "c1" ani "nasi"), Event.msg (Message.text "c1" budi "mie"),
     Event.timeUp]
  else
    [Event.msg (Message.text "c1" ani "roti"), Event.tick true, Event.timeUp]

/-! ## Further notions: counts, traces of the messages sent, scores of a rank -/

/-- The number of claimed slots of a round. -/
def round.claimedCount (r : round) : Nat := r.correct.countP (fun pID => decide (pID ≠ ""))

/-- A question without answers. -/
def emptyQuestion : Question :=
  { ID := 9, Text := "kosong", Answers := [], checkAnswer := fun _ => (false, 0, -1) }

/-- The number of question views among the messages sent. -/
def qnaCount (out : List Message) : Nat :=
  out.countP (fun m =>
    match m with
    | Message.qna _ => true
    | _ => false)

/-- The number of state-changed events with state RoundFinished among the
messages sent. -/
def finishedCount (out : List Message) : Nat :=
  out.countP (fun m =>
    match m with
    | Message.state sm => decide (sm.State = State.RoundFinished)
    | _ => false)

/-- An event other than the deadline; if it is a text message, its player has
a non-empty id. -/
def Event.beforeDeadline : Event → Prop
  | Event.timeUp => False
  | Event.msg (Message.text _ player _) => player.ID ≠ ""
  | _ => True

/-- Events of a round before its deadline: Ani finds "nasi", a tick, Budi
guesses wrongly and repeats "nasi", then finds "mie"; one more message
follows. -/
def demoEvents : List Event :=
  [Event.msg (Message.text "c1" ani "nasi"), Event.tick true,
   Event.msg (Message.text "c1" budi "roti"), Event.msg (Message.text "c1" budi "nasi"),
   Event.msg (Message.text "c1" budi "mie"), Event.msg (Message.text "c1" ani "mie")]

/-- The rounds that started, as the messages sent show them: round number, id
and text of the question of every state-changed event with state
RoundStarted. -/
def roundStarts (out : List Message) : List (Int × Int × String) :=
  out.filterMap (fun m =>
    match m with
    | Message.state sm =>
      if sm.State = State.RoundStarted then
        some (sm.Round, sm.RoundText.QuestionID, sm.RoundText.QuestionText)
      else none
    | _ => none)

/-- A question bank that returns, for round index `n`, a question whose id is
`n`, and nothing for the index 2. -/
def indexBank (totalRoundPlayed : Int) : Option Question :=
  if totalRoundPlayed = 2 then none else some { demoQuestion with ID := totalRoundPlayed }

/-- The score a rank holds for a player id, 0 when it has no entry for it. -/
def rankScore : Rank → PlayerID → Int
  | [], _ => 0
  | e :: rest, pid => if e.PlayerID = pid then e.Score else rankScore rest pid

/-- The player ids of a rank, in its order. -/
def rankIDs (rk : Rank) : List PlayerID := rk.map (fun e => e.PlayerID)

/-- The rank of a round in which A scored 10. -/
def rankA10 : Rank := [{ PlayerID := "A", Name := "Ani", Score := 10, Position := 1 }]

/-- The rank of a round in which B scored 20 and A scored 5. -/
def rankB20A5 : Rank :=
  [{ PlayerID := "B", Name := "Budi", Score := 20, Position := 1 },
   { PlayerID := "A", Name := "Ani", Score := 5, Position := 2 }]

/-! ## `answer` -/

theorem register_q (r : round) (p : Player) : (r.register p).q = r.q := by
  unfold round.register; split <;> rfl

theorem register_correct (r : round) (p : Player) : (r.register p).correct = r.correct := by
  unfold round.register; split <;> rfl

theorem register_state (r : round) (p : Player) : (r.register p).state = r.state := by
  unfold round.register; split <;> rfl

/-- The result of `answer` in a started round on a text the matcher accepts
for slot `i`, by the content `c` of that slot. -/
theorem answer_started_match (r : round) (p : Player) (text : String) (s : Int) (i : Nat)
    (c : PlayerID) (hstate : r.state = State.RoundStarted)
    (hc : r.q.checkAnswer text = (true, s, (i : Int))) (hslot : r.correct[i]? = some c) :
    r.answer p text =
      if c ≠ "" then some (r.register p, (true, true, (i : Int)))
      else some ({ r.register p with correct := r.correct.set i p.ID }, (true, false, (i : Int))) := by
  unfold round.answer
  simp [hstate, register_q, register_correct, hc, hslot]

/-- The result of `answer` in a started round on a text the matcher rejects. -/
theorem answer_started_nomatch (r : round) (p : Player) (text : String) (s i : Int)
    (hstate : r.state = State.RoundStarted) (hc : r.q.checkAnswer text = (false, s, i)) :
    r.answer p text = some (r.register p, (false, false, -1)) := by
  unfold round.answer
  simp [hstate, register_q, hc]

/-- Every returning call of `answer` is of one of four kinds. -/
theorem answer_cases (r r' : round) (p : Player) (text : String) (res : Bool × Bool × Int)
    (h : r.answer p text = some (r', res)) :
    (r' = r ∧ res = (false, false, -1) ∧ r.state ≠ State.RoundStarted) ∨
    (r' = r.register p ∧ res = (false, false, -1) ∧ r.state = State.RoundStarted) ∨
    (∃ i : Nat, ∃ c, r.correct[i]? = some c ∧ c ≠ "" ∧ r' = r.register p ∧
      res = (true, true, (i : Int)) ∧ r.state = State.RoundStarted) ∨
    (∃ i : Nat, r.correct[i]? = some "" ∧
      r' = { r.register p with correct := r.correct.set i p.ID } ∧
      res = (true, false, (i : Int)) ∧ r.state = State.RoundStarted) := by
  by_cases hstate : r.state = State.RoundStarted
  · rcases hq : r.q.checkAnswer text with ⟨b, s, i⟩
    cases b
    · rw [answer_started_nomatch r p text s i hstate hq] at h
      simp only [Option.some.injEq, Prod.mk.injEq] at h
      exact Or.inr (Or.inl ⟨h.1.symm, h.2.symm, hstate⟩)
    · by_cases hi : 0 ≤ i
      · obtain ⟨n, rfl⟩ := Int.eq_ofNat_of_zero_le hi
        cases hslot : r.correct[n]? with
        | none =>
          unfold round.answer at h
          simp [hstate, register_q, register_correct, hq, hslot] at h
        | some c =>
          rw [answer_started_match r p text s n c hstate hq hslot] at h
          by_cases hcne : c = ""
          · subst hcne
            simp only [ne_eq, not_true_eq_false, if_false, Option.some.injEq,
              Prod.mk.injEq] at h
            exact Or.inr (Or.inr (Or.inr ⟨n, hslot, h.1.symm,
              h.2.symm, hstate⟩))
          · simp only [ne_eq, hcne, not_false_eq_true, if_true, Option.some.injEq,
              Prod.mk.injEq] at h
            exact Or.inr (Or.inr (Or.inl ⟨n, c, hslot, hcne, h.1.symm,
              h.2.symm, hstate⟩))
      · unfold round.answer at h
        simp [hstate, register_q, hq, hi] at h
  · unfold round.answer at h
    simp only [ne_eq, hstate, not_false_eq_true, if_true, Option.some.injEq,
      Prod.mk.injEq] at h
    exact Or.inl ⟨h.1.symm, h.2.symm, hstate⟩

/-- One returning call of `answer` keeps the number of slots, changes no slot
other than an unclaimed one, and that only when it reports a new claim of it. -/
theorem answer_changes (r r' : round) (p : Player) (text : String) (res : Bool × Bool × Int)
    (h : r.answer p text = some (r', res)) :
    r'.correct.length = r.correct.length ∧
    ∀ j : Nat, r'.correct[j]? ≠ r.correct[j]? →
      r.correct[j]? = some "" ∧ res = (true, false, (j : Int)) := by
  rcases answer_cases r r' p text res h with
    ⟨rfl, _, _⟩ | ⟨rfl, _, _⟩ | ⟨i, c, _, _, rfl, _, _⟩ | ⟨i, hslot, rfl, hres, _⟩
  · exact ⟨rfl, fun j hj => absurd rfl hj⟩
  · exact ⟨by rw [register_correct], fun j hj => absurd (by rw [register_correct]) hj⟩
  · exact ⟨by rw [register_correct], fun j hj => absurd (by rw [register_correct]) hj⟩
  · refine ⟨by simp, fun j hj => ?_⟩
    by_cases hij : i = j
    · subst hij
      exact ⟨hslot, hres⟩
    · exact absurd (by simp [List.getElem?_set_ne hij]) hj

/-- A slot that holds a player id holds the same id after a call of `answer`. -/
theorem answer_keeps_claimed (r r' : round) (p : Player) (text : String)
    (res : Bool × Bool × Int) (h : r.answer p text = some (r', res)) (j : Nat)
    (pid : PlayerID) (hj : r.correct[j]? = some pid) (hpid : pid ≠ "") :
    r'.correct[j]? = some pid := by
  by_contra hne
  have hch := (answer_changes r r' p text res h).2 j (by rw [hj]; exact hne)
  rw [hj] at hch
  exact hpid (Option.some.inj hch.1)

/-- A slot that holds a player id holds the same id after any sequence of
calls of `answer`. -/
theorem answerAll_keeps_claimed (calls : List (Player × String)) (r r' : round)
    (h : answerAll r calls = some r') (j : Nat) (pid : PlayerID)
    (hj : r.correct[j]? = some pid) (hpid : pid ≠ "") : r'.correct[j]? = some pid := by
  induction calls generalizing r with
  | nil =>
    simp only [answerAll, Option.some.injEq] at h
    rw [← h]; exact hj
  | cons call rest ih =>
    obtain ⟨p, text⟩ := call
    simp only [answerAll] at h
    cases hfirst : r.answer p text with
    | none => rw [hfirst] at h; exact absurd h (by simp)
    | some out =>
      obtain ⟨r1, res⟩ := out
      rw [hfirst] at h
      exact ih r1 h (answer_keeps_claimed r r1 p text res hfirst j pid hj hpid)

/-- C1 (as amended): in a round in state RoundStarted, for players p1 (with a
non-empty id) and p2, equal or different, and texts t1, t2 that both match the
unclaimed slot i, the call answer(p1, t1) returns (true, false, i), the call
answer(p2, t2) that follows returns (true, true, i), and slot i then holds the
id of p1. -/
theorem answer_twice_same_slot (r : round) (p1 p2 : Player) (t1 t2 : String) (s1 s2 : Int)
    (i : Nat) (hstate : r.state = State.RoundStarted)
    (h1 : r.q.checkAnswer t1 = (true, s1, (i : Int)))
    (h2 : r.q.checkAnswer t2 = (true, s2, (i : Int)))
    (hslot : r.correct[i]? = some "") (hid : p1.ID ≠ "") :
    ∃ r1 r2, r.answer p1 t1 = some (r1, (true, false, (i : Int))) ∧
      r1.answer p2 t2 = some (r2, (true, true, (i : Int))) ∧
      r2.correct[i]? = some p1.ID := by
  have hlt : i < r.correct.length := (List.getElem?_eq_some_iff.mp hslot).1
  have hfirst := answer_started_match r p1 t1 s1 i "" hstate h1 hslot
  simp only [ne_eq, not_true_eq_false, if_false] at hfirst
  have hset : (r.correct.set i p1.ID)[i]? = some p1.ID := List.getElem?_set_self hlt
  have hsecond := answer_started_match
    { r.register p1 with correct := r.correct.set i p1.ID } p2 t2 s2 i p1.ID
    (by simpa [register_state] using hstate) (by simpa [register_q] using h2) hset
  simp only [ne_eq, hid, not_false_eq_true, if_true] at hsecond
  exact ⟨_, _, hfirst, hsecond, by rw [register_correct]; exact hset⟩

/-- Witness of C1 (as amended): Ani claims "nasi", Budi repeats it. -/
theorem answer_twice_same_slot_witness :
    demoRound.state = State.RoundStarted ∧
    demoRound.q.checkAnswer "nasi" = (true, 40, ((0 : Nat) : Int)) ∧
    demoRound.correct[0]? = some "" ∧ ani.ID ≠ "" ∧
    ∃ r1 r2, demoRound.answer ani "nasi" = some (r1, (true, false, ((0 : Nat) : Int))) ∧
      r1.answer budi "nasi" = some (r2, (true, true, ((0 : Nat) : Int))) ∧
      r2.correct[0]? = some ani.ID :=
  ⟨rfl, rfl, rfl, by decide,
    answer_twice_same_slot demoRound ani budi "nasi" "nasi" 40 40 0 rfl rfl rfl rfl (by decide)⟩

/-- C1 (counterexample): a first claimant whose id is the empty string leaves
the slot at "", so the second call, by Budi, is reported as a new claim
(true, false, 0) and puts Budi into the slot; it is not (true, true, 0) with
the first claimant kept, as the claim says it is for every two players. -/
theorem answer_twice_empty_id_counterexample :
    demoRound.state = State.RoundStarted ∧
    demoRound.q.checkAnswer "nasi" = (true, 40, 0) ∧
    demoRound.correct[0]? = some "" ∧
    (demoRound.answer noID "nasi").map Prod.snd = some (true, false, 0) ∧
    (∀ r1 res, demoRound.answer noID "nasi" = some (r1, res) →
      (r1.answer budi "nasi").map (fun o => (o.2, o.1.correct[0]?)) =
        some ((true, false, 0), some "u2")) ∧
    ¬ ∃ r1 r2, demoRound.answer noID "nasi" = some (r1, (true, false, 0)) ∧
      r1.answer budi "nasi" = some (r2, (true, true, 0)) ∧
      r2.correct[0]? = some noID.ID := by
  have hfirst : demoRound.answer noID "nasi" =
      some ({ demoRound with players := [("", noID)] }, (true, false, 0)) := rfl
  have hsecond : ({ demoRound with players := [("", noID)] } : round).answer budi "nasi" =
      some ({ demoRound with correct := ["u2", ""], players := [("", noID), ("u2", budi)] },
        (true, false, 0)) := rfl
  refine ⟨rfl, rfl, rfl, by rw [hfirst]; rfl, ?_, ?_⟩
  · intro r1 res h
    rw [hfirst] at h
    simp only [Option.some.injEq, Prod.mk.injEq] at h
    rw [← h.1, hsecond]
    rfl
  · rintro ⟨r1, r2, h1, h2, _⟩
    rw [hfirst] at h1
    simp only [Option.some.injEq, Prod.mk.injEq, and_true] at h1
    rw [← h1, hsecond] at h2
    simp at h2

/-- C2: a returning call of answer keeps the number of claim slots; a slot it
changes was unclaimed ("") before the call and is the one slot the call reports
as newly claimed, so at most one slot changes; every slot that held a player id
holds the same id after the call, and still does after any sequence of further
calls of answer. -/
theorem answer_claimed_slot_never_changes (r r' r'' : round) (p : Player) (text : String)
    (res : Bool × Bool × Int) (calls : List (Player × String))
    (h : r.answer p text = some (r', res)) (hs : answerAll r' calls = some r'') :
    r'.correct.length = r.correct.length ∧
    (∀ j : Nat, r'.correct[j]? ≠ r.correct[j]? →
      r.correct[j]? = some "" ∧ res = (true, false, (j : Int))) ∧
    (∀ j k : Nat, r'.correct[j]? ≠ r.correct[j]? → r'.correct[k]? ≠ r.correct[k]? → j = k) ∧
    (∀ (j : Nat) pid, r.correct[j]? = some pid → pid ≠ "" → r'.correct[j]? = some pid) ∧
    (∀ (j : Nat) pid, r.correct[j]? = some pid → pid ≠ "" → r''.correct[j]? = some pid) := by
  have hch := answer_changes r r' p text res h
  refine ⟨hch.1, hch.2, ?_, ?_, ?_⟩
  · intro j k hj hk
    have e1 := (hch.2 j hj).2
    have e2 := (hch.2 k hk).2
    rw [e1] at e2
    simp only [Prod.mk.injEq, true_and] at e2
    exact_mod_cast e2
  · intro j pid hj hpid
    exact answer_keeps_claimed r r' p text res h j pid hj hpid
  · intro j pid hj hpid
    exact answerAll_keeps_claimed calls r' r'' hs j pid
      (answer_keeps_claimed r r' p text res h j pid hj hpid) hpid

/-- Witness of C2: Ani claims "nasi"; then Budi repeats "nasi", claims "mie",
and Ani repeats "mie". -/
theorem answer_claimed_slot_never_changes_witness :
    demoRound.answer ani "nasi" = some (demoRound1, (true, false, 0)) ∧
    answerAll demoRound1 [(budi, "nasi"), (budi, "mie"), (ani, "mie")] = some demoRound2 ∧
    demoRound1.correct.length = demoRound.correct.length ∧
    (∀ j : Nat, demoRound1.correct[j]? ≠ demoRound.correct[j]? →
      demoRound.correct[j]? = some "" ∧ ((true, false, 0) : Bool × Bool × Int) = (true, false, (j : Int))) ∧
    (∀ j k : Nat, demoRound1.correct[j]? ≠ demoRound.correct[j]? →
      demoRound1.correct[k]? ≠ demoRound.correct[k]? → j = k) ∧
    (∀ (j : Nat) pid, demoRound.correct[j]? = some pid → pid ≠ "" →
      demoRound1.correct[j]? = some pid) ∧
    (∀ (j : Nat) pid, demoRound.correct[j]? = some pid → pid ≠ "" →
      demoRound2.correct[j]? = some pid) :=
  ⟨rfl, rfl,
    answer_claimed_slot_never_changes demoRound demoRound1 demoRound2 ani "nasi" (true, false, 0)
      [(budi, "nasi"), (budi, "mie"), (ani, "mie")] rfl rfl⟩

/-- C3: in a round whose state is not RoundStarted, answer returns
(false, false, -1) for every player and every text, whatever the matcher says
about the text, and the round after the call is the round before it: claim
slots, roster and state are unchanged. -/
theorem answer_outside_round_started (r : round) (p : Player) (text : String)
    (hstate : r.state ≠ State.RoundStarted) :
    r.answer p text = some (r, (false, false, -1)) := by
  unfold round.answer
  simp [hstate]

/-- Witness of C3: a round still in state Created and a finished round, on a
text that matches an unclaimed slot. -/
theorem answer_outside_round_started_witness :
    ({ demoRound with state := State.Created } : round).state ≠ State.RoundStarted ∧
    ({ demoRound with state := State.Created } : round).q.checkAnswer "nasi" = (true, 40, 0) ∧
    ({ demoRound with state := State.Created } : round).correct[0]? = some "" ∧
    ({ demoRound with state := State.Created } : round).answer ani "nasi" =
      some ({ demoRound with state := State.Created }, (false, false, -1)) :=
  ⟨by decide, rfl, rfl,
    answer_outside_round_started { demoRound with state := State.Created } ani "nasi"
      (by decide)⟩

/-! ## `finised` -/

/-- The counting loop of `finised` adds the number of claimed slots. -/
theorem finised_count (l : List PlayerID) (k : Nat) :
    l.foldl (fun n pID => if pID ≠ "" then n + 1 else n) k =
      k + l.countP (fun pID => decide (pID ≠ "")) := by
  induction l generalizing k with
  | nil => simp
  | cons a l ih =>
    rw [List.foldl_cons, ih, List.countP_cons]
    by_cases ha : a = ""
    · simp [ha]
    · simp [ha]
      omega

/-- The result of `finised` as a count of claimed slots. -/
theorem finised_eq (r : round) :
    r.finised = decide (r.correct.countP (fun pID => decide (pID ≠ "")) = r.q.Answers.length) := by
  unfold round.finised
  simp only [finised_count, Nat.zero_add]

/-- C4: for a round with one claim slot per answer, finised() is true if and
only if every claim slot holds a non-empty player id; it is false as soon as
one slot is unclaimed. -/
theorem finised_iff_all_claimed (r : round) (hlen : r.correct.length = r.q.Answers.length) :
    (r.finised = true ↔ ∀ pID ∈ r.correct, pID ≠ "") ∧
    ("" ∈ r.correct → r.finised = false) := by
  have hiff : r.finised = true ↔ ∀ pID ∈ r.correct, pID ≠ "" := by
    rw [finised_eq, ← hlen, decide_eq_true_iff, List.countP_eq_length]
    simp
  refine ⟨hiff, fun hmem => ?_⟩
  cases hf : r.finised with
  | false => rfl
  | true => exact absurd rfl (hiff.mp hf "" hmem)

/-- Witness of C4: the round with both slots claimed, one slot per answer. -/
theorem finised_iff_all_claimed_witness :
    demoRound2.correct.length = demoRound2.q.Answers.length ∧
    ((demoRound2.finised = true ↔ ∀ pID ∈ demoRound2.correct, pID ≠ "") ∧
     ("" ∈ demoRound2.correct → demoRound2.finised = false)) :=
  ⟨rfl, finised_iff_all_claimed demoRound2 rfl⟩

/-! ## Machine addition -/

theorem wrapInt_of_inRange (x : Int) (h : inRange x) : wrapInt x = x := by
  unfold wrapInt; unfold inRange at h; omega

theorem wrapInt_inRange (x : Int) : inRange (wrapInt x) := by
  unfold wrapInt inRange; omega

theorem wrapInt_add_left (a b : Int) : wrapInt (wrapInt a + b) = wrapInt (a + b) := by
  unfold wrapInt; omega

theorem wrapInt_add_right (a b : Int) : wrapInt (a + wrapInt b) = wrapInt (a + b) := by
  unfold wrapInt; omega

theorem inRange_zero : inRange 0 := by
  unfold inRange; omega

/-- A sum of wrapped summands and the sum itself agree after wrapping. -/
theorem wrapInt_sum_map_wrapInt {α : Type} (f : α → Int) (l : List α) :
    wrapInt ((l.map (fun x => wrapInt (f x))).sum) = wrapInt ((l.map f).sum) := by
  induction l with
  | nil => rfl
  | cons a l ih =>
    simp only [List.map_cons, List.sum_cons]
    rw [wrapInt_add_left, ← wrapInt_add_right (f a), ih, wrapInt_add_right]

/-! ## Maps -/

theorem mapGet_eq_none_iff {β : Type} (m : GoMap β) (k : String) :
    mapGet m k = none ↔ k ∉ mapKeys m := by
  induction m with
  | nil => simp [mapGet, mapKeys]
  | cons kv m ih =>
    obtain ⟨k', v⟩ := kv
    by_cases h : k' = k
    · simp [mapGet, mapKeys, h]
    · have h' : ¬ k = k' := fun e => h e.symm
      simpa [mapGet, mapKeys, h, h'] using ih

theorem mapGet_mapSet_self {β : Type} (m : GoMap β) (k : String) (v : β) :
    mapGet (mapSet m k v) k = some v := by
  induction m with
  | nil => simp [mapGet, mapSet]
  | cons kv m ih =>
    obtain ⟨k', v'⟩ := kv
    by_cases h : k' = k
    · simp [mapGet, mapSet, h]
    · simp [mapGet, mapSet, h, ih]

theorem mapGet_mapSet_ne {β : Type} (m : GoMap β) (k k' : String) (v : β) (hne : k' ≠ k) :
    mapGet (mapSet m k v) k' = mapGet m k' := by
  induction m with
  | nil =>
    have : ¬ k = k' := fun e => hne e.symm
    simp [mapGet, mapSet, this]
  | cons kv m ih =>
    obtain ⟨k₀, v₀⟩ := kv
    by_cases h : k₀ = k
    · have : ¬ k = k' := fun e => hne e.symm
      subst h
      simp [mapGet, mapSet, this]
    · by_cases h2 : k₀ = k'
      · subst h2
        simp [mapGet, mapSet, h]
      · simp [mapGet, mapSet, h, h2, ih]

theorem mapKeys_mapSet {β : Type} (m : GoMap β) (k : String) (v : β) :
    mapKeys (mapSet m k v) = if k ∈ mapKeys m then mapKeys m else mapKeys m ++ [k] := by
  induction m with
  | nil => simp [mapSet, mapKeys]
  | cons kv m ih =>
    obtain ⟨k₀, v₀⟩ := kv
    by_cases h : k₀ = k
    · subst h
      simp [mapSet, mapKeys]
    · have h' : ¬ k = k₀ := fun e => h e.symm
      unfold mapKeys at ih
      by_cases hm : k ∈ List.map Prod.fst m
      · simp [mapSet, mapKeys, h, h', hm, ih]
      · simp [mapSet, mapKeys, h, h', hm, ih]

theorem mem_mapKeys_mapSet {β : Type} (m : GoMap β) (k k' : String) (v : β) :
    k' ∈ mapKeys (mapSet m k v) ↔ k' ∈ mapKeys m ∨ k' = k := by
  rw [mapKeys_mapSet]
  by_cases h : k ∈ mapKeys m
  · simp only [h, if_true]
    constructor
    · exact Or.inl
    · rintro (h1 | rfl)
      · exact h1
      · exact h
  · simp [h]

theorem nodup_mapKeys_mapSet {β : Type} (m : GoMap β) (k : String) (v : β)
    (hnd : (mapKeys m).Nodup) : (mapKeys (mapSet m k v)).Nodup := by
  rw [mapKeys_mapSet]
  by_cases h : k ∈ mapKeys m
  · simpa [h] using hnd
  · simp only [h, if_false]
    rw [List.nodup_append]
    exact ⟨hnd, List.nodup_singleton k, by
      intro a ha hb
      rw [List.mem_singleton] at hb
      exact h (hb ▸ ha)⟩

theorem mapGet_of_mem {β : Type} (m : GoMap β) (k : String) (v : β)
    (hnd : (mapKeys m).Nodup) (h : (k, v) ∈ m) : mapGet m k = some v := by
  induction m with
  | nil => simp at h
  | cons kv m ih =>
    obtain ⟨k₀, v₀⟩ := kv
    simp only [mapKeys, List.map_cons, List.nodup_cons] at hnd
    rcases List.mem_cons.mp h with heq | hmem
    · simp only [Prod.mk.injEq] at heq
      simp [mapGet, heq.1, heq.2]
    · have hk : k₀ ≠ k := by
        rintro rfl
        exact hnd.1 (List.mem_map.mpr ⟨(k₀, v), hmem, rfl⟩)
      simp only [mapGet, hk, if_false]
      exact ih hnd.2 hmem

/-! ## `ranking`: the loop that gathers the scores -/

/-- With an answer for every slot the first loop of `ranking` does not panic:
it folds `rankStep` over the slots paired with their answers. -/
theorem rankingLoop_eq_foldl (r : round) (cs : List PlayerID) (i : Nat)
    (lookup : GoMap PlayerScore) (hlen : i + cs.length ≤ r.q.Answers.length) :
    rankingLoop r i cs lookup =
      some ((cs.zip (r.q.Answers.drop i)).foldl (rankStep r.players) lookup) := by
  induction cs generalizing i lookup with
  | nil => simp [rankingLoop]
  | cons c cs ih =>
    have hi : i < r.q.Answers.length := by
      simp only [List.length_cons] at hlen; omega
    have hnext : i + 1 + cs.length ≤ r.q.Answers.length := by
      simp only [List.length_cons] at hlen; omega
    have hget : r.q.Answers[i]? = some r.q.Answers[i] := List.getElem?_eq_getElem hi
    rw [List.drop_eq_getElem_cons hi, List.zip_cons_cons, List.foldl_cons]
    unfold rankingLoop
    by_cases hc : c = ""
    · subst hc
      simp only [ne_eq, not_true_eq_false, if_false]
      rw [ih (i + 1) lookup hnext]
      simp [rankStep]
    · simp only [ne_eq, hc, not_false_eq_true, if_true, hget]
      cases hm : mapGet lookup c with
      | none =>
        simp only []
        rw [ih (i + 1) _ hnext]
        simp [rankStep, hc, hm]
      | some ps =>
        simp only []
        rw [ih (i + 1) _ hnext]
        simp [rankStep, hc, hm]

theorem rankStep_unclaimed (players : GoMap Player) (m : GoMap PlayerScore)
    (s : PlayerID × Answer) (h : s.1 = "") : rankStep players m s = m := by
  simp [rankStep, h]

theorem mapGet_rankStep_ne (players : GoMap Player) (m : GoMap PlayerScore)
    (s : PlayerID × Answer) (k : PlayerID) (h : k ≠ s.1) :
    mapGet (rankStep players m s) k = mapGet m k := by
  unfold rankStep
  by_cases hs : s.1 = ""
  · simp [hs]
  · simp only [ne_eq, hs, not_false_eq_true, if_true]
    cases mapGet m s.1 with
    | none => exact mapGet_mapSet_ne m s.1 k _ h
    | some ps => exact mapGet_mapSet_ne m s.1 k _ h

theorem mem_mapKeys_rankStep (players : GoMap Player) (m : GoMap PlayerScore)
    (s : PlayerID × Answer) (k : PlayerID) :
    k ∈ mapKeys (rankStep players m s) ↔ k ∈ mapKeys m ∨ (k = s.1 ∧ s.1 ≠ "") := by
  unfold rankStep
  by_cases hs : s.1 = ""
  · simp [hs]
  · simp only [ne_eq, hs, not_false_eq_true, if_true, and_true]
    cases mapGet m s.1 with
    | none => exact mem_mapKeys_mapSet m s.1 k _
    | some ps => exact mem_mapKeys_mapSet m s.1 k _

theorem nodup_mapKeys_rankStep (players : GoMap Player) (m : GoMap PlayerScore)
    (s : PlayerID × Answer) (hnd : (mapKeys m).Nodup) :
    (mapKeys (rankStep players m s)).Nodup := by
  unfold rankStep
  by_cases hs : s.1 = ""
  · simpa [hs] using hnd
  · simp only [ne_eq, hs, not_false_eq_true, if_true]
    cases mapGet m s.1 with
    | none => exact nodup_mapKeys_mapSet m s.1 _ hnd
    | some ps => exact nodup_mapKeys_mapSet m s.1 _ hnd

theorem keyOK_rankStep (players : GoMap Player) (m : GoMap PlayerScore)
    (s : PlayerID × Answer) (hok : KeyOK m) : KeyOK (rankStep players m s) := by
  intro k v hv
  by_cases hk : k = s.1
  · subst hk
    by_cases hs : s.1 = ""
    · rw [rankStep_unclaimed players m s hs] at hv
      exact hok _ v hv
    · unfold rankStep at hv
      simp only [ne_eq, hs, not_false_eq_true, if_true] at hv
      cases hm : mapGet m s.1 with
      | none =>
        rw [hm] at hv
        simp only [mapGet_mapSet_self, Option.some.injEq] at hv
        rw [← hv]
      | some ps =>
        rw [hm] at hv
        simp only [mapGet_mapSet_self, Option.some.injEq] at hv
        rw [← hv]
        exact hok _ ps hm
  · rw [mapGet_rankStep_ne players m s k hk] at hv
    exact hok k v hv

theorem scoreOf_rankStep_ne (players : GoMap Player) (m : GoMap PlayerScore)
    (s : PlayerID × Answer) (k : PlayerID) (h : k ≠ s.1) :
    scoreOf (rankStep players m s) k = scoreOf m k := by
  unfold scoreOf
  rw [mapGet_rankStep_ne players m s k h]

theorem scoreOf_rankStep_self (players : GoMap Player) (m : GoMap PlayerScore)
    (s : PlayerID × Answer) (hs : s.1 ≠ "") (hr : inRange s.2.Score) :
    scoreOf (rankStep players m s) s.1 = wrapInt (scoreOf m s.1 + s.2.Score) := by
  unfold scoreOf rankStep
  simp only [ne_eq, hs, not_false_eq_true, if_true]
  cases hm : mapGet m s.1 with
  | none =>
    simp only [mapGet_mapSet_self, Int.zero_add]
    exact (wrapInt_of_inRange _ hr).symm
  | some ps =>
    simp only [mapGet_mapSet_self]
    rfl

theorem heldSum_cons (s : PlayerID × Answer) (l : List (PlayerID × Answer)) (k : PlayerID) :
    heldSum (s :: l) k = (if s.1 = k then s.2.Score else 0) + heldSum l k := by
  unfold heldSum
  by_cases h : s.1 = k
  · simp [List.filter_cons, h]
  · simp [List.filter_cons, h]

theorem claimedSum_cons (s : PlayerID × Answer) (l : List (PlayerID × Answer)) :
    claimedSum (s :: l) = (if s.1 ≠ "" then s.2.Score else 0) + claimedSum l := by
  unfold claimedSum
  by_cases h : s.1 = ""
  · simp [List.filter_cons, h]
  · simp [List.filter_cons, h]

/-- The keys of the map after the loop. -/
theorem mem_mapKeys_foldl_rankStep (players : GoMap Player) (l : List (PlayerID × Answer))
    (m : GoMap PlayerScore) (k : PlayerID) :
    k ∈ mapKeys (l.foldl (rankStep players) m) ↔
      k ∈ mapKeys m ∨ (k ≠ "" ∧ k ∈ l.map Prod.fst) := by
  induction l generalizing m with
  | nil => simp
  | cons s l ih =>
    rw [List.foldl_cons, ih, mem_mapKeys_rankStep]
    simp only [List.map_cons, List.mem_cons]
    constructor
    · rintro ((h | ⟨rfl, h⟩) | ⟨h1, h2⟩)
      · exact Or.inl h
      · exact Or.inr ⟨h, Or.inl rfl⟩
      · exact Or.inr ⟨h1, Or.inr h2⟩
    · rintro (h | ⟨h1, rfl | h2⟩)
      · exact Or.inl (Or.inl h)
      · exact Or.inl (Or.inr ⟨rfl, h1⟩)
      · exact Or.inr ⟨h1, h2⟩

theorem nodup_mapKeys_foldl_rankStep (players : GoMap Player) (l : List (PlayerID × Answer))
    (m : GoMap PlayerScore) (hnd : (mapKeys m).Nodup) :
    (mapKeys (l.foldl (rankStep players) m)).Nodup := by
  induction l generalizing m with
  | nil => exact hnd
  | cons s l ih =>
    rw [List.foldl_cons]
    exact ih _ (nodup_mapKeys_rankStep players m s hnd)

theorem keyOK_foldl_rankStep (players : GoMap Player) (l : List (PlayerID × Answer))
    (m : GoMap PlayerScore) (hok : KeyOK m) : KeyOK (l.foldl (rankStep players) m) := by
  induction l generalizing m with
  | nil => exact hok
  | cons s l ih =>
    rw [List.foldl_cons]
    exact ih _ (keyOK_rankStep players m s hok)

/-- The score the map holds for a player after the loop: what it held before
plus the scores of the slots of that player, in machine arithmetic. -/
theorem scoreOf_foldl_rankStep (players : GoMap Player) (l : List (PlayerID × Answer))
    (m : GoMap PlayerScore) (k : PlayerID) (hk : k ≠ "")
    (hl : ∀ s ∈ l, inRange s.2.Score) (hm : inRange (scoreOf m k)) :
    scoreOf (l.foldl (rankStep players) m) k = wrapInt (scoreOf m k + heldSum l k) := by
  induction l generalizing m with
  | nil =>
    simp only [List.foldl_nil, heldSum, List.filter_nil, List.map_nil, List.sum_nil,
      Int.add_zero]
    exact (wrapInt_of_inRange _ hm).symm
  | cons s l ih =>
    have hs : inRange s.2.Score := hl s (List.mem_cons_self s l)
    have hl' : ∀ t ∈ l, inRange t.2.Score := fun t ht => hl t (List.mem_cons_of_mem s ht)
    rw [List.foldl_cons, heldSum_cons]
    by_cases hsk : s.1 = k
    · have hstep : scoreOf (rankStep players m s) k = wrapInt (scoreOf m k + s.2.Score) := by
        have := scoreOf_rankStep_self players m s (by rw [hsk]; exact hk) hs
        rwa [hsk] at this
      rw [ih _ hl' (by rw [hstep]; exact wrapInt_inRange _), hstep, wrapInt_add_left]
      simp only [hsk, if_true, Int.add_assoc]
    · have hstep : scoreOf (rankStep players m s) k = scoreOf m k :=
        scoreOf_rankStep_ne players m s k (fun e => hsk e.symm)
      rw [ih _ hl' (by rw [hstep]; exact hm), hstep]
      simp only [hsk, if_false, Int.zero_add]

/-! ## `ranking`: sums per player and in total -/

theorem sum_indicator (K : List PlayerID) (hnd : K.Nodup) (a : PlayerID) (c : Int) :
    (K.map (fun k => if a = k then c else 0)).sum = if a ∈ K then c else 0 := by
  induction K with
  | nil => simp
  | cons k K ih =>
    rw [List.nodup_cons] at hnd
    simp only [List.map_cons, List.sum_cons, ih hnd.2, List.mem_cons]
    by_cases hak : a = k
    · subst hak
      simp [hnd.1]
    · simp [hak]

/-- Summing the per-player sums over distinct players gives the sum over the
slots these players hold. -/
theorem sum_heldSum (K : List PlayerID) (hnd : K.Nodup) (l : List (PlayerID × Answer)) :
    (K.map (heldSum l)).sum =
      ((l.filter (fun s => decide (s.1 ∈ K))).map (fun s => s.2.Score)).sum := by
  induction l with
  | nil =>
    have hfun : heldSum [] = fun _ => (0 : Int) := by
      funext k; simp [heldSum]
    rw [hfun]
    simp
  | cons s l ih =>
    have hfun : heldSum (s :: l) =
        fun k => (if s.1 = k then s.2.Score else 0) + heldSum l k := by
      funext k; exact heldSum_cons s l k
    rw [hfun, List.sum_map_add, sum_indicator K hnd, ih]
    by_cases hs : s.1 ∈ K
    · simp [List.filter_cons, hs]
    · simp [List.filter_cons, hs]

theorem heldSum_bounds (l : List (PlayerID × Answer)) (k : PlayerID) (hk : k ≠ "")
    (hpos : ∀ s ∈ l, 0 ≤ s.2.Score) : 0 ≤ heldSum l k ∧ heldSum l k ≤ claimedSum l := by
  induction l with
  | nil => simp [heldSum, claimedSum]
  | cons s l ih =>
    have h0 : 0 ≤ s.2.Score := hpos s (List.mem_cons_self s l)
    have ih' := ih (fun t ht => hpos t (List.mem_cons_of_mem s ht))
    rw [heldSum_cons, claimedSum_cons]
    by_cases hsk : s.1 = k
    · have hne : s.1 ≠ "" := by rw [hsk]; exact hk
      simp only [hsk, if_true, ne_eq, hk, not_false_eq_true]
      omega
    · by_cases hs : s.1 = ""
      · have hk' : ¬ ("" = k) := fun e => hk e.symm
        simp only [hs, hk', if_false, ne_eq, not_true_eq_false]
        omega
      · simp only [hsk, if_false, hs, ne_eq, not_false_eq_true, if_true]
        omega

/-! ## `ranking`: sorting and positions -/

theorem inOrder_iff (a b : PlayerScore) : Rank.inOrder a b ↔ b.Score ≤ a.Score := by
  unfold Rank.inOrder Rank.Less
  simp

theorem inOrder_total : IsTotal PlayerScore Rank.inOrder :=
  ⟨fun a b => by
    rw [inOrder_iff, inOrder_iff]
    exact Int.le_total b.Score a.Score⟩

theorem inOrder_trans : IsTrans PlayerScore Rank.inOrder :=
  ⟨fun a b c hab hbc => by
    rw [inOrder_iff] at *
    exact Int.le_trans hbc hab⟩

theorem sortRank_perm (rk : Rank) : (sortRank rk).Perm rk :=
  List.perm_insertionSort Rank.inOrder rk

theorem sortRank_sorted (rk : Rank) :
    (sortRank rk).Pairwise (fun a b => b.Score ≤ a.Score) := by
  haveI := inOrder_total
  haveI := inOrder_trans
  have h : (sortRank rk).Sorted Rank.inOrder := List.sorted_insertionSort Rank.inOrder rk
  exact List.Pairwise.imp (fun hab => (inOrder_iff _ _).mp hab) h

theorem setPositions_length (i : Nat) (rk : Rank) : (setPositions i rk).length = rk.length := by
  induction rk generalizing i with
  | nil => rfl
  | cons a rk ih => simp [setPositions, ih]

theorem setPositions_map_id (i : Nat) (rk : Rank) :
    (setPositions i rk).map (fun e => e.PlayerID) = rk.map (fun e => e.PlayerID) := by
  induction rk generalizing i with
  | nil => rfl
  | cons a rk ih => simp [setPositions, ih]

theorem setPositions_map_score (i : Nat) (rk : Rank) :
    (setPositions i rk).map (fun e => e.Score) = rk.map (fun e => e.Score) := by
  induction rk generalizing i with
  | nil => rfl
  | cons a rk ih => simp [setPositions, ih]

theorem mem_setPositions (i : Nat) (rk : Rank) (e : PlayerScore) (he : e ∈ setPositions i rk) :
    ∃ v ∈ rk, v.PlayerID = e.PlayerID ∧ v.Score = e.Score ∧ v.Name = e.Name := by
  induction rk generalizing i with
  | nil => simp [setPositions] at he
  | cons a rk ih =>
    simp only [setPositions, List.mem_cons] at he
    rcases he with rfl | he
    · exact ⟨a, List.mem_cons_self a rk, rfl, rfl, rfl⟩
    · obtain ⟨v, hv, h⟩ := ih (i + 1) he
      exact ⟨v, List.mem_cons_of_mem a hv, h⟩

theorem setPositions_getElem? (i k : Nat) (rk : Rank) :
    (setPositions i rk)[k]? =
      rk[k]?.map (fun ps => { ps with Position := ((i + k : Nat) : Int) + 1 }) := by
  induction rk generalizing i k with
  | nil => simp [setPositions]
  | cons a rk ih =>
    cases k with
    | zero => simp [setPositions]
    | succ k =>
      simp only [setPositions, List.getElem?_cons_succ, ih]
      have : i + 1 + k = i + (k + 1) := by omega
      rw [this]

theorem setPositions_map_position (i : Nat) (rk : Rank) :
    (setPositions i rk).map (fun e => e.Position) =
      (List.range rk.length).map (fun k => ((i + k : Nat) : Int) + 1) := by
  induction rk generalizing i with
  | nil => rfl
  | cons a rk ih =>
    simp only [setPositions, List.map_cons, List.length_cons, List.range_succ_eq_map,
      List.map_map, ih, Nat.add_zero]
    congr 1
    apply List.map_congr_left
    intro k _
    simp only [Function.comp]
    have : i + 1 + k = i + (k + 1) := by omega
    rw [this]

theorem setPositions_sorted (i : Nat) (rk : Rank)
    (h : rk.Pairwise (fun a b => b.Score ≤ a.Score)) :
    (setPositions i rk).Pairwise (fun a b => b.Score ≤ a.Score) := by
  have h1 : (rk.map (fun e => e.Score)).Pairwise (fun x y => y ≤ x) :=
    List.pairwise_map.mpr h
  rw [← setPositions_map_score i rk] at h1
  exact List.pairwise_map.mp h1

/-- With one claim slot per answer `ranking` does not panic. -/
theorem ranking_eq (mapOrder : List PlayerScore → List PlayerScore) (r : round)
    (hlen : r.correct.length = r.q.Answers.length) :
    r.ranking mapOrder =
      some (setPositions 0 (sortRank (mapOrder (mapValues r.gathered)))) := by
  unfold round.ranking
  rw [rankingLoop_eq_foldl r r.correct 0 [] (by omega)]
  simp [round.gathered, round.slots]

theorem mapValues_map_id (m : GoMap PlayerScore) (hnd : (mapKeys m).Nodup) (hok : KeyOK m) :
    (mapValues m).map (fun e => e.PlayerID) = mapKeys m := by
  unfold mapValues mapKeys
  rw [List.map_map]
  apply List.map_congr_left
  rintro ⟨k, v⟩ hkv
  exact hok k v (mapGet_of_mem m k v hnd hkv)

theorem mapValues_map_score (m : GoMap PlayerScore) (hnd : (mapKeys m).Nodup) :
    (mapValues m).map (fun e => e.Score) = (mapKeys m).map (scoreOf m) := by
  unfold mapValues mapKeys
  rw [List.map_map, List.map_map]
  apply List.map_congr_left
  rintro ⟨k, v⟩ hkv
  simp only [Function.comp, scoreOf, mapGet_of_mem m k v hnd hkv]

theorem slots_map_fst (r : round) (hlen : r.correct.length = r.q.Answers.length) :
    r.slots.map Prod.fst = r.correct := by
  unfold round.slots
  exact List.map_fst_zip _ _ (by omega)

theorem slots_inRange (r : round) (hscore : ∀ a ∈ r.q.Answers, inRange a.Score) :
    ∀ s ∈ r.slots, inRange s.2.Score := by
  rintro ⟨c, a⟩ hs
  exact hscore a (List.of_mem_zip hs).2

theorem gathered_nodup (r : round) : (mapKeys r.gathered).Nodup :=
  nodup_mapKeys_foldl_rankStep r.players r.slots [] (by simp [mapKeys])

theorem gathered_keyOK (r : round) : KeyOK r.gathered :=
  keyOK_foldl_rankStep r.players r.slots [] (by intro k v h; simp [mapGet] at h)

theorem mem_gathered_keys (r : round) (hlen : r.correct.length = r.q.Answers.length)
    (k : PlayerID) : k ∈ mapKeys r.gathered ↔ k ≠ "" ∧ k ∈ r.correct := by
  unfold round.gathered
  rw [mem_mapKeys_foldl_rankStep, slots_map_fst r hlen]
  simp [mapKeys]

theorem gathered_score (r : round) (hscore : ∀ a ∈ r.q.Answers, inRange a.Score)
    (k : PlayerID) (hk : k ≠ "") : scoreOf r.gathered k = wrapInt (r.heldScore k) := by
  unfold round.gathered round.heldScore
  rw [scoreOf_foldl_rankStep r.players r.slots [] k hk (slots_inRange r hscore)
    (by simp only [scoreOf, mapGet]; exact inRange_zero)]
  simp [scoreOf, mapGet]

/-- The sum of the per-player sums of the claimants is the total of the claimed
slots. -/
theorem gathered_sum_held (r : round) (hlen : r.correct.length = r.q.Answers.length) :
    ((mapKeys r.gathered).map r.heldScore).sum = r.claimedScore := by
  have hfun : r.heldScore = heldSum r.slots := by
    funext k; rfl
  rw [hfun, sum_heldSum _ (gathered_nodup r)]
  unfold round.claimedScore claimedSum
  congr 2
  apply List.filter_congr
  rintro ⟨c, a⟩ hs
  have hc : c ∈ r.correct := (List.of_mem_zip hs).1
  simp only [mem_gathered_keys r hlen c, hc, and_true]

/-- The entries of the rank are the values of the gathered map, rearranged. -/
theorem ranking_perm (mapOrder : List PlayerScore → List PlayerScore) (r : round)
    (horder : ∀ l, (mapOrder l).Perm l) :
    (sortRank (mapOrder (mapValues r.gathered))).Perm (mapValues r.gathered) :=
  (sortRank_perm _).trans (horder _)

/-- C5: for a round with one claim slot per answer (scores being Go ints),
ranking() returns a rank that has exactly one entry per player id holding at
least one claim slot and no other entry; the score of each entry is the sum,
in Go int arithmetic, of the scores of the answers whose slots that player
holds, and the scores of the rank add up to the total score of all claimed
slots; when the scores are not negative and that total is below 2^63 nothing
wraps around and both sums are the exact ones. -/
theorem ranking_entries_and_scores (mapOrder : List PlayerScore → List PlayerScore)
    (r : round) (horder : ∀ l, (mapOrder l).Perm l)
    (hlen : r.correct.length = r.q.Answers.length)
    (hscore : ∀ a ∈ r.q.Answers, inRange a.Score) :
    ∃ rk, r.ranking mapOrder = some rk ∧
      (rk.map (fun e => e.PlayerID)).Nodup ∧
      (∀ pid, pid ∈ rk.map (fun e => e.PlayerID) ↔ pid ≠ "" ∧ pid ∈ r.correct) ∧
      (∀ e ∈ rk, e.Score = wrapInt (r.heldScore e.PlayerID)) ∧
      wrapInt ((rk.map (fun e => e.Score)).sum) = wrapInt r.claimedScore ∧
      ((∀ a ∈ r.q.Answers, 0 ≤ a.Score) → r.claimedScore < 2 ^ 63 →
        (∀ e ∈ rk, e.Score = r.heldScore e.PlayerID) ∧
        (rk.map (fun e => e.Score)).sum = r.claimedScore) := by
  have hperm := ranking_perm mapOrder r horder
  have hnd := gathered_nodup r
  have hids : List.Perm ((setPositions 0 (sortRank (mapOrder (mapValues r.gathered)))).map
      (fun e => e.PlayerID)) (mapKeys r.gathered) := by
    rw [setPositions_map_id, ← mapValues_map_id r.gathered hnd (gathered_keyOK r)]
    exact hperm.map _
  have hscores : ((setPositions 0 (sortRank (mapOrder (mapValues r.gathered)))).map
      (fun e => e.Score)).sum = ((mapKeys r.gathered).map (scoreOf r.gathered)).sum := by
    rw [setPositions_map_score, ← mapValues_map_score r.gathered hnd]
    exact (hperm.map _).sum_eq
  have hwrapped : (mapKeys r.gathered).map (scoreOf r.gathered) =
      (mapKeys r.gathered).map (fun k => wrapInt (r.heldScore k)) := by
    apply List.map_congr_left
    intro k hk
    exact gathered_score r hscore k ((mem_gathered_keys r hlen k).mp hk).1
  have hentry : ∀ e ∈ setPositions 0 (sortRank (mapOrder (mapValues r.gathered))),
      e.PlayerID ≠ "" ∧ e.Score = wrapInt (r.heldScore e.PlayerID) := by
    intro e he
    obtain ⟨v, hv, hid, hsc, _⟩ := mem_setPositions 0 _ e he
    have hvX : v ∈ mapValues r.gathered := hperm.mem_iff.mp hv
    obtain ⟨⟨k, v'⟩, hkv, rfl⟩ := List.mem_map.mp hvX
    have hget := mapGet_of_mem r.gathered k v' hnd hkv
    have hkey : v'.PlayerID = k := gathered_keyOK r k v' hget
    have hk : k ≠ "" :=
      ((mem_gathered_keys r hlen k).mp (List.mem_map.mpr ⟨(k, v'), hkv, rfl⟩)).1
    have hs := gathered_score r hscore k hk
    simp only [scoreOf, hget] at hs
    simp only at hid hsc hkey
    rw [← hid, ← hsc, hkey]
    exact ⟨hk, hs⟩
  refine ⟨_, ranking_eq mapOrder r hlen, hids.nodup_iff.mpr hnd, ?_, ?_, ?_, ?_⟩
  · intro pid
    rw [hids.mem_iff]
    exact mem_gathered_keys r hlen pid
  · exact fun e he => (hentry e he).2
  · rw [hscores, hwrapped, wrapInt_sum_map_wrapInt, gathered_sum_held r hlen]
  · intro hpos hsmall
    have hslots : ∀ s ∈ r.slots, 0 ≤ s.2.Score := by
      rintro ⟨c, a⟩ hs
      exact hpos a (List.of_mem_zip hs).2
    have hexact : ∀ k, k ≠ "" → wrapInt (r.heldScore k) = r.heldScore k := by
      intro k hk
      have hb := heldSum_bounds r.slots k hk hslots
      apply wrapInt_of_inRange
      unfold round.heldScore inRange
      unfold round.claimedScore at hsmall
      omega
    refine ⟨fun e he => ?_, ?_⟩
    · rw [(hentry e he).2]
      exact hexact _ (hentry e he).1
    · rw [hscores, hwrapped, ← gathered_sum_held r hlen]
      congr 1
      apply List.map_congr_left
      intro k hk
      exact hexact k ((mem_gathered_keys r hlen k).mp hk).1

/-- C6: for a round with one claim slot per answer, the rank returned by
ranking() is ordered by non-increasing score (every entry scores at least as
much as every entry after it), and the entry at index k (from 0) has Position
k + 1, so the positions are 1, 2, ..., n. -/
theorem ranking_sorted_with_positions (mapOrder : List PlayerScore → List PlayerScore)
    (r : round) (hlen : r.correct.length = r.q.Answers.length) :
    ∃ rk, r.ranking mapOrder = some rk ∧
      rk.Pairwise (fun a b => b.Score ≤ a.Score) ∧
      (∀ (k : Nat) (e : PlayerScore), rk[k]? = some e → e.Position = (k : Int) + 1) ∧
      rk.map (fun e => e.Position) =
        (List.range rk.length).map (fun (k : Nat) => (k : Int) + 1) := by
  refine ⟨_, ranking_eq mapOrder r hlen, setPositions_sorted 0 _ (sortRank_sorted _), ?_, ?_⟩
  · intro k e hk
    rw [setPositions_getElem?] at hk
    obtain ⟨v, _, rfl⟩ := Option.map_eq_some'.mp hk
    simp
  · rw [setPositions_map_position, setPositions_length]
    apply List.map_congr_left
    intro k _
    simp

/-- Witness of C5: Ani holds "nasi" and Budi holds "mie"; the runtime walks
the map in reverse order of insertion. -/
theorem ranking_entries_and_scores_witness :
    (∀ l : List PlayerScore, (List.reverse l).Perm l) ∧
    demoRound2.correct.length = demoRound2.q.Answers.length ∧
    (∀ a ∈ demoRound2.q.Answers, inRange a.Score) ∧
    ∃ rk, demoRound2.ranking List.reverse = some rk ∧
      (rk.map (fun e => e.PlayerID)).Nodup ∧
      (∀ pid, pid ∈ rk.map (fun e => e.PlayerID) ↔ pid ≠ "" ∧ pid ∈ demoRound2.correct) ∧
      (∀ e ∈ rk, e.Score = wrapInt (demoRound2.heldScore e.PlayerID)) ∧
      wrapInt ((rk.map (fun e => e.Score)).sum) = wrapInt demoRound2.claimedScore ∧
      ((∀ a ∈ demoRound2.q.Answers, 0 ≤ a.Score) → demoRound2.claimedScore < 2 ^ 63 →
        (∀ e ∈ rk, e.Score = demoRound2.heldScore e.PlayerID) ∧
        (rk.map (fun e => e.Score)).sum = demoRound2.claimedScore) :=
  ⟨fun l => List.reverse_perm l, rfl, by decide,
    ranking_entries_and_scores List.reverse demoRound2 (fun l => List.reverse_perm l) rfl
      (by decide)⟩

/-- Witness of C6: the rank of the round in which Ani holds "nasi" and Budi
holds "mie". -/
theorem ranking_sorted_with_positions_witness :
    demoRound2.correct.length = demoRound2.q.Answers.length ∧
    ∃ rk, demoRound2.ranking List.reverse = some rk ∧
      rk.Pairwise (fun a b => b.Score ≤ a.Score) ∧
      (∀ (k : Nat) (e : PlayerScore), rk[k]? = some e → e.Position = (k : Int) + 1) ∧
      rk.map (fun e => e.Position) =
        (List.range rk.length).map (fun (k : Nat) => (k : Int) + 1) :=
  ⟨rfl, ranking_sorted_with_positions List.reverse demoRound2 rfl⟩

/-! ## `questionText` -/

/-- With a claim slot for every answer the loop of `questionText` does not
panic and builds one row per answer, in order. -/
theorem questionTextRows_eq (r : round) (as : List Answer) (i : Nat)
    (hlen : i + as.length ≤ r.correct.length) :
    questionTextRows r i as =
      some (List.zipWith (viewRow r.players) (r.correct.drop i) as) := by
  induction as generalizing i with
  | nil => simp [questionTextRows]
  | cons a as ih =>
    have hi : i < r.correct.length := by
      simp only [List.length_cons] at hlen; omega
    have hnext : i + 1 + as.length ≤ r.correct.length := by
      simp only [List.length_cons] at hlen; omega
    unfold questionTextRows
    rw [List.getElem?_eq_getElem hi, List.drop_eq_getElem_cons hi]
    simp only [ih (i + 1) hnext, List.zipWith_cons_cons]

/-- The question view of a round with one claim slot per answer. -/
theorem questionText_eq (r : round) (gameID : String) (showUnAnswered : Bool)
    (hlen : r.correct.length = r.q.Answers.length) :
    r.questionText gameID showUnAnswered =
      some { ChanID := gameID, Round := 0, QuestionText := r.q.Text, QuestionID := r.q.ID,
             ShowUnanswered := showUnAnswered,
             Answers := List.zipWith (viewRow r.players) r.correct r.q.Answers } := by
  unfold round.questionText
  rw [questionTextRows_eq r r.q.Answers 0 (by omega)]
  simp

theorem viewRow_text (players : GoMap Player) (pID : PlayerID) (ans : Answer) :
    (viewRow players pID ans).Text = ans.Text ∧ (viewRow players pID ans).Score = ans.Score ∧
    (viewRow players pID ans).Highlight = false := by
  unfold viewRow
  split <;> exact ⟨rfl, rfl, rfl⟩

theorem zipWith_viewRow_length (players : GoMap Player) (cs : List PlayerID)
    (as : List Answer) (hlen : cs.length = as.length) :
    (List.zipWith (viewRow players) cs as).length = as.length := by
  rw [List.length_zipWith, hlen, Nat.min_self]

theorem zipWith_viewRow_rows (players : GoMap Player) (cs : List PlayerID)
    (as : List Answer) (hlen : cs.length = as.length) :
    (List.zipWith (viewRow players) cs as).map (fun ra => (ra.Text, ra.Score, ra.Highlight)) =
      as.map (fun a => (a.Text, a.Score, false)) := by
  induction cs generalizing as with
  | nil =>
    cases as with
    | nil => rfl
    | cons a as => simp at hlen
  | cons c cs ih =>
    cases as with
    | nil => simp at hlen
    | cons a as =>
      simp only [List.length_cons, Nat.add_right_cancel_iff] at hlen
      simp only [List.zipWith_cons_cons, List.map_cons, ih as hlen]
      obtain ⟨h1, h2, h3⟩ := viewRow_text players c a
      rw [h1, h2, h3]

theorem zipWith_viewRow_highlight (players : GoMap Player) (cs : List PlayerID)
    (as : List Answer) (j : Nat) (ra : roundAnswers)
    (h : (List.zipWith (viewRow players) cs as)[j]? = some ra) : ra.Highlight = false := by
  rw [List.getElem?_zipWith_eq_some] at h
  obtain ⟨c, a, _, _, rfl⟩ := h
  exact (viewRow_text players c a).2.2

/-! ## The round loop -/

/-- C10: in a round with one claim slot per answer, when the loop handles the
deadline event it sends a state-changed event with state RoundTimeout for the
current round number and then a question view with ShowUnanswered = true that
has one row per answer of the question, in order, claimed or not, each with
the text and the score of its answer and none highlighted; the loop then
returns, leaving every later event unhandled. -/
theorem timeUp_reveals_all_slots (cfg : Config) (w : World) (g : Game) (r : round)
    (currentRound : Int) (rest : List Event)
    (hlen : r.correct.length = r.q.Answers.length) :
    ∃ g1 view, Game.roundLoop cfg w currentRound g r (Event.timeUp :: rest) =
        RoundOutcome.returned g1 r
          [Message.state { ChanID := g.ChanID, Round := currentRound,
                           State := State.RoundTimeout, RoundText := QNAMessage.zero },
           Message.qna view] rest ∧
      view.ShowUnanswered = true ∧
      view.Answers.length = r.q.Answers.length ∧
      view.Answers.map (fun ra => (ra.Text, ra.Score, ra.Highlight)) =
        r.q.Answers.map (fun a => (a.Text, a.Score, false)) := by
  refine ⟨Game.updateRanking { g with State := State.RoundFinished }
      (setPositions 0 (sortRank (w.mapOrder (mapValues r.gathered)))),
    { ChanID := g.ChanID, Round := 0, QuestionText := r.q.Text, QuestionID := r.q.ID,
      ShowUnanswered := true,
      Answers := List.zipWith (viewRow r.players) r.correct r.q.Answers }, ?_, ?_, ?_, ?_⟩
  · simp only [Game.roundLoop, Game.handleEvent, Game.handleTimeUp,
      ranking_eq w.mapOrder r hlen, questionText_eq r g.ChanID true hlen]
  · rfl
  · exact zipWith_viewRow_length r.players r.correct r.q.Answers hlen
  · exact zipWith_viewRow_rows r.players r.correct r.q.Answers hlen

/-- Witness of C10: the deadline fires after Ani has claimed "nasi"; a message
is still waiting. -/
theorem timeUp_reveals_all_slots_witness :
    demoRound1.correct.length = demoRound1.q.Answers.length ∧
    ∃ g1 view, Game.roundLoop demoConfig (worldOf (fun _ => some demoQuestion)) 2 demoGame
        demoRound1 (Event.timeUp :: [Event.msg (Message.text "c1" budi "mie")]) =
        RoundOutcome.returned g1 demoRound1
          [Message.state { ChanID := demoGame.ChanID, Round := 2,
                           State := State.RoundTimeout, RoundText := QNAMessage.zero },
           Message.qna view] [Event.msg (Message.text "c1" budi "mie")] ∧
      view.ShowUnanswered = true ∧
      view.Answers.length = demoRound1.q.Answers.length ∧
      view.Answers.map (fun ra => (ra.Text, ra.Score, ra.Highlight)) =
        demoRound1.q.Answers.map (fun a => (a.Text, a.Score, false)) :=
  ⟨rfl, timeUp_reveals_all_slots demoConfig (worldOf (fun _ => some demoQuestion)) demoGame
    demoRound1 2 [Event.msg (Message.text "c1" budi "mie")] rfl⟩

/-- The highlight assignment on a view whose rows are not highlighted: it
does not panic when the index is that of a row, and row `i` is then the only
highlighted one. -/
theorem setHighlight_rows (m : QNAMessage) (i : Nat) (hi : i < m.Answers.length)
    (hno : ∀ (j : Nat) ra, m.Answers[j]? = some ra → ra.Highlight = false) :
    ∃ m', setHighlight m (i : Int) = some m' ∧
      m'.Answers.length = m.Answers.length ∧
      m'.ShowUnanswered = m.ShowUnanswered ∧
      ∀ (j : Nat) ra, m'.Answers[j]? = some ra → ra.Highlight = decide (j = i) := by
  have hget : m.Answers[i]? = some m.Answers[i] := List.getElem?_eq_getElem hi
  refine ⟨{ m with Answers := m.Answers.set i { m.Answers[i] with Highlight := true } },
    ?_, ?_, rfl, ?_⟩
  · unfold setHighlight
    simp [hget]
  · simp
  · intro j ra hj
    by_cases hji : j = i
    · subst hji
      simp only [List.getElem?_set_self hi, Option.some.injEq] at hj
      rw [← hj]
      simp
    · have hij : i ≠ j := fun e => hji e.symm
      simp only [List.getElem?_set_ne hij] at hj
      rw [hno j ra hj]
      simp [hji]

/-- What the loop does with a message that newly claims slot `idx`: it sets
the highlight in the view of the round after the claim, sends the view, and
returns if the round is complete. -/
theorem handleMessage_new_claim (cfg : Config) (w : World) (g : Game) (r r1 : round)
    (currentRound : Int) (chanID : String) (player : Player) (text : String) (idx : Int)
    (hlen : r.correct.length = r.q.Answers.length)
    (hans : r.answer player text = some (r1, (true, false, idx))) :
    ∃ (i : Nat) (view : QNAMessage), idx = (i : Int) ∧ i < r.q.Answers.length ∧
      r1.q = r.q ∧ r1.correct.length = r.q.Answers.length ∧
      setHighlight
        { ChanID := g.ChanID, Round := 0, QuestionText := r1.q.Text, QuestionID := r1.q.ID,
          ShowUnanswered := false,
          Answers := List.zipWith (viewRow r1.players) r1.correct r1.q.Answers } idx =
        some view ∧
      g.handleMessage cfg w r currentRound (Message.text chanID player text) =
        if r1.finised = true then
          Step.ret
            (Game.updateRanking
              { g with players := r1.players,
                       currentRound := some { r1 with state := State.RoundFinished } }
              (setPositions 0 (sortRank (w.mapOrder (mapValues
                (round.gathered { r1 with state := State.RoundFinished }))))))
            { r1 with state := State.RoundFinished }
            [Message.qna view,
             Message.state { ChanID := g.ChanID, Round := currentRound,
                             State := State.RoundFinished, RoundText := QNAMessage.zero }]
        else
          Step.next { g with players := r1.players, currentRound := some r1 } r1
            [Message.qna view] := by
  rcases answer_cases r r1 player text _ hans with
    ⟨_, hres, _⟩ | ⟨_, hres, _⟩ | ⟨i, c, _, _, _, hres, _⟩ | ⟨i, hslot, hr1, hres, _⟩
  · simp at hres
  · simp at hres
  · simp at hres
  · simp only [Prod.mk.injEq, true_and] at hres
    subst hres
    have hi : i < r.correct.length := (List.getElem?_eq_some_iff.mp hslot).1
    have hq1 : r1.q = r.q := by rw [hr1]; simp [register_q]
    have hlen1 : r1.correct.length = r1.q.Answers.length := by
      rw [hr1]; simp [register_q, hlen]
    have hview := questionText_eq r1 g.ChanID false hlen1
    have hrows : (List.zipWith (viewRow r1.players) r1.correct r1.q.Answers).length =
        r.q.Answers.length := by
      rw [zipWith_viewRow_length r1.players r1.correct r1.q.Answers hlen1, hq1]
    obtain ⟨view, hset, _⟩ := setHighlight_rows
      { ChanID := g.ChanID, Round := 0, QuestionText := r1.q.Text, QuestionID := r1.q.ID,
        ShowUnanswered := false,
        Answers := List.zipWith (viewRow r1.players) r1.correct r1.q.Answers } i
      (by simp only [hrows]; omega)
      (fun j ra hj => zipWith_viewRow_highlight r1.players r1.correct r1.q.Answers j ra hj)
    refine ⟨i, view, rfl, by omega, hq1, by rw [hlen1, hq1], hset, ?_⟩
    cases hfin : r1.finised with
    | false =>
      simp only [Game.handleMessage, hans, hview, hset, hfin]
      rfl
    | true =>
      have hrank := ranking_eq w.mapOrder { r1 with state := State.RoundFinished } hlen1
      simp only [Game.handleMessage, hans, hview, hset, hfin, hrank]
      rfl

/-- C9: in a round with one claim slot per answer, when the loop handles a
message that newly claims slot idx, the question view it sends has one row per
answer with Highlight = true on row idx and Highlight = false on every other
row; if the claim does not complete the round nothing else is sent and the loop
goes on; if it completes the round the only further message is the
state-changed event RoundFinished, which carries no question view, and the loop
returns. -/
theorem new_claim_highlights_its_slot (cfg : Config) (w : World) (g : Game) (r r1 : round)
    (currentRound : Int) (chanID : String) (player : Player) (text : String) (idx : Int)
    (hlen : r.correct.length = r.q.Answers.length)
    (hans : r.answer player text = some (r1, (true, false, idx))) :
    ∃ view, view.Answers.length = r.q.Answers.length ∧
      (∀ (j : Nat) ra, view.Answers[j]? = some ra → ra.Highlight = decide ((j : Int) = idx)) ∧
      (∃ ra, 0 ≤ idx ∧ view.Answers[idx.toNat]? = some ra ∧ ra.Highlight = true) ∧
      ((r1.finised = false ∧ ∃ g1,
          g.handleMessage cfg w r currentRound (Message.text chanID player text) =
            Step.next g1 r1 [Message.qna view]) ∨
       (r1.finised = true ∧ ∃ g1,
          g.handleMessage cfg w r currentRound (Message.text chanID player text) =
            Step.ret g1 { r1 with state := State.RoundFinished }
              [Message.qna view,
               Message.state { ChanID := g.ChanID, Round := currentRound,
                               State := State.RoundFinished,
                               RoundText := QNAMessage.zero }])) := by
  obtain ⟨i, view, rfl, hi, hq1, hlen1, hset, hstep⟩ :=
    handleMessage_new_claim cfg w g r r1 currentRound chanID player text idx hlen hans
  have hrows : (List.zipWith (viewRow r1.players) r1.correct r1.q.Answers).length =
      r.q.Answers.length := by
    rw [List.length_zipWith, hlen1, hq1, Nat.min_self]
  obtain ⟨view', hset', hvlen, _, hhl⟩ := setHighlight_rows
    { ChanID := g.ChanID, Round := 0, QuestionText := r1.q.Text, QuestionID := r1.q.ID,
      ShowUnanswered := false,
      Answers := List.zipWith (viewRow r1.players) r1.correct r1.q.Answers } i
    (by simp only [hrows]; exact hi)
    (fun j ra hj => zipWith_viewRow_highlight r1.players r1.correct r1.q.Answers j ra hj)
  have hsame : view' = view := by
    rw [hset] at hset'
    exact (Option.some.inj hset').symm
  subst hsame
  simp only [hrows] at hvlen
  have hiv : i < view'.Answers.length := by rw [hvlen]; exact hi
  refine ⟨view', hvlen, ?_, ?_, ?_⟩
  · intro j ra hj
    rw [hhl j ra hj]
    simp
  · refine ⟨view'.Answers[i], Int.natCast_nonneg i, ?_, ?_⟩
    · simp [List.getElem?_eq_getElem hiv]
    · have := hhl i view'.Answers[i] (List.getElem?_eq_getElem hiv)
      simpa using this
  · cases hfin : r1.finised with
    | false =>
      rw [hfin] at hstep
      exact Or.inl ⟨rfl, _, hstep⟩
    | true =>
      rw [hfin] at hstep
      exact Or.inr ⟨rfl, _, hstep⟩

/-- Witness of C9: Ani claims "nasi" in the fresh round. -/
theorem new_claim_highlights_its_slot_witness :
    demoRound.correct.length = demoRound.q.Answers.length ∧
    demoRound.answer ani "nasi" = some (demoRound1, (true, false, 0)) ∧
    ∃ view, view.Answers.length = demoRound.q.Answers.length ∧
      (∀ (j : Nat) ra, view.Answers[j]? = some ra → ra.Highlight = decide ((j : Int) = 0)) ∧
      (∃ ra, (0 : Int) ≤ 0 ∧ view.Answers[(0 : Int).toNat]? = some ra ∧ ra.Highlight = true) ∧
      ((demoRound1.finised = false ∧ ∃ g1,
          demoGame.handleMessage demoConfig (worldOf (fun _ => some demoQuestion)) demoRound 1
              (Message.text "c1" ani "nasi") =
            Step.next g1 demoRound1 [Message.qna view]) ∨
       (demoRound1.finised = true ∧ ∃ g1,
          demoGame.handleMessage demoConfig (worldOf (fun _ => some demoQuestion)) demoRound 1
              (Message.text "c1" ani "nasi") =
            Step.ret g1 { demoRound1 with state := State.RoundFinished }
              [Message.qna view,
               Message.state { ChanID := demoGame.ChanID, Round := 1,
                               State := State.RoundFinished,
                               RoundText := QNAMessage.zero }])) :=
  ⟨rfl, rfl,
    new_claim_highlights_its_slot demoConfig (worldOf (fun _ => some demoQuestion)) demoGame
      demoRound demoRound1 1 "c1" ani "nasi" 0 rfl rfl⟩

/-- C8 (the code at the failing input): a round of the demo game that ends by
the deadline is left in state RoundStarted, it is the state of the game that
the timeout path sets to RoundFinished, and a later call of answer on that
round is accepted as a new claim; a round that ends with all slots claimed is
left in state RoundFinished. -/
theorem timeout_leaves_round_started :
    ((demoGame.startRound demoConfig (worldOf (fun _ => some demoQuestion)) 1
        [Event.timeUp]).round?.map (fun r => r.state)) = some State.RoundStarted ∧
    ((demoGame.startRound demoConfig (worldOf (fun _ => some demoQuestion)) 1
        [Event.timeUp]).game?.map (fun g => g.State)) = some State.RoundFinished ∧
    ((demoGame.startRound demoConfig (worldOf (fun _ => some demoQuestion)) 1
        [Event.timeUp]).round?.bind (fun r => (r.answer ani "nasi").map Prod.snd)) =
      some (true, false, 0) ∧
    ((demoGame.startRound demoConfig (worldOf (fun _ => some demoQuestion)) 1
        [Event.msg (Message.text "c1" ani "nasi"),
         Event.msg (Message.text "c1" budi "mie")]).round?.map (fun r => r.state)) =
      some State.RoundFinished := by
  decide

/-! ## Rounds that run to their end -/

/-- In a well-formed round `answer` does not panic, and the round stays
well-formed. -/
theorem answer_wellFormed (r : round) (p : Player) (text : String) (hwf : r.wellFormed) :
    ∃ r' res, r.answer p text = some (r', res) ∧ r'.wellFormed := by
  by_cases hstate : r.state = State.RoundStarted
  · rcases hq : r.q.checkAnswer text with ⟨b, sc, i⟩
    cases b with
    | false =>
      refine ⟨_, _, answer_started_nomatch r p text sc i hstate hq, ?_⟩
      unfold round.wellFormed
      rw [register_correct, register_q]
      exact hwf
    | true =>
      have hb := hwf.2 text (by rw [hq])
      rw [hq] at hb
      simp only at hb
      obtain ⟨n, rfl⟩ := Int.eq_ofNat_of_zero_le hb.1
      have hn : n < r.correct.length := by
        rw [hwf.1]; exact_mod_cast hb.2
      have hslot : r.correct[n]? = some r.correct[n] := List.getElem?_eq_getElem hn
      have h := answer_started_match r p text sc n _ hstate hq hslot
      by_cases hc : r.correct[n] = ""
      · simp only [hc, ne_eq, not_true_eq_false, if_false] at h
        refine ⟨_, _, h, ?_⟩
        unfold round.wellFormed
        simp only [List.length_set, register_q]
        exact hwf
      · simp only [ne_eq, hc, not_false_eq_true, if_true] at h
        refine ⟨_, _, h, ?_⟩
        unfold round.wellFormed
        rw [register_correct, register_q]
        exact hwf
  · refine ⟨r, (false, false, -1), ?_, hwf⟩
    unfold round.answer
    simp [hstate]

/-- What the loop does when the deadline fires, in a round with one claim slot
per answer. -/
theorem handleTimeUp_eq (w : World) (g : Game) (r : round) (currentRound : Int)
    (hlen : r.correct.length = r.q.Answers.length) :
    g.handleTimeUp w r currentRound =
      Step.ret
        (Game.updateRanking { g with State := State.RoundFinished }
          (setPositions 0 (sortRank (w.mapOrder (mapValues r.gathered))))) r
        [Message.state { ChanID := g.ChanID, Round := currentRound,
                         State := State.RoundTimeout, RoundText := QNAMessage.zero },
         Message.qna
           { ChanID := g.ChanID, Round := 0, QuestionText := r.q.Text, QuestionID := r.q.ID,
             ShowUnanswered := true,
             Answers := List.zipWith (viewRow r.players) r.correct r.q.Answers }] := by
  simp only [Game.handleTimeUp, ranking_eq w.mapOrder r hlen,
    questionText_eq r g.ChanID true hlen]

theorem rankEvents_append (a b : List Message) :
    rankEvents (a ++ b) = rankEvents a ++ rankEvents b := by
  unfold rankEvents
  exact List.filterMap_append a b _

/-- In a well-formed round the message branch of the loop does not panic, sends
no ranking event, and leaves the round well-formed when the loop goes on. -/
theorem handleMessage_good (cfg : Config) (w : World) (g : Game) (r : round)
    (currentRound : Int) (rawMsg : Message) (hwf : r.wellFormed) :
    (∃ g1 r1 out, g.handleMessage cfg w r currentRound rawMsg = Step.next g1 r1 out ∧
      r1.wellFormed ∧ rankEvents out = []) ∨
    (∃ g1 r1 out, g.handleMessage cfg w r currentRound rawMsg = Step.ret g1 r1 out ∧
      rankEvents out = []) := by
  cases rawMsg with
  | text chanID player text =>
    obtain ⟨r1, ⟨c, a, idx⟩, hans, hwf1⟩ := answer_wellFormed r player text hwf
    cases c with
    | false =>
      have h : g.handleMessage cfg w r currentRound (Message.text chanID player text) =
          Step.next { g with players := r1.players, currentRound := some r1 } r1
            (if cfg.TickAfterWrongAnswer then [Message.wrongAnswer g.ChanID] else []) := by
        simp only [Game.handleMessage, hans]
        rfl
      refine Or.inl ⟨_, r1, _, h, hwf1, ?_⟩
      cases cfg.TickAfterWrongAnswer <;> rfl
    | true =>
      cases a with
      | true =>
        rcases answer_cases r r1 player text _ hans with
          ⟨_, hres, _⟩ | ⟨_, hres, _⟩ | ⟨i, c, hslot, _, hr1, hres, _⟩ | ⟨i, _, _, hres, _⟩
        · simp at hres
        · simp at hres
        · simp only [Prod.mk.injEq, true_and] at hres
          subst hres
          have hslot1 : r1.correct[i]? = some c := by
            rw [hr1, register_correct]; exact hslot
          have h : g.handleMessage cfg w r currentRound (Message.text chanID player text) =
              Step.next { g with players := r1.players, currentRound := some r1 } r1 [] := by
            simp only [Game.handleMessage, hans]
            simp [hslot1]
          exact Or.inl ⟨_, r1, [], h, hwf1, rfl⟩
        · simp at hres
      | false =>
        obtain ⟨i, view, _, _, _, _, _, hstep⟩ := handleMessage_new_claim cfg w g r r1
          currentRound chanID player text idx hwf.1 hans
        cases hfin : r1.finised with
        | false =>
          rw [hfin] at hstep
          exact Or.inl ⟨_, r1, _, hstep, hwf1, rfl⟩
        | true =>
          rw [hfin] at hstep
          exact Or.inr ⟨_, _, _, hstep, rfl⟩
  | state m => exact Or.inl ⟨g, r, [], rfl, hwf, rfl⟩
  | tick c => exact Or.inl ⟨g, r, [], rfl, hwf, rfl⟩
  | wrongAnswer c => exact Or.inl ⟨g, r, [], rfl, hwf, rfl⟩
  | qna m => exact Or.inl ⟨g, r, [], rfl, hwf, rfl⟩
  | rank m => exact Or.inl ⟨g, r, [], rfl, hwf, rfl⟩
  | other => exact Or.inl ⟨g, r, [], rfl, hwf, rfl⟩

/-- A well-formed round whose deadline fires among the events given returns,
and its loop sends no ranking event. -/
theorem roundLoop_returns (cfg : Config) (w : World) (currentRound : Int)
    (events : List Event) (g : Game) (r : round) (hwf : r.wellFormed)
    (htime : Event.timeUp ∈ events) :
    ∃ g1 r1 out rest, Game.roundLoop cfg w currentRound g r events =
        RoundOutcome.returned g1 r1 out rest ∧ rankEvents out = [] := by
  induction events generalizing g r with
  | nil => simp at htime
  | cons ev events ih =>
    cases ev with
    | timeUp =>
      simp only [Game.roundLoop, Game.handleEvent, handleTimeUp_eq w g r currentRound hwf.1]
      exact ⟨_, _, _, _, rfl, rfl⟩
    | tick ready =>
      have htime' : Event.timeUp ∈ events := by
        rcases List.mem_cons.mp htime with h | h
        · cases h
        · exact h
      obtain ⟨g1, r1, out, rest, hloop, hout⟩ := ih g r hwf htime'
      simp only [Game.roundLoop, Game.handleEvent, hloop, RoundOutcome.emit]
      refine ⟨_, _, _, _, rfl, ?_⟩
      rw [rankEvents_append, hout]
      cases ready <;> rfl
    | msg rawMsg =>
      have htime' : Event.timeUp ∈ events := by
        rcases List.mem_cons.mp htime with h | h
        · cases h
        · exact h
      rcases handleMessage_good cfg w g r currentRound rawMsg hwf with
        ⟨g1, r1, out, hstep, hwf1, hout⟩ | ⟨g1, r1, out, hstep, hout⟩
      · obtain ⟨g2, r2, out2, rest, hloop, hout2⟩ := ih g1 r1 hwf1 htime'
        refine ⟨g2, r2, out ++ out2, rest, ?_, ?_⟩
        · simp only [Game.roundLoop, Game.handleEvent, hstep, hloop, RoundOutcome.emit]
        · rw [rankEvents_append, hout, hout2]
          rfl
      · exact ⟨g1, r1, out, events, by
          simp only [Game.roundLoop, Game.handleEvent, hstep], hout⟩

/-- A call of `startRound` whose deadline fires among the events given, with a
question bank whose matchers stay in bounds: it fails to start or it returns,
and sends no ranking event. -/
theorem startRound_ends (cfg : Config) (w : World) (g : Game) (currentRound : Int)
    (events : List Event)
    (hbank : ∀ seed n limit q, w.NextQuestion seed n limit = some q → q.inBounds)
    (htime : Event.timeUp ∈ events) :
    (∃ g1, g.startRound cfg w currentRound events = RoundOutcome.failed g1) ∨
    (∃ g1 r1 out rest, g.startRound cfg w currentRound events =
        RoundOutcome.returned g1 r1 out rest ∧ rankEvents out = []) := by
  unfold Game.startRound
  simp only []
  cases hq : w.NextQuestion g.seed (intAdd g.TotalRoundPlayed 1)
      (Game.questionLimit cfg w { g with TotalRoundPlayed := intAdd g.TotalRoundPlayed 1 }) with
  | none =>
    left
    simp only [newRound]
    exact ⟨_, rfl⟩
  | some q =>
    right
    have hin := hbank _ _ _ q hq
    simp only [newRound]
    have hlen : (List.replicate q.Answers.length "" : List PlayerID).length = q.Answers.length :=
      List.length_replicate _ _
    have hview := questionText_eq
      { q := q, state := State.RoundStarted, correct := List.replicate q.Answers.length "",
        players := g.players } g.ChanID false hlen
    obtain ⟨g1, r1, out, rest, hloop, hout⟩ := roundLoop_returns cfg w currentRound events
      { g with TotalRoundPlayed := intAdd g.TotalRoundPlayed 1,
               currentRound := some
                 { q := q, state := State.RoundStarted,
                   correct := List.replicate q.Answers.length "", players := g.players } }
      { q := q, state := State.RoundStarted, correct := List.replicate q.Answers.length "",
        players := g.players } ⟨hlen, hin⟩ htime
    simp only [hview, hloop, RoundOutcome.emit]
    refine ⟨_, _, _, _, rfl, ?_⟩
    rw [rankEvents_append, hout]
    rfl

/-! ## `Start` -/

/-- The loop of `Start`: when every round fails to start or ends, it runs all
its passes and sends one ranking event per pass, numbered from the counter on,
the final flag set on the pass whose number is `RoundPerGame`. -/
theorem startRounds_rankEvents (cfg : Config) (w : World) (sched : Int → List Event)
    (hbank : ∀ seed n limit q, w.NextQuestion seed n limit = some q → q.inBounds)
    (htime : ∀ i, Event.timeUp ∈ sched i) (k : Nat) (i : Int) (g : Game) :
    ∃ g1 out, Game.startRounds cfg w sched k i g = some (g1, out) ∧
      rankEvents out = (List.range k).map
        (fun (j : Nat) => (i + (j : Int), decide (i + (j : Int) = cfg.RoundPerGame))) := by
  induction k generalizing i g with
  | zero => exact ⟨g, [], rfl, rfl⟩
  | succ k ih =>
    have hshift : (List.range (k + 1)).map
        (fun (j : Nat) => (i + (j : Int), decide (i + (j : Int) = cfg.RoundPerGame))) =
        (i, decide (i = cfg.RoundPerGame)) :: (List.range k).map
          (fun (j : Nat) => (i + 1 + (j : Int), decide (i + 1 + (j : Int) = cfg.RoundPerGame))) := by
      rw [List.range_succ_eq_map, List.map_cons, List.map_map]
      simp only [Nat.cast_zero, Int.add_zero, List.cons.injEq, true_and]
      apply List.map_congr_left
      intro j _
      simp only [Function.comp, Nat.succ_eq_add_one, Nat.cast_add, Nat.cast_one]
      have e : i + ((j : Int) + 1) = i + 1 + (j : Int) := by omega
      rw [e]
    rcases startRound_ends cfg w g i (sched i) hbank (htime i) with
      ⟨g1, hround⟩ | ⟨g1, r1, out1, rest, hround, hout1⟩
    · obtain ⟨g2, outs, hloop, houts⟩ := ih (i + 1) g1
      simp only [Game.startRounds, hround, hloop]
      refine ⟨_, _, rfl, ?_⟩
      rw [hshift, ← houts]
      rfl
    · obtain ⟨g2, outs, hloop, houts⟩ := ih (i + 1) g1
      simp only [Game.startRounds, hround, hloop]
      refine ⟨_, _, rfl, ?_⟩
      rw [rankEvents_append, hout1, hshift, ← houts]
      rfl

/-- C7: for a round count N = RoundPerGame ≥ 1, a question bank whose matchers
stay in bounds and rounds whose deadline fires, whichever rounds fail to start,
end with all slots claimed or end by the deadline, the task of Start runs to
its end; the ranking events it sends are exactly N, with Round = 1, 2, ..., N
in this order and Final = true on the one with Round = N only (the last); the
game state is then Finished and the last event sent is a state-changed event
with state Finished. -/
theorem start_sends_one_ranking_per_round (cfg : Config) (w : World)
    (sched : Int → List Event) (g : Game) (hN : 1 ≤ cfg.RoundPerGame)
    (hbank : ∀ seed n limit q, w.NextQuestion seed n limit = some q → q.inBounds)
    (htime : ∀ i, Event.timeUp ∈ sched i) :
    ∃ g1 out, g.Start cfg w sched = some (g1, out) ∧
      rankEvents out = (List.range cfg.RoundPerGame.toNat).map
        (fun (j : Nat) => ((j : Int) + 1, decide ((j : Int) + 1 = cfg.RoundPerGame))) ∧
      (rankEvents out).length = cfg.RoundPerGame.toNat ∧
      (rankEvents out).getLast? = some (cfg.RoundPerGame, true) ∧
      g1.State = State.Finished ∧
      ∃ sm, out.getLast? = some (Message.state sm) ∧ sm.State = State.Finished := by
  obtain ⟨g1, outs, hloop, houts⟩ := startRounds_rankEvents cfg w sched hbank htime
    cfg.RoundPerGame.toNat 1 { g with State := State.Started }
  have hevents : rankEvents outs = (List.range cfg.RoundPerGame.toNat).map
      (fun (j : Nat) => ((j : Int) + 1, decide ((j : Int) + 1 = cfg.RoundPerGame))) := by
    rw [houts]
    apply List.map_congr_left
    intro j _
    have e : (1 : Int) + (j : Int) = (j : Int) + 1 := by omega
    rw [e]
  simp only [Game.Start, hloop]
  refine ⟨_, _, rfl, ?_, ?_, ?_, rfl, ?_⟩
  · have : rankEvents
        (Message.state { ChanID := g.ChanID, Round := 0, State := State.Started,
                         RoundText := QNAMessage.zero } :: outs ++
          [Message.state { ChanID := g1.ChanID, Round := 0, State := State.Finished,
                           RoundText := QNAMessage.zero }]) = rankEvents outs := by
      rw [rankEvents_append]
      simp [rankEvents]
    rw [this, hevents]
  · have : rankEvents
        (Message.state { ChanID := g.ChanID, Round := 0, State := State.Started,
                         RoundText := QNAMessage.zero } :: outs ++
          [Message.state { ChanID := g1.ChanID, Round := 0, State := State.Finished,
                           RoundText := QNAMessage.zero }]) = rankEvents outs := by
      rw [rankEvents_append]
      simp [rankEvents]
    rw [this, hevents]
    simp
  · have : rankEvents
        (Message.state { ChanID := g.ChanID, Round := 0, State := State.Started,
                         RoundText := QNAMessage.zero } :: outs ++
          [Message.state { ChanID := g1.ChanID, Round := 0, State := State.Finished,
                           RoundText := QNAMessage.zero }]) = rankEvents outs := by
      rw [rankEvents_append]
      simp [rankEvents]
    rw [this, hevents]
    obtain ⟨n, hn⟩ : ∃ n : Nat, cfg.RoundPerGame.toNat = n + 1 :=
      ⟨cfg.RoundPerGame.toNat - 1, by omega⟩
    rw [hn, List.range_succ, List.map_append, List.map_singleton, List.getLast?_concat]
    have e : (n : Int) + 1 = cfg.RoundPerGame := by omega
    simp [e]
  · exact ⟨_, List.getLast?_concat _, rfl⟩

theorem demoQuestion_inBounds : demoQuestion.inBounds := by
  intro text h
  unfold demoQuestion at h ⊢
  by_cases h1 : text = "nasi"
  · simp [h1]
  · by_cases h2 : text = "mie"
    · simp [h2]
    · simp [h1, h2] at h

theorem demoBank_inBounds (seed n limit : Int) (q : Question)
    (h : (worldOf demoBank).NextQuestion seed n limit = some q) : q.inBounds := by
  unfold worldOf demoBank at h
  by_cases hn : n = 2
  · simp [hn] at h
  · simp only [hn, if_false, Option.some.injEq] at h
    rw [← h]
    exact demoQuestion_inBounds

theorem demoSched_timeUp (i : Int) : Event.timeUp ∈ demoSched i := by
  unfold demoSched
  split <;> simp

/-- Witness of C7: three rounds; the first ends with all slots claimed, the
second fails to start, the third ends by the deadline. -/
theorem start_sends_one_ranking_per_round_witness :
    1 ≤ demoConfig.RoundPerGame ∧
    (∀ seed n limit q, (worldOf demoBank).NextQuestion seed n limit = some q → q.inBounds) ∧
    (∀ i, Event.timeUp ∈ demoSched i) ∧
    ∃ g1 out, demoGame.Start demoConfig (worldOf demoBank) demoSched = some (g1, out) ∧
      rankEvents out = (List.range demoConfig.RoundPerGame.toNat).map
        (fun (j : Nat) => ((j : Int) + 1, decide ((j : Int) + 1 = demoConfig.RoundPerGame))) ∧
      (rankEvents out).length = demoConfig.RoundPerGame.toNat ∧
      (rankEvents out).getLast? = some (demoConfig.RoundPerGame, true) ∧
      g1.State = State.Finished ∧
      ∃ sm, out.getLast? = some (Message.state sm) ∧ sm.State = State.Finished :=
  ⟨by decide, demoBank_inBounds, demoSched_timeUp,
    start_sends_one_ranking_per_round demoConfig (worldOf demoBank) demoSched demoGame
      (by decide) demoBank_inBounds demoSched_timeUp⟩

/-! ## The question view -/

/-- The name `r.players[pID].Name` that `questionText` reads from the roster:
the name of the entry stored under `pID`, the empty string (the name of the
zero `Player`) when the roster has no entry for `pID`. -/
theorem playerName_eq (players : GoMap Player) (pID : PlayerID) :
    (∀ pl, mapGet players pID = some pl → playerName players pID = pl.Name) ∧
    (mapGet players pID = none → playerName players pID = "") := by
  unfold playerName
  constructor
  · intro pl h
    rw [h]
    rfl
  · intro h
    rw [h]
    rfl

/-- C12: for a round with one claim slot per answer, questionText returns a
view whose Answers list has the length and the order of the question's
answers; row i carries the text and the score of answer i, Answered = true
exactly when slot i is claimed, and Highlight = false; PlayerName is the empty
string when slot i is unclaimed and, when it is claimed by pID, the Name of the
Player the roster holds under pID (of the one entry with that key; the empty
string, the name of the zero Player, if the roster has no entry for pID);
ShowUnanswered is the flag passed in.  The call yields the view only: the
source assigns to no field of the round. -/
theorem questionText_view (r : round) (gameID : String) (showUnAnswered : Bool)
    (hlen : r.correct.length = r.q.Answers.length) :
    ∃ view, r.questionText gameID showUnAnswered = some view ∧
      view.ChanID = gameID ∧ view.QuestionText = r.q.Text ∧ view.QuestionID = r.q.ID ∧
      view.ShowUnanswered = showUnAnswered ∧
      view.Answers.length = r.q.Answers.length ∧
      ∀ (i : Nat) (ans : Answer), r.q.Answers[i]? = some ans →
        ∃ ra pID, view.Answers[i]? = some ra ∧ r.correct[i]? = some pID ∧
          ra.Text = ans.Text ∧ ra.Score = ans.Score ∧
          (ra.Answered = true ↔ pID ≠ "") ∧
          (pID = "" → ra.PlayerName = "") ∧
          (pID ≠ "" → ∀ pl, mapGet r.players pID = some pl → ra.PlayerName = pl.Name) ∧
          (pID ≠ "" → mapGet r.players pID = none → ra.PlayerName = "") ∧
          (pID ≠ "" → (mapKeys r.players).Nodup →
            ∀ pl, (pID, pl) ∈ r.players → ra.PlayerName = pl.Name) ∧
          ra.Highlight = false := by
  refine ⟨_, questionText_eq r gameID showUnAnswered hlen, rfl, rfl, rfl, rfl,
    zipWith_viewRow_length r.players r.correct r.q.Answers hlen, ?_⟩
  intro i ans hans
  have hi : i < r.correct.length := by
    rw [hlen]; exact (List.getElem?_eq_some_iff.mp hans).1
  have hslot : r.correct[i]? = some r.correct[i] := List.getElem?_eq_getElem hi
  obtain ⟨hsome, hnone⟩ := playerName_eq r.players r.correct[i]
  refine ⟨viewRow r.players r.correct[i] ans, r.correct[i], ?_, hslot, ?_⟩
  · exact List.getElem?_zipWith_eq_some.mpr ⟨_, _, hslot, hans, rfl⟩
  · by_cases hc : r.correct[i] = ""
    · have hrow : viewRow r.players r.correct[i] ans =
          { Text := ans.Text, Score := ans.Score, Answered := false, PlayerName := "",
            Highlight := false } := by
        unfold viewRow
        simp [hc]
      rw [hrow]
      refine ⟨rfl, rfl, ?_, fun _ => rfl, fun h => absurd hc h, fun h => absurd hc h,
        fun h => absurd hc h, rfl⟩
      simp [hc]
    · have hrow : viewRow r.players r.correct[i] ans =
          { Text := ans.Text, Score := ans.Score, Answered := true,
            PlayerName := playerName r.players r.correct[i], Highlight := false } := by
        unfold viewRow
        simp [hc]
      rw [hrow]
      refine ⟨rfl, rfl, ?_, fun h => absurd h hc, fun _ pl hpl => hsome pl hpl,
        fun _ hno => hnone hno, fun _ hnd pl hmem => ?_, rfl⟩
      · simp [hc]
      · exact hsome pl (mapGet_of_mem r.players r.correct[i] pl hnd hmem)

/-- Witness of C12: the view of the round in which Ani has claimed "nasi"; its
rows are ("nasi", 40, answered, by "Ani") and ("mie", 25, not answered, ""). -/
theorem questionText_view_witness :
    demoRound1.correct.length = demoRound1.q.Answers.length ∧
    (demoRound1.questionText "c1" true).map
        (fun v => v.Answers.map (fun ra => (ra.Text, ra.Score, ra.Answered, ra.PlayerName))) =
      some [("nasi", 40, true, "Ani"), ("mie", 25, false, "")] ∧
    ∃ view, demoRound1.questionText "c1" true = some view ∧
      view.ChanID = "c1" ∧ view.QuestionText = demoRound1.q.Text ∧
      view.QuestionID = demoRound1.q.ID ∧
      view.ShowUnanswered = true ∧
      view.Answers.length = demoRound1.q.Answers.length ∧
      ∀ (i : Nat) (ans : Answer), demoRound1.q.Answers[i]? = some ans →
        ∃ ra pID, view.Answers[i]? = some ra ∧ demoRound1.correct[i]? = some pID ∧
          ra.Text = ans.Text ∧ ra.Score = ans.Score ∧
          (ra.Answered = true ↔ pID ≠ "") ∧
          (pID = "" → ra.PlayerName = "") ∧
          (pID ≠ "" → ∀ pl, mapGet demoRound1.players pID = some pl →
            ra.PlayerName = pl.Name) ∧
          (pID ≠ "" → mapGet demoRound1.players pID = none → ra.PlayerName = "") ∧
          (pID ≠ "" → (mapKeys demoRound1.players).Nodup →
            ∀ pl, (pID, pl) ∈ demoRound1.players → ra.PlayerName = pl.Name) ∧
          ra.Highlight = false :=
  ⟨rfl, by decide, questionText_view demoRound1 "c1" true rfl⟩

/-! ## Completion only after a new claim -/

/-- A call of `answer` that does not report a new claim leaves the claim slots
and the question as they were. -/
theorem answer_no_new_claim (r r' : round) (p : Player) (text : String)
    (res : Bool × Bool × Int) (hans : r.answer p text = some (r', res))
    (hold : ¬ (res.1 = true ∧ res.2.1 = false)) :
    r'.correct = r.correct ∧ r'.q = r.q ∧ r'.state = r.state := by
  rcases answer_cases r r' p text res hans with
    ⟨rfl, _, _⟩ | ⟨rfl, _, _⟩ | ⟨i, c, _, _, rfl, _, _⟩ | ⟨i, _, _, hres, _⟩
  · exact ⟨rfl, rfl, rfl⟩
  · exact ⟨register_correct r p, register_q r p, register_state r p⟩
  · exact ⟨register_correct r p, register_q r p, register_state r p⟩
  · rw [hres] at hold
    exact absurd ⟨rfl, rfl⟩ hold

theorem countP_replicate_unclaimed (n : Nat) :
    (List.replicate n ("" : PlayerID)).countP (fun pID => decide (pID ≠ "")) = 0 := by
  induction n with
  | zero => rfl
  | succ n ih => simp [List.replicate_succ, List.countP_cons, ih]

/-- C13 (as amended): finised() is false on a freshly created round of a
question that has at least one answer (all its slots are unclaimed), and a
call of answer that does not report a new claim (stale, not matching or
already claimed) leaves finised() as it was: false before the call, false
after it. -/
theorem finised_only_after_new_claim (q : Question) (players : GoMap Player)
    (r0 r r' : round) (p : Player) (text : String) (res : Bool × Bool × Int)
    (hq : q.Answers ≠ []) (hnew : newRound (some q) players = some r0)
    (hans : r.answer p text = some (r', res))
    (hold : ¬ (res.1 = true ∧ res.2.1 = false)) :
    (∀ pID ∈ r0.correct, pID = "") ∧ r0.finised = false ∧
    r'.finised = r.finised ∧ (r.finised = false → r'.finised = false) := by
  simp only [newRound, Option.some.injEq] at hnew
  have hkeep := answer_no_new_claim r r' p text res hans hold
  have hsame : r'.finised = r.finised := by
    rw [finised_eq, finised_eq, hkeep.1, hkeep.2.1]
  refine ⟨?_, ?_, hsame, fun h => by rw [hsame]; exact h⟩
  · intro pID hp
    rw [← hnew] at hp
    exact List.eq_of_mem_replicate hp
  · rw [finised_eq, ← hnew]
    simp only [countP_replicate_unclaimed, decide_eq_false_iff_not]
    intro h
    exact hq (List.length_eq_zero.mp h.symm)

/-- Witness of C13 (as amended): a fresh round on the demo question, and Budi
repeating "nasi" after Ani has claimed it. -/
theorem finised_only_after_new_claim_witness :
    demoQuestion.Answers ≠ [] ∧
    newRound (some demoQuestion) [] = some { demoRound with state := State.Created } ∧
    demoRound1.answer budi "nasi" =
      some ({ demoRound1 with players := [("u1", ani), ("u2", budi)] }, (true, true, 0)) ∧
    ¬ (((true, true, 0) : Bool × Bool × Int).1 = true ∧
       ((true, true, 0) : Bool × Bool × Int).2.1 = false) ∧
    (∀ pID ∈ ({ demoRound with state := State.Created } : round).correct, pID = "") ∧
    ({ demoRound with state := State.Created } : round).finised = false ∧
    ({ demoRound1 with players := [("u1", ani), ("u2", budi)] } : round).finised =
      demoRound1.finised ∧
    (demoRound1.finised = false →
      ({ demoRound1 with players := [("u1", ani), ("u2", budi)] } : round).finised = false) :=
  ⟨by decide, rfl, rfl, by decide,
    finised_only_after_new_claim demoQuestion [] { demoRound with state := State.Created }
      demoRound1 { demoRound1 with players := [("u1", ani), ("u2", budi)] } budi "nasi"
      (true, true, 0) (by decide) rfl rfl (by decide)⟩

/-- C13 (counterexample): the freshly created round of a question without
answers has no claimed slot, and its finised() is true (0 claimed slots of 0
answers), not false as the claim says of every fresh round. -/
theorem fresh_round_without_answers_counterexample :
    ∃ r, newRound (some emptyQuestion) [] = some r ∧
      (∀ pID ∈ r.correct, pID = "") ∧ r.state = State.Created ∧ r.finised = true :=
  ⟨{ q := emptyQuestion, state := State.Created, correct := [], players := [] }, rfl,
    (by intro pID h; cases h), rfl, rfl⟩

/-! ## The roster -/

theorem register_players_self (r : round) (p : Player) :
    mapGet (r.register p).players p.ID =
      some ((mapGet r.players p.ID).getD p) := by
  unfold round.register
  cases h : mapGet r.players p.ID with
  | none => simp [mapGet_mapSet_self]
  | some v => simp [h]

theorem register_players_ne (r : round) (p : Player) (k : PlayerID) (hk : k ≠ p.ID) :
    mapGet (r.register p).players k = mapGet r.players k := by
  unfold round.register
  cases h : mapGet r.players p.ID with
  | none => exact mapGet_mapSet_ne r.players p.ID k p hk
  | some v => rfl

theorem register_players_keep (r : round) (p : Player) (k : PlayerID) (v : Player)
    (h : mapGet r.players k = some v) : mapGet (r.register p).players k = some v := by
  by_cases hk : k = p.ID
  · subst hk
    rw [register_players_self, h]
    rfl
  · rw [register_players_ne r p k hk]
    exact h

theorem register_keys (r : round) (p : Player) :
    mapKeys (r.register p).players =
      if p.ID ∈ mapKeys r.players then mapKeys r.players else mapKeys r.players ++ [p.ID] := by
  unfold round.register
  cases h : mapGet r.players p.ID with
  | none =>
    have hnot : p.ID ∉ mapKeys r.players := (mapGet_eq_none_iff r.players p.ID).mp h
    simp only [mapKeys_mapSet, hnot, if_false]
  | some v =>
    have hmem : p.ID ∈ mapKeys r.players := by
      by_contra hnot
      rw [(mapGet_eq_none_iff r.players p.ID).mpr hnot] at h
      exact absurd h (by simp)
    simp only [hmem, if_true]

/-- The roster after a returning call of `answer`: that of the round before the
call, or that with the player registered. -/
theorem answer_players (r r' : round) (p : Player) (text : String)
    (res : Bool × Bool × Int) (hans : r.answer p text = some (r', res)) :
    (r.state ≠ State.RoundStarted ∧ r'.players = r.players) ∨
    (r.state = State.RoundStarted ∧ r'.players = (r.register p).players) := by
  rcases answer_cases r r' p text res hans with
    ⟨rfl, _, hs⟩ | ⟨rfl, _, hs⟩ | ⟨i, c, _, _, rfl, _, hs⟩ | ⟨i, _, rfl, _, hs⟩
  · exact Or.inl ⟨hs, rfl⟩
  · exact Or.inr ⟨hs, rfl⟩
  · exact Or.inr ⟨hs, rfl⟩
  · exact Or.inr ⟨hs, rfl⟩

theorem answer_keeps_players (r r' : round) (p : Player) (text : String)
    (res : Bool × Bool × Int) (hans : r.answer p text = some (r', res)) (k : PlayerID)
    (v : Player) (h : mapGet r.players k = some v) : mapGet r'.players k = some v := by
  rcases answer_players r r' p text res hans with ⟨_, hp⟩ | ⟨_, hp⟩
  · rw [hp]; exact h
  · rw [hp]; exact register_players_keep r p k v h

theorem answerAll_keeps_players (calls : List (Player × String)) (r r' : round)
    (h : answerAll r calls = some r') (k : PlayerID) (v : Player)
    (hk : mapGet r.players k = some v) : mapGet r'.players k = some v := by
  induction calls generalizing r with
  | nil =>
    simp only [answerAll, Option.some.injEq] at h
    rw [← h]; exact hk
  | cons call rest ih =>
    obtain ⟨p, text⟩ := call
    simp only [answerAll] at h
    cases hfirst : r.answer p text with
    | none => rw [hfirst] at h; exact absurd h (by simp)
    | some out =>
      obtain ⟨r1, res⟩ := out
      rw [hfirst] at h
      exact ih r1 h (answer_keeps_players r r1 p text res hfirst k v hk)

/-- C14: in a round in state RoundStarted, after a returning call
answer(p, text), matching or not, the roster has an entry for the id of p (p
itself if the id was unseen, the entry it had otherwise); every entry the
roster had before the call is still there with the same id and name; no entry
is added or changed under any other id, the keys being those before the call,
followed by the id of p if it was new; and every entry stays through any
further sequence of calls of answer, so the roster never shrinks. -/
theorem answer_registers_player (r r' r'' : round) (p : Player) (text : String)
    (res : Bool × Bool × Int) (calls : List (Player × String))
    (hstate : r.state = State.RoundStarted)
    (hans : r.answer p text = some (r', res)) (hs : answerAll r' calls = some r'') :
    mapGet r'.players p.ID = some ((mapGet r.players p.ID).getD p) ∧
    (∀ k v, mapGet r.players k = some v → mapGet r'.players k = some v) ∧
    (∀ k, k ≠ p.ID → mapGet r'.players k = mapGet r.players k) ∧
    mapKeys r'.players =
      (if p.ID ∈ mapKeys r.players then mapKeys r.players
       else mapKeys r.players ++ [p.ID]) ∧
    (∀ k v, mapGet r.players k = some v → mapGet r''.players k = some v) := by
  have hp : r'.players = (r.register p).players := by
    rcases answer_players r r' p text res hans with ⟨hn, _⟩ | ⟨_, hp⟩
    · exact absurd hstate hn
    · exact hp
  refine ⟨?_, ?_, ?_, ?_, ?_⟩
  · rw [hp]; exact register_players_self r p
  · intro k v h
    rw [hp]; exact register_players_keep r p k v h
  · intro k hk
    rw [hp]; exact register_players_ne r p k hk
  · rw [hp]; exact register_keys r p
  · intro k v h
    exact answerAll_keeps_players calls r' r'' hs k v
      (answer_keeps_players r r' p text res hans k v h)

/-- Witness of C14: Budi answers "roti", which matches nothing, in the round
whose roster holds Ani; then Ani, under another name, and Budi answer again. -/
theorem answer_registers_player_witness :
    demoRound1.state = State.RoundStarted ∧
    demoRound1.answer budi "roti" =
      some ({ demoRound1 with players := [("u1", ani), ("u2", budi)] }, (false, false, -1)) ∧
    answerAll { demoRound1 with players := [("u1", ani), ("u2", budi)] }
        [({ ID := "u1", Name := "Anita" }, "mie"), (budi, "nasi")] =
      some { demoRound1 with correct := ["u1", "u1"],
                             players := [("u1", ani), ("u2", budi)] } ∧
    mapGet ({ demoRound1 with players := [("u1", ani), ("u2", budi)] } : round).players
        budi.ID = some ((mapGet demoRound1.players budi.ID).getD budi) ∧
    (∀ k v, mapGet demoRound1.players k = some v →
      mapGet ({ demoRound1 with players := [("u1", ani), ("u2", budi)] } : round).players k =
        some v) ∧
    (∀ k, k ≠ budi.ID →
      mapGet ({ demoRound1 with players := [("u1", ani), ("u2", budi)] } : round).players k =
        mapGet demoRound1.players k) ∧
    mapKeys ({ demoRound1 with players := [("u1", ani), ("u2", budi)] } : round).players =
      (if budi.ID ∈ mapKeys demoRound1.players then mapKeys demoRound1.players
       else mapKeys demoRound1.players ++ [budi.ID]) ∧
    (∀ k v, mapGet demoRound1.players k = some v →
      mapGet ({ demoRound1 with correct := ["u1", "u1"],
                                players := [("u1", ani), ("u2", budi)] } : round).players k =
        some v) :=
  ⟨rfl, rfl, rfl,
    answer_registers_player demoRound1
      { demoRound1 with players := [("u1", ani), ("u2", budi)] }
      { demoRound1 with correct := ["u1", "u1"], players := [("u1", ani), ("u2", budi)] }
      budi "roti" (false, false, -1)
      [({ ID := "u1", Name := "Anita" }, "mie"), (budi, "nasi")] rfl rfl rfl⟩

/-! ## Messages that claim nothing -/

/-- What the loop does with a text message whose `answer` call does not report
a new claim: it goes on, and sends the wrong-answer notice only when the call
reports no match and the flag is on. -/
theorem handleMessage_no_new_claim (cfg : Config) (w : World) (g : Game) (r r1 : round)
    (currentRound : Int) (chanID : String) (player : Player) (text : String)
    (c a : Bool) (idx : Int)
    (hans : r.answer player text = some (r1, (c, a, idx)))
    (hold : ¬ (c = true ∧ a = false)) :
    g.handleMessage cfg w r currentRound (Message.text chanID player text) =
      Step.next { g with players := r1.players, currentRound := some r1 } r1
        (if c = false ∧ cfg.TickAfterWrongAnswer = true then [Message.wrongAnswer g.ChanID]
         else []) := by
  cases c with
  | false =>
    simp only [Game.handleMessage, hans]
    cases cfg.TickAfterWrongAnswer <;> rfl
  | true =>
    cases a with
    | false => exact absurd ⟨rfl, rfl⟩ hold
    | true =>
      rcases answer_cases r r1 player text _ hans with
        ⟨_, hres, _⟩ | ⟨_, hres, _⟩ | ⟨i, c, hslot, _, hr1, hres, _⟩ | ⟨i, _, _, hres, _⟩
      · simp at hres
      · simp at hres
      · simp only [Prod.mk.injEq, true_and] at hres
        subst hres
        have hslot1 : r1.correct[i]? = some c := by
          rw [hr1, register_correct]; exact hslot
        simp only [Game.handleMessage, hans]
        simp [hslot1]
      · simp at hres

/-- C15: in a started round, a message handled by the loop that does not newly
claim a slot leaves the claim slots as they are and lets the loop go on with
the round still in state RoundStarted.  An inbound item that is not a text
message changes nothing and sends nothing; a text that matches no slot sends
nothing when the flag TickAfterWrongAnswer is off and exactly one wrong-answer
notice when it is on; a text that matches a slot already claimed sends nothing,
whatever the flag. -/
theorem message_without_new_claim (cfg : Config) (w : World) (g : Game) (r : round)
    (currentRound : Int) (hstate : r.state = State.RoundStarted) :
    (∀ rawMsg, (∀ c p t, rawMsg ≠ Message.text c p t) →
      g.handleMessage cfg w r currentRound rawMsg = Step.next g r []) ∧
    (∀ chanID player text s i, r.q.checkAnswer text = (false, s, i) →
      g.handleMessage cfg w r currentRound (Message.text chanID player text) =
        Step.next { g with players := (r.register player).players,
                           currentRound := some (r.register player) } (r.register player)
          (if cfg.TickAfterWrongAnswer = true then [Message.wrongAnswer g.ChanID] else [])) ∧
    (∀ chanID player text s (i : Nat) c, r.q.checkAnswer text = (true, s, (i : Int)) →
      r.correct[i]? = some c → c ≠ "" →
      g.handleMessage cfg w r currentRound (Message.text chanID player text) =
        Step.next { g with players := (r.register player).players,
                           currentRound := some (r.register player) } (r.register player) []) ∧
    (∀ player, (r.register player).correct = r.correct ∧
      (r.register player).state = State.RoundStarted ∧ (r.register player).q = r.q) := by
  refine ⟨?_, ?_, ?_, ?_⟩
  · intro rawMsg hraw
    cases rawMsg with
    | text c p t => exact absurd rfl (hraw c p t)
    | state m => rfl
    | tick c => rfl
    | wrongAnswer c => rfl
    | qna m => rfl
    | rank m => rfl
    | other => rfl
  · intro chanID player text s i hq
    have hans := answer_started_nomatch r player text s i hstate hq
    rw [handleMessage_no_new_claim cfg w g r _ currentRound chanID player text
      false false (-1) hans (by simp)]
    simp
  · intro chanID player text s i c hq hslot hc
    have hans := answer_started_match r player text s i c hstate hq hslot
    simp only [ne_eq, hc, not_false_eq_true, if_true] at hans
    rw [handleMessage_no_new_claim cfg w g r _ currentRound chanID player text
      true true (i : Int) hans (by simp)]
    simp
  · intro player
    exact ⟨register_correct r player, by rw [register_state]; exact hstate,
      register_q r player⟩

/-- Witness of C15: with the flag on, in the round in which Ani holds "nasi",
a tick message arrives on the inbound channel, Budi guesses "roti", and Budi
repeats "nasi". -/
theorem message_without_new_claim_witness :
    demoRound1.state = State.RoundStarted ∧
    demoGame.handleMessage { demoConfig with TickAfterWrongAnswer := true }
        (worldOf demoBank) demoRound1 1 (Message.tick "c1") =
      Step.next demoGame demoRound1 [] ∧
    demoGame.handleMessage { demoConfig with TickAfterWrongAnswer := true }
        (worldOf demoBank) demoRound1 1 (Message.text "c1" budi "roti") =
      Step.next { demoGame with players := (demoRound1.register budi).players,
                                currentRound := some (demoRound1.register budi) }
        (demoRound1.register budi) [Message.wrongAnswer "c1"] ∧
    demoGame.handleMessage { demoConfig with TickAfterWrongAnswer := true }
        (worldOf demoBank) demoRound1 1 (Message.text "c1" budi "nasi") =
      Step.next { demoGame with players := (demoRound1.register budi).players,
                                currentRound := some (demoRound1.register budi) }
        (demoRound1.register budi) [] ∧
    (demoRound1.register budi).correct = demoRound1.correct :=
  ⟨rfl,
    (message_without_new_claim { demoConfig with TickAfterWrongAnswer := true }
      (worldOf demoBank) demoGame demoRound1 1 rfl).1 (Message.tick "c1")
      (by intro c p t h; cases h),
    (message_without_new_claim { demoConfig with TickAfterWrongAnswer := true }
      (worldOf demoBank) demoGame demoRound1 1 rfl).2.1 "c1" budi "roti" 0 (-1) rfl,
    (message_without_new_claim { demoConfig with TickAfterWrongAnswer := true }
      (worldOf demoBank) demoGame demoRound1 1 rfl).2.2.1 "c1" budi "nasi" 40 0 "u1" rfl rfl
      (by decide),
    ((message_without_new_claim { demoConfig with TickAfterWrongAnswer := true }
      (worldOf demoBank) demoGame demoRound1 1 rfl).2.2.2 budi).1⟩

/-! ## Indices stay in bounds -/

theorem emit_ne_panic (pre : List Message) (o : RoundOutcome) (h : o ≠ RoundOutcome.panic) :
    o.emit pre ≠ RoundOutcome.panic := by
  cases o with
  | failed g => simp [RoundOutcome.emit]
  | returned g r out rest => simp [RoundOutcome.emit]
  | waiting g r out => simp [RoundOutcome.emit]
  | panic => exact absurd rfl h

/-- In a well-formed round no pass through the loop panics, and the round is
well-formed when the loop goes on. -/
theorem handleEvent_good (cfg : Config) (w : World) (g : Game) (r : round)
    (currentRound : Int) (ev : Event) (hwf : r.wellFormed) :
    (∃ g1 r1 out, g.handleEvent cfg w r currentRound ev = Step.next g1 r1 out ∧
      r1.wellFormed) ∨
    (∃ g1 r1 out, g.handleEvent cfg w r currentRound ev = Step.ret g1 r1 out) := by
  cases ev with
  | msg rawMsg =>
    rcases handleMessage_good cfg w g r currentRound rawMsg hwf with
      ⟨g1, r1, out, h, hwf1, _⟩ | ⟨g1, r1, out, h, _⟩
    · exact Or.inl ⟨g1, r1, out, h, hwf1⟩
    · exact Or.inr ⟨g1, r1, out, h⟩
  | tick ready => exact Or.inl ⟨g, r, _, rfl, hwf⟩
  | timeUp =>
    exact Or.inr ⟨_, _, _, by
      simp only [Game.handleEvent]
      exact handleTimeUp_eq w g r currentRound hwf.1⟩

/-- The loop of a well-formed round does not panic, whatever the events. -/
theorem roundLoop_no_panic (cfg : Config) (w : World) (currentRound : Int)
    (events : List Event) (g : Game) (r : round) (hwf : r.wellFormed) :
    Game.roundLoop cfg w currentRound g r events ≠ RoundOutcome.panic := by
  induction events generalizing g r with
  | nil => simp [Game.roundLoop]
  | cons ev events ih =>
    rcases handleEvent_good cfg w g r currentRound ev hwf with
      ⟨g1, r1, out, h, hwf1⟩ | ⟨g1, r1, out, h⟩
    · simp only [Game.roundLoop, h]
      exact emit_ne_panic out _ (ih g1 r1 hwf1)
    · simp [Game.roundLoop, h]

/-- The round `newRound` builds has one unclaimed slot per answer. -/
theorem newRound_some (q : Question) (players : GoMap Player) :
    newRound (some q) players =
      some { q := q, state := State.Created, correct := List.replicate q.Answers.length "",
             players := players } := rfl

/-- With a question bank whose matchers stay in bounds `startRound` does not
panic, whatever the events. -/
theorem startRound_no_panic (cfg : Config) (w : World) (g : Game) (currentRound : Int)
    (events : List Event)
    (hbank : ∀ seed n limit q, w.NextQuestion seed n limit = some q → q.inBounds) :
    g.startRound cfg w currentRound events ≠ RoundOutcome.panic := by
  unfold Game.startRound
  simp only []
  cases hq : w.NextQuestion g.seed (intAdd g.TotalRoundPlayed 1)
      (Game.questionLimit cfg w { g with TotalRoundPlayed := intAdd g.TotalRoundPlayed 1 }) with
  | none => simp [newRound]
  | some q =>
    have hin := hbank _ _ _ q hq
    have hlen : (List.replicate q.Answers.length "" : List PlayerID).length = q.Answers.length :=
      List.length_replicate _ _
    have hview := questionText_eq
      { q := q, state := State.RoundStarted, correct := List.replicate q.Answers.length "",
        players := g.players } g.ChanID false hlen
    simp only [newRound, hview]
    exact emit_ne_panic _ _ (roundLoop_no_panic cfg w currentRound events _ _ ⟨hlen, hin⟩)

/-- C17: the round newRound builds has exactly one claim slot per answer of
its question, and a call of answer changes neither the number of slots nor the
question.  Hence, with a matcher that reports only indices of answers (not
negative and below their number), in a round with one slot per answer no index
is out of range: answer, questionText and ranking return, the highlight
assignment after a new claim finds its row, no pass through the round loop
panics, and a whole call of startRound on a question bank of such matchers
never panics. -/
theorem indices_stay_in_bounds (cfg : Config) (w : World) (g : Game) (currentRound : Int)
    (events : List Event)
    (hbank : ∀ seed n limit q, w.NextQuestion seed n limit = some q → q.inBounds) :
    (∀ q players, ∃ r, newRound (some q) players = some r ∧
      r.correct.length = q.Answers.length ∧ r.q = q) ∧
    (∀ (r r' : round) p text res, r.answer p text = some (r', res) →
      r'.correct.length = r.correct.length ∧ r'.q = r.q) ∧
    (∀ r : round, r.wellFormed →
      (∀ p text, ∃ r' res, r.answer p text = some (r', res) ∧ r'.wellFormed) ∧
      (∀ gameID flag, (r.questionText gameID flag).isSome = true) ∧
      (∀ mapOrder, (r.ranking mapOrder).isSome = true) ∧
      (∀ p text r1 idx gameID, r.answer p text = some (r1, (true, false, idx)) →
        ∃ view, r1.questionText gameID false = some view ∧
          (setHighlight view idx).isSome = true) ∧
      (∀ (g1 : Game) n ev, g1.handleEvent cfg w r n ev ≠ Step.panic)) ∧
    g.startRound cfg w currentRound events ≠ RoundOutcome.panic := by
  refine ⟨?_, ?_, ?_, startRound_no_panic cfg w g currentRound events hbank⟩
  · intro q players
    exact ⟨_, newRound_some q players, List.length_replicate _ _, rfl⟩
  · intro r r' p text res hans
    refine ⟨(answer_changes r r' p text res hans).1, ?_⟩
    rcases answer_cases r r' p text res hans with
      ⟨rfl, _, _⟩ | ⟨rfl, _, _⟩ | ⟨i, c, _, _, rfl, _, _⟩ | ⟨i, _, rfl, _, _⟩
    · rfl
    · exact register_q r p
    · exact register_q r p
    · exact register_q r p
  · intro r hwf
    refine ⟨fun p text => answer_wellFormed r p text hwf, ?_, ?_, ?_, ?_⟩
    · intro gameID flag
      rw [questionText_eq r gameID flag hwf.1]
      rfl
    · intro mapOrder
      rw [ranking_eq mapOrder r hwf.1]
      rfl
    · intro p text r1 idx gameID hans
      obtain ⟨i, view, _, _, hq1, hlen1, hset, _⟩ := handleMessage_new_claim cfg w
        { g with ChanID := gameID } r r1 currentRound gameID p text idx hwf.1 hans
      refine ⟨_, questionText_eq r1 gameID false (by rw [hlen1, hq1]), ?_⟩
      rw [hset]
      rfl
    · intro g1 n ev
      rcases handleEvent_good cfg w g1 r n ev hwf with ⟨_, _, _, h, _⟩ | ⟨_, _, _, h⟩
      · rw [h]; simp
      · rw [h]; simp

/-- Witness of C17: the demo game on the bank of the demo question, with Ani
and Budi finding both answers. -/
theorem indices_stay_in_bounds_witness :
    (∀ seed n limit q, (worldOf demoBank).NextQuestion seed n limit = some q → q.inBounds) ∧
    ((∀ q players, ∃ r, newRound (some q) players = some r ∧
      r.correct.length = q.Answers.length ∧ r.q = q) ∧
    (∀ (r r' : round) p text res, r.answer p text = some (r', res) →
      r'.correct.length = r.correct.length ∧ r'.q = r.q) ∧
    (∀ r : round, r.wellFormed →
      (∀ p text, ∃ r' res, r.answer p text = some (r', res) ∧ r'.wellFormed) ∧
      (∀ gameID flag, (r.questionText gameID flag).isSome = true) ∧
      (∀ mapOrder, (r.ranking mapOrder).isSome = true) ∧
      (∀ p text r1 idx gameID, r.answer p text = some (r1, (true, false, idx)) →
        ∃ view, r1.questionText gameID false = some view ∧
          (setHighlight view idx).isSome = true) ∧
      (∀ (g1 : Game) n ev, g1.handleEvent demoConfig (worldOf demoBank) r n ev ≠ Step.panic)) ∧
    demoGame.startRound demoConfig (worldOf demoBank) 1 (demoSched 1) ≠ RoundOutcome.panic) :=
  ⟨demoBank_inBounds,
    indices_stay_in_bounds demoConfig (worldOf demoBank) demoGame 1 (demoSched 1)
      demoBank_inBounds⟩

/-! ## Counting the claimed slots -/

theorem countP_set_unclaimed (l : List PlayerID) (i : Nat) (v : PlayerID)
    (h : l[i]? = some "") :
    (l.set i v).countP (fun pID => decide (pID ≠ "")) =
      l.countP (fun pID => decide (pID ≠ "")) + (if v ≠ "" then 1 else 0) := by
  induction l generalizing i with
  | nil => simp at h
  | cons a l ih =>
    cases i with
    | zero =>
      simp only [List.getElem?_cons_zero, Option.some.injEq] at h
      subst h
      by_cases hv : v = ""
      · simp [List.set, List.countP_cons, hv]
      · simp [List.set, List.countP_cons, hv]
    | succ i =>
      simp only [List.getElem?_cons_succ] at h
      simp only [List.set, List.countP_cons, ih i h]
      omega

theorem finised_iff_count (r : round) :
    r.finised = true ↔ r.claimedCount = r.q.Answers.length := by
  rw [finised_eq]
  simp [round.claimedCount]

theorem claimedCount_le (r : round) : r.claimedCount ≤ r.correct.length :=
  List.countP_le_length _

/-- The number of claimed slots after a returning call of `answer` in a
started round. -/
theorem answer_claimedCount (r r' : round) (p : Player) (text : String) (c a : Bool)
    (idx : Int) (hans : r.answer p text = some (r', (c, a, idx))) :
    r'.claimedCount =
      r.claimedCount + (if c = true ∧ a = false ∧ p.ID ≠ "" then 1 else 0) := by
  by_cases hnew : c = true ∧ a = false
  · obtain ⟨rfl, rfl⟩ := hnew
    rcases answer_cases r r' p text _ hans with
      ⟨_, hres, _⟩ | ⟨_, hres, _⟩ | ⟨i, c, _, _, _, hres, _⟩ | ⟨i, hslot, rfl, _, _⟩
    · simp at hres
    · simp at hres
    · simp at hres
    · simp only [round.claimedCount, countP_set_unclaimed r.correct i p.ID hslot]
      simp
  · have hkeep := answer_no_new_claim r r' p text (c, a, idx) hans hnew
    have hno : ¬ (c = true ∧ a = false ∧ p.ID ≠ "") := fun h => hnew ⟨h.1, h.2.1⟩
    simp only [round.claimedCount, hkeep.1, hno, if_false, Nat.add_zero]

theorem answer_state (r r' : round) (p : Player) (text : String) (res : Bool × Bool × Int)
    (hans : r.answer p text = some (r', res)) : r'.state = r.state ∧ r'.q = r.q := by
  rcases answer_cases r r' p text res hans with
    ⟨rfl, _, _⟩ | ⟨rfl, _, _⟩ | ⟨i, c, _, _, rfl, _, _⟩ | ⟨i, _, rfl, _, _⟩
  · exact ⟨rfl, rfl⟩
  · exact ⟨register_state r p, register_q r p⟩
  · exact ⟨register_state r p, register_q r p⟩
  · exact ⟨register_state r p, register_q r p⟩

theorem qnaCount_append (a b : List Message) : qnaCount (a ++ b) = qnaCount a + qnaCount b := by
  unfold qnaCount
  exact List.countP_append _ a b

theorem finishedCount_append (a b : List Message) :
    finishedCount (a ++ b) = finishedCount a + finishedCount b := by
  unfold finishedCount
  exact List.countP_append _ a b

/-- One text message of a player with a non-empty id, handled in a well-formed
started round: the loop goes on, having sent as many views as slots were newly
claimed (none or one), or it returns on the claim that fills the last slot,
having sent the view and then the RoundFinished event. -/
theorem handleMessage_step (cfg : Config) (w : World) (g : Game) (r : round)
    (currentRound : Int) (chanID : String) (player : Player) (text : String)
    (hwf : r.wellFormed) (hstate : r.state = State.RoundStarted) (hid : player.ID ≠ "") :
    (∃ g1 r1 out, g.handleMessage cfg w r currentRound (Message.text chanID player text) =
        Step.next g1 r1 out ∧ r1.wellFormed ∧ r1.state = State.RoundStarted ∧ r1.q = r.q ∧
        r1.claimedCount = r.claimedCount + qnaCount out ∧ finishedCount out = 0 ∧
        (r.claimedCount < r.q.Answers.length → r1.claimedCount < r.q.Answers.length)) ∨
    (∃ g1 r1 view sm, g.handleMessage cfg w r currentRound (Message.text chanID player text) =
        Step.ret g1 r1 [Message.qna view, Message.state sm] ∧
        sm.State = State.RoundFinished ∧ r1.state = State.RoundFinished ∧ r1.q = r.q ∧
        r1.claimedCount = r.q.Answers.length ∧ r.claimedCount + 1 = r.q.Answers.length) := by
  obtain ⟨r1, ⟨c, a, idx⟩, hans, hwf1⟩ := answer_wellFormed r player text hwf
  obtain ⟨hst1, hq1⟩ := answer_state r r1 player text _ hans
  have hcount := answer_claimedCount r r1 player text c a idx hans
  by_cases hnew : c = true ∧ a = false
  · obtain ⟨rfl, rfl⟩ := hnew
    simp only [hid, ne_eq, not_false_eq_true, and_self, if_true] at hcount
    obtain ⟨i, view, _, _, _, _, _, hstep⟩ := handleMessage_new_claim cfg w g r r1
      currentRound chanID player text idx hwf.1 hans
    cases hfin : r1.finised with
    | false =>
      rw [hfin] at hstep
      have hne : r1.claimedCount ≠ r1.q.Answers.length := by
        intro h
        rw [(finised_iff_count r1).mpr h] at hfin
        exact absurd hfin (by simp)
      have hle : r1.claimedCount ≤ r1.q.Answers.length := by
        rw [← hwf1.1]; exact claimedCount_le r1
      refine Or.inl ⟨_, r1, _, hstep, hwf1, by rw [hst1]; exact hstate, hq1, ?_, rfl, ?_⟩
      · rw [hcount]; rfl
      · intro _
        rw [← hq1]
        omega
    | true =>
      rw [hfin] at hstep
      have hfull : r1.claimedCount = r1.q.Answers.length := (finised_iff_count r1).mp hfin
      refine Or.inr ⟨_, _, view, _, hstep, rfl, rfl, hq1, ?_, ?_⟩
      · rw [← hq1]; exact hfull
      · rw [← hq1, ← hfull, hcount]
  · have hstep := handleMessage_no_new_claim cfg w g r r1 currentRound chanID player text
      c a idx hans hnew
    have hno : ¬ (c = true ∧ a = false ∧ player.ID ≠ "") := fun h => hnew ⟨h.1, h.2.1⟩
    simp only [hno, if_false, Nat.add_zero] at hcount
    refine Or.inl ⟨_, r1, _, hstep, hwf1, by rw [hst1]; exact hstate, hq1, ?_, ?_, ?_⟩
    · rw [hcount]
      split <;> rfl
    · split <;> rfl
    · intro h
      rw [hcount]; exact h

/-- The loop of a well-formed started round on events that come before the
deadline: while it goes on, the number of claimed slots has grown by the number
of views sent and is below the number of answers if it was; when it returns,
the view of the claim that filled the last slot is followed by the
RoundFinished event, and nothing was finished before. -/
theorem roundLoop_counts (cfg : Config) (w : World) (currentRound : Int)
    (events : List Event) (g : Game) (r : round) (hwf : r.wellFormed)
    (hstate : r.state = State.RoundStarted) (hev : ∀ ev ∈ events, ev.beforeDeadline) :
    (∃ g1 r1 pre view sm rest, Game.roundLoop cfg w currentRound g r events =
        RoundOutcome.returned g1 r1 (pre ++ [Message.qna view, Message.state sm]) rest ∧
        sm.State = State.RoundFinished ∧ r1.state = State.RoundFinished ∧
        r1.claimedCount = r.q.Answers.length ∧
        r.claimedCount + qnaCount pre + 1 = r.q.Answers.length ∧ finishedCount pre = 0) ∨
    (∃ g1 r1 out, Game.roundLoop cfg w currentRound g r events =
        RoundOutcome.waiting g1 r1 out ∧ r1.state = State.RoundStarted ∧
        r1.claimedCount = r.claimedCount + qnaCount out ∧ finishedCount out = 0 ∧
        (r.claimedCount < r.q.Answers.length → r1.claimedCount < r.q.Answers.length)) := by
  induction events generalizing g r with
  | nil => exact Or.inr ⟨g, r, [], rfl, hstate, rfl, rfl, fun h => h⟩
  | cons ev events ih =>
    have hev' : ∀ e ∈ events, e.beforeDeadline := fun e he =>
      hev e (List.mem_cons_of_mem ev he)
    have hthis : ev.beforeDeadline := hev ev (List.mem_cons_self ev events)
    -- what one pass does, in the form the induction needs
    have hpass :
        (∃ g1 r1 out, g.handleEvent cfg w r currentRound ev = Step.next g1 r1 out ∧
          r1.wellFormed ∧ r1.state = State.RoundStarted ∧ r1.q = r.q ∧
          r1.claimedCount = r.claimedCount + qnaCount out ∧ finishedCount out = 0 ∧
          (r.claimedCount < r.q.Answers.length → r1.claimedCount < r.q.Answers.length)) ∨
        (∃ g1 r1 view sm, g.handleEvent cfg w r currentRound ev =
          Step.ret g1 r1 [Message.qna view, Message.state sm] ∧
          sm.State = State.RoundFinished ∧ r1.state = State.RoundFinished ∧ r1.q = r.q ∧
          r1.claimedCount = r.q.Answers.length ∧
          r.claimedCount + 1 = r.q.Answers.length) := by
      cases ev with
      | timeUp => exact absurd hthis (by simp [Event.beforeDeadline])
      | tick ready =>
        refine Or.inl ⟨g, r, _, rfl, hwf, hstate, rfl, ?_, ?_, fun h => h⟩
        · cases ready <;> rfl
        · cases ready <;> rfl
      | msg rawMsg =>
        cases rawMsg with
        | text chanID player text =>
          exact handleMessage_step cfg w g r currentRound chanID player text hwf hstate
            (by simpa [Event.beforeDeadline] using hthis)
        | state m => exact Or.inl ⟨g, r, [], rfl, hwf, hstate, rfl, rfl, rfl, fun h => h⟩
        | tick c => exact Or.inl ⟨g, r, [], rfl, hwf, hstate, rfl, rfl, rfl, fun h => h⟩
        | wrongAnswer c => exact Or.inl ⟨g, r, [], rfl, hwf, hstate, rfl, rfl, rfl, fun h => h⟩
        | qna m => exact Or.inl ⟨g, r, [], rfl, hwf, hstate, rfl, rfl, rfl, fun h => h⟩
        | rank m => exact Or.inl ⟨g, r, [], rfl, hwf, hstate, rfl, rfl, rfl, fun h => h⟩
        | other => exact Or.inl ⟨g, r, [], rfl, hwf, hstate, rfl, rfl, rfl, fun h => h⟩
    rcases hpass with ⟨g1, r1, out, hstep, hwf1, hst1, hq1, hc1, hf1, hlt1⟩ |
      ⟨g1, r1, view, sm, hstep, hsm, hst1, hq1, hc1, hfull⟩
    · rcases ih g1 r1 hwf1 hst1 hev' with
        ⟨g2, r2, pre, view, sm, rest, hloop, hsm, hst2, hc2, hsum, hfin⟩ |
        ⟨g2, r2, out2, hloop, hst2, hc2, hfin, hlt2⟩
      · refine Or.inl ⟨g2, r2, out ++ pre, view, sm, rest, ?_, hsm, hst2, ?_, ?_, ?_⟩
        · simp only [Game.roundLoop, hstep, hloop, RoundOutcome.emit, List.append_assoc]
        · rw [← hq1]; exact hc2
        · rw [qnaCount_append, ← hq1]
          omega
        · rw [finishedCount_append, hf1, hfin]
      · refine Or.inr ⟨g2, r2, out ++ out2, ?_, hst2, ?_, ?_, ?_⟩
        · simp only [Game.roundLoop, hstep, hloop, RoundOutcome.emit]
        · rw [qnaCount_append]
          omega
        · rw [finishedCount_append, hf1, hfin]
        · intro h
          rw [← hq1]
          exact hlt2 (by rw [hq1]; exact hlt1 h)
    · refine Or.inl ⟨g1, r1, [], view, sm, events, ?_, hsm, hst1, hc1, ?_, rfl⟩
      · simp only [Game.roundLoop, hstep, List.nil_append]
      · simpa [qnaCount] using hfull

/-- C18: a call of answer that reports a new claim (correct = true, answered =
false) by a player with a non-empty id increases the number of claimed slots
by exactly one, every other call leaves it unchanged.  So in the loop of a
well-formed started round with n answers, on events before the deadline from
players with non-empty ids: as long as the loop goes on, the number of claimed
slots is the number it started with plus the number of new claims (each sends
one view), and it stays below n; the loop returns by the all-answered path on
the claim that brings the number to n, sending the view of that claim and then
the one RoundFinished event, and handles nothing after it. -/
theorem new_claims_count_to_completion (cfg : Config) (w : World) (currentRound : Int)
    (events : List Event) (g : Game) (r : round) (hwf : r.wellFormed)
    (hstate : r.state = State.RoundStarted) (hev : ∀ ev ∈ events, ev.beforeDeadline) :
    (∀ p text r' c a idx, r.answer p text = some (r', (c, a, idx)) →
      (c = true → a = false → p.ID ≠ "" → r'.claimedCount = r.claimedCount + 1) ∧
      (¬ (c = true ∧ a = false ∧ p.ID ≠ "") → r'.claimedCount = r.claimedCount)) ∧
    ((∃ g1 r1 pre view sm rest, Game.roundLoop cfg w currentRound g r events =
        RoundOutcome.returned g1 r1 (pre ++ [Message.qna view, Message.state sm]) rest ∧
        sm.State = State.RoundFinished ∧ r1.state = State.RoundFinished ∧
        r1.claimedCount = r.q.Answers.length ∧
        r.claimedCount + qnaCount pre + 1 = r.q.Answers.length ∧ finishedCount pre = 0) ∨
     (∃ g1 r1 out, Game.roundLoop cfg w currentRound g r events =
        RoundOutcome.waiting g1 r1 out ∧ r1.state = State.RoundStarted ∧
        r1.claimedCount = r.claimedCount + qnaCount out ∧ finishedCount out = 0 ∧
        (r.claimedCount < r.q.Answers.length → r1.claimedCount < r.q.Answers.length))) := by
  refine ⟨?_, roundLoop_counts cfg w currentRound events g r hwf hstate hev⟩
  intro p text r' c a idx hans
  have hcount := answer_claimedCount r r' p text c a idx hans
  refine ⟨fun hc ha hp => ?_, fun hno => ?_⟩
  · rw [hcount]
    simp [hc, ha, hp]
  · rw [hcount]
    simp only [hno, if_false, Nat.add_zero]

theorem demoEvents_beforeDeadline : ∀ ev ∈ demoEvents, ev.beforeDeadline := by
  intro ev hev
  simp only [demoEvents, List.mem_cons, List.mem_singleton, List.not_mem_nil, or_false] at hev
  rcases hev with rfl | rfl | rfl | rfl | rfl | rfl <;>
    simp [Event.beforeDeadline, ani, budi]

/-- Witness of C18: the fresh demo round on the events `demoEvents`. -/
theorem new_claims_count_to_completion_witness :
    demoRound.wellFormed ∧ demoRound.state = State.RoundStarted ∧
    (∀ ev ∈ demoEvents, ev.beforeDeadline) ∧
    ((∀ p text r' c a idx, demoRound.answer p text = some (r', (c, a, idx)) →
      (c = true → a = false → p.ID ≠ "" → r'.claimedCount = demoRound.claimedCount + 1) ∧
      (¬ (c = true ∧ a = false ∧ p.ID ≠ "") → r'.claimedCount = demoRound.claimedCount)) ∧
    ((∃ g1 r1 pre view sm rest, Game.roundLoop demoConfig (worldOf demoBank) 1 demoGame
          demoRound demoEvents =
        RoundOutcome.returned g1 r1 (pre ++ [Message.qna view, Message.state sm]) rest ∧
        sm.State = State.RoundFinished ∧ r1.state = State.RoundFinished ∧
        r1.claimedCount = demoRound.q.Answers.length ∧
        demoRound.claimedCount + qnaCount pre + 1 = demoRound.q.Answers.length ∧
        finishedCount pre = 0) ∨
     (∃ g1 r1 out, Game.roundLoop demoConfig (worldOf demoBank) 1 demoGame
          demoRound demoEvents =
        RoundOutcome.waiting g1 r1 out ∧ r1.state = State.RoundStarted ∧
        r1.claimedCount = demoRound.claimedCount + qnaCount out ∧ finishedCount out = 0 ∧
        (demoRound.claimedCount < demoRound.q.Answers.length →
          r1.claimedCount < demoRound.q.Answers.length)))) :=
  ⟨⟨rfl, demoQuestion_inBounds⟩, rfl, demoEvents_beforeDeadline,
    new_claims_count_to_completion demoConfig (worldOf demoBank) 1 demoEvents demoGame
      demoRound ⟨rfl, demoQuestion_inBounds⟩ rfl demoEvents_beforeDeadline⟩

/-! ## The round index -/

theorem roundStarts_append (a b : List Message) :
    roundStarts (a ++ b) = roundStarts a ++ roundStarts b := by
  unfold roundStarts
  exact List.filterMap_append a b _

/-- In a well-formed round a pass through the loop does not panic, keeps the
channel, the seed and the counter of rounds played, and sends no RoundStarted
event. -/
theorem handleEvent_frame (cfg : Config) (w : World) (g : Game) (r : round)
    (currentRound : Int) (ev : Event) (hwf : r.wellFormed) :
    (∃ g1 r1 out, g.handleEvent cfg w r currentRound ev = Step.next g1 r1 out ∧
      r1.wellFormed ∧ g1.ChanID = g.ChanID ∧ g1.seed = g.seed ∧
      g1.TotalRoundPlayed = g.TotalRoundPlayed ∧ roundStarts out = []) ∨
    (∃ g1 r1 out, g.handleEvent cfg w r currentRound ev = Step.ret g1 r1 out ∧
      g1.ChanID = g.ChanID ∧ g1.seed = g.seed ∧
      g1.TotalRoundPlayed = g.TotalRoundPlayed ∧ roundStarts out = []) := by
  cases ev with
  | timeUp =>
    have h : g.handleEvent cfg w r currentRound Event.timeUp = _ :=
      handleTimeUp_eq w g r currentRound hwf.1
    exact Or.inr ⟨_, _, _, h, rfl, rfl, rfl, rfl⟩
  | tick ready =>
    refine Or.inl ⟨g, r, _, rfl, hwf, rfl, rfl, rfl, ?_⟩
    cases ready <;> rfl
  | msg rawMsg =>
    cases rawMsg with
    | text chanID player text =>
      obtain ⟨r1, ⟨c, a, idx⟩, hans, hwf1⟩ := answer_wellFormed r player text hwf
      by_cases hnew : c = true ∧ a = false
      · obtain ⟨rfl, rfl⟩ := hnew
        obtain ⟨i, view, _, _, _, _, _, hstep⟩ := handleMessage_new_claim cfg w g r r1
          currentRound chanID player text idx hwf.1 hans
        cases hfin : r1.finised with
        | false =>
          rw [hfin] at hstep
          exact Or.inl ⟨_, r1, _, hstep, hwf1, rfl, rfl, rfl, rfl⟩
        | true =>
          rw [hfin] at hstep
          exact Or.inr ⟨_, _, _, hstep, rfl, rfl, rfl, rfl⟩
      · have hstep := handleMessage_no_new_claim cfg w g r r1 currentRound chanID player
          text c a idx hans hnew
        refine Or.inl ⟨_, r1, _, hstep, hwf1, rfl, rfl, rfl, ?_⟩
        split <;> rfl
    | state m => exact Or.inl ⟨g, r, [], rfl, hwf, rfl, rfl, rfl, rfl⟩
    | tick c => exact Or.inl ⟨g, r, [], rfl, hwf, rfl, rfl, rfl, rfl⟩
    | wrongAnswer c => exact Or.inl ⟨g, r, [], rfl, hwf, rfl, rfl, rfl, rfl⟩
    | qna m => exact Or.inl ⟨g, r, [], rfl, hwf, rfl, rfl, rfl, rfl⟩
    | rank m => exact Or.inl ⟨g, r, [], rfl, hwf, rfl, rfl, rfl, rfl⟩
    | other => exact Or.inl ⟨g, r, [], rfl, hwf, rfl, rfl, rfl, rfl⟩

/-- The loop of a well-formed round whose deadline fires returns, keeps the
channel, the seed and the counter, and sends no RoundStarted event. -/
theorem roundLoop_frame (cfg : Config) (w : World) (currentRound : Int)
    (events : List Event) (g : Game) (r : round) (hwf : r.wellFormed)
    (htime : Event.timeUp ∈ events) :
    ∃ g1 r1 out rest, Game.roundLoop cfg w currentRound g r events =
        RoundOutcome.returned g1 r1 out rest ∧ g1.ChanID = g.ChanID ∧ g1.seed = g.seed ∧
      g1.TotalRoundPlayed = g.TotalRoundPlayed ∧ roundStarts out = [] := by
  induction events generalizing g r with
  | nil => simp at htime
  | cons ev events ih =>
    rcases handleEvent_frame cfg w g r currentRound ev hwf with
      ⟨g1, r1, out, hstep, hwf1, hc, hs, ht, ho⟩ | ⟨g1, r1, out, hstep, hc, hs, ht, ho⟩
    · have htime' : Event.timeUp ∈ events := by
        rcases List.mem_cons.mp htime with h | h
        · rw [← h] at hstep
          rw [show g.handleEvent cfg w r currentRound Event.timeUp =
            g.handleTimeUp w r currentRound from rfl,
            handleTimeUp_eq w g r currentRound hwf.1] at hstep
          cases hstep
        · exact h
      obtain ⟨g2, r2, out2, rest, hloop, hc2, hs2, ht2, ho2⟩ := ih g1 r1 hwf1 htime'
      refine ⟨g2, r2, out ++ out2, rest, ?_, by rw [hc2, hc], by rw [hs2, hs],
        by rw [ht2, ht], ?_⟩
      · simp only [Game.roundLoop, hstep, hloop, RoundOutcome.emit]
      · rw [roundStarts_append, ho, ho2]
        rfl
    · exact ⟨g1, r1, out, events, by simp only [Game.roundLoop, hstep], hc, hs, ht, ho⟩

theorem questionLimit_congr (cfg : Config) (w : World) (g g1 : Game)
    (h : g1.ChanID = g.ChanID) : g1.questionLimit cfg w = g.questionLimit cfg w := by
  unfold Game.questionLimit
  rw [h]

theorem filterMap_range_succ {α : Type} (f : Nat → Option α) (k : Nat) :
    (List.range (k + 1)).filterMap f =
      (f 0).toList ++ (List.range k).filterMap (fun j => f (j + 1)) := by
  have hcomp : (f ∘ Nat.succ) = fun j => f (j + 1) := rfl
  rw [List.range_succ_eq_map, List.filterMap_cons, List.filterMap_map, hcomp]
  cases h : f 0 with
  | none => simp
  | some a => simp

/-- One call of `startRound` with a question bank whose matchers stay in bounds
and a deadline that fires: the counter of rounds played is incremented, the
question is asked for with the incremented counter, and the round starts, with
that question, exactly when the bank has one. -/
theorem startRound_index (cfg : Config) (w : World) (g : Game) (currentRound : Int)
    (events : List Event)
    (hbank : ∀ seed n limit q, w.NextQuestion seed n limit = some q → q.inBounds)
    (htime : Event.timeUp ∈ events) :
    ∃ g1 out,
      ((g.startRound cfg w currentRound events = RoundOutcome.failed g1 ∧ out = []) ∨
       (∃ r1 rest, g.startRound cfg w currentRound events =
          RoundOutcome.returned g1 r1 out rest)) ∧
      g1.ChanID = g.ChanID ∧ g1.seed = g.seed ∧
      g1.TotalRoundPlayed = intAdd g.TotalRoundPlayed 1 ∧
      roundStarts out =
        ((w.NextQuestion g.seed (intAdd g.TotalRoundPlayed 1) (g.questionLimit cfg w)).map
          (fun q => (currentRound, q.ID, q.Text))).toList := by
  have hlim : Game.questionLimit cfg w
      { g with TotalRoundPlayed := intAdd g.TotalRoundPlayed 1 } = g.questionLimit cfg w :=
    questionLimit_congr cfg w g _ rfl
  cases hq : w.NextQuestion g.seed (intAdd g.TotalRoundPlayed 1) (g.questionLimit cfg w) with
  | none =>
    have hstart : g.startRound cfg w currentRound events =
        RoundOutcome.failed { g with TotalRoundPlayed := intAdd g.TotalRoundPlayed 1 } := by
      unfold Game.startRound
      simp only [hlim, hq, newRound]
    exact ⟨_, [], Or.inl ⟨hstart, rfl⟩, rfl, rfl, rfl, rfl⟩
  | some q =>
    have hin := hbank _ _ _ q hq
    have hlen : (List.replicate q.Answers.length "" : List PlayerID).length = q.Answers.length :=
      List.length_replicate _ _
    have hview := questionText_eq
      { q := q, state := State.RoundStarted, correct := List.replicate q.Answers.length "",
        players := g.players } g.ChanID false hlen
    obtain ⟨g1, r1, out, rest, hloop, hc, hs, ht, ho⟩ := roundLoop_frame cfg w currentRound
      events
      { g with TotalRoundPlayed := intAdd g.TotalRoundPlayed 1,
               currentRound := some
                 { q := q, state := State.RoundStarted,
                   correct := List.replicate q.Answers.length "", players := g.players } }
      { q := q, state := State.RoundStarted, correct := List.replicate q.Answers.length "",
        players := g.players } ⟨hlen, hin⟩ htime
    have hstart : g.startRound cfg w currentRound events =
        RoundOutcome.returned g1 r1
          ([Message.state
              { ChanID := g.ChanID, Round := currentRound, State := State.RoundStarted,
                RoundText :=
                  { ChanID := g.ChanID, Round := 0, QuestionText := q.Text, QuestionID := q.ID,
                    ShowUnanswered := false,
                    Answers := List.zipWith (viewRow g.players)
                      (List.replicate q.Answers.length "") q.Answers } }] ++ out) rest := by
      unfold Game.startRound
      simp only [hlim, hq, newRound, hview, hloop, RoundOutcome.emit]
    refine ⟨g1, _, Or.inr ⟨r1, rest, hstart⟩, hc, hs, ht, ?_⟩
    rw [roundStarts_append, ho]
    rfl

/-- The loop of `Start`, `k` passes from the counter `i` on: the rounds-played
counter is incremented once per pass, failed or not, and pass `j` starts its
round with the question the bank has for the counter after `j + 1`
increments, if it has one. -/
theorem startRounds_index (cfg : Config) (w : World) (sched : Int → List Event)
    (hbank : ∀ seed n limit q, w.NextQuestion seed n limit = some q → q.inBounds)
    (htime : ∀ i, Event.timeUp ∈ sched i) (k : Nat) (i : Int) (g : Game)
    (hT : inRange g.TotalRoundPlayed) :
    ∃ g1 out, Game.startRounds cfg w sched k i g = some (g1, out) ∧
      g1.ChanID = g.ChanID ∧ g1.seed = g.seed ∧
      g1.TotalRoundPlayed = wrapInt (g.TotalRoundPlayed + (k : Int)) ∧
      roundStarts out = (List.range k).filterMap (fun (j : Nat) =>
        (w.NextQuestion g.seed (wrapInt (g.TotalRoundPlayed + ((j : Int) + 1)))
          (g.questionLimit cfg w)).map (fun q => (i + (j : Int), q.ID, q.Text))) := by
  induction k generalizing i g with
  | zero =>
    refine ⟨g, [], rfl, rfl, rfl, ?_, rfl⟩
    simp only [Nat.cast_zero, Int.add_zero]
    exact (wrapInt_of_inRange _ hT).symm
  | succ k ih =>
    obtain ⟨g1, out1, hround, hc1, hs1, ht1, ho1⟩ :=
      startRound_index cfg w g i (sched i) hbank (htime i)
    have hT1 : inRange g1.TotalRoundPlayed := by
      rw [ht1]; exact wrapInt_inRange _
    obtain ⟨g2, outs, hloop, hc2, hs2, ht2, ho2⟩ := ih (i + 1) g1 hT1
    have hafter : Game.startRounds cfg w sched (k + 1) i g =
        some (g2, out1 ++
          Message.rank { ChanID := g1.ChanID, Round := i, Rank := g1.rank,
                         Final := decide (i = cfg.RoundPerGame) } :: outs) := by
      rcases hround with ⟨hr, hout⟩ | ⟨r1, rest, hr⟩
      · simp only [Game.startRounds, hr, hloop, hout, List.nil_append]
      · simp only [Game.startRounds, hr, hloop]
    refine ⟨g2, _, hafter, by rw [hc2, hc1], by rw [hs2, hs1], ?_, ?_⟩
    · rw [ht2, ht1]
      unfold intAdd
      rw [wrapInt_add_left]
      congr 1
      push_cast
      omega
    · have hsplit : roundStarts (out1 ++
          Message.rank { ChanID := g1.ChanID, Round := i, Rank := g1.rank,
                         Final := decide (i = cfg.RoundPerGame) } :: outs) =
          roundStarts out1 ++ roundStarts outs := by
        rw [roundStarts_append]
        rfl
      rw [hsplit, ho1, ho2, filterMap_range_succ]
      congr 1
      · simp [intAdd]
      · apply List.filterMap_congr
        intro j _
        have hidx : wrapInt (g1.TotalRoundPlayed + ((j : Int) + 1)) =
            wrapInt (g.TotalRoundPlayed + (((j + 1 : Nat) : Int) + 1)) := by
          rw [ht1]
          unfold intAdd
          rw [wrapInt_add_left]
          congr 1
          push_cast
          omega
        have hi : i + 1 + (j : Int) = i + ((j + 1 : Nat) : Int) := by
          push_cast
          omega
        rw [hs1, questionLimit_congr cfg w g g1 hc1, hidx, hi]

theorem indexBank_inBounds (seed n limit : Int) (q : Question)
    (h : (worldOf indexBank).NextQuestion seed n limit = some q) : q.inBounds := by
  unfold worldOf indexBank at h
  by_cases hn : n = 2
  · simp [hn] at h
  · simp only [hn, if_false, Option.some.injEq] at h
    rw [← h]
    exact demoQuestion_inBounds

/-- C16: for a game built with rounds-played counter t (a Go int), a round
count RoundPerGame ≥ 0, a question bank whose matchers stay in bounds and
rounds whose deadline fires, the task of Start runs to its end and its k-th
round (k = 1..RoundPerGame) asks the bank with the counter after k increments:
the round starts, with the question the bank has for the seed of the game and
that index, exactly when the bank has one, and a round that fails to start
does not shift the index of the later ones; after the game the counter has been
incremented RoundPerGame times.  In Go int arithmetic the index is t + k
wrapped to 64 bits; when t + RoundPerGame is below 2^63 nothing wraps: the
index of the k-th round is t + k, the indices are strictly increasing, and
TotalRoundPlayed ends at t + RoundPerGame. -/
theorem start_round_indices (cfg : Config) (w : World) (sched : Int → List Event) (g : Game)
    (hN : 0 ≤ cfg.RoundPerGame) (hT : inRange g.TotalRoundPlayed)
    (hbank : ∀ seed n limit q, w.NextQuestion seed n limit = some q → q.inBounds)
    (htime : ∀ i, Event.timeUp ∈ sched i) :
    ∃ g1 out, g.Start cfg w sched = some (g1, out) ∧
      roundStarts out = (List.range cfg.RoundPerGame.toNat).filterMap (fun (j : Nat) =>
        (w.NextQuestion g.seed (wrapInt (g.TotalRoundPlayed + ((j : Int) + 1)))
          (g.questionLimit cfg w)).map (fun q => ((j : Int) + 1, q.ID, q.Text))) ∧
      g1.TotalRoundPlayed = wrapInt (g.TotalRoundPlayed + cfg.RoundPerGame) ∧
      (g.TotalRoundPlayed + cfg.RoundPerGame < 2 ^ 63 →
        roundStarts out = (List.range cfg.RoundPerGame.toNat).filterMap (fun (j : Nat) =>
          (w.NextQuestion g.seed (g.TotalRoundPlayed + ((j : Int) + 1))
            (g.questionLimit cfg w)).map (fun q => ((j : Int) + 1, q.ID, q.Text))) ∧
        g1.TotalRoundPlayed = g.TotalRoundPlayed + cfg.RoundPerGame ∧
        (List.range cfg.RoundPerGame.toNat).map
            (fun (j : Nat) => wrapInt (g.TotalRoundPlayed + ((j : Int) + 1))) =
          (List.range cfg.RoundPerGame.toNat).map
            (fun (j : Nat) => g.TotalRoundPlayed + ((j : Int) + 1)) ∧
        ((List.range cfg.RoundPerGame.toNat).map
            (fun (j : Nat) => wrapInt (g.TotalRoundPlayed + ((j : Int) + 1)))).Pairwise
          (fun a b => a < b)) := by
  obtain ⟨g1, outs, hloop, _, _, ht0, ho0⟩ := startRounds_index cfg w sched hbank htime
    cfg.RoundPerGame.toNat 1 { g with State := State.Started } hT
  have ht : g1.TotalRoundPlayed =
      wrapInt (g.TotalRoundPlayed + ((cfg.RoundPerGame.toNat : Nat) : Int)) := ht0
  have ho : roundStarts outs = (List.range cfg.RoundPerGame.toNat).filterMap (fun (j : Nat) =>
      (w.NextQuestion g.seed (wrapInt (g.TotalRoundPlayed + ((j : Int) + 1)))
        (g.questionLimit cfg w)).map (fun q => ((1 : Int) + (j : Int), q.ID, q.Text))) := ho0
  have hNat : ((cfg.RoundPerGame.toNat : Nat) : Int) = cfg.RoundPerGame := Int.toNat_of_nonneg hN
  have hstarts : roundStarts
      (Message.state { ChanID := g.ChanID, Round := 0, State := State.Started,
                       RoundText := QNAMessage.zero } :: outs ++
        [Message.state { ChanID := g1.ChanID, Round := 0, State := State.Finished,
                         RoundText := QNAMessage.zero }]) =
      (List.range cfg.RoundPerGame.toNat).filterMap (fun (j : Nat) =>
        (w.NextQuestion g.seed (wrapInt (g.TotalRoundPlayed + ((j : Int) + 1)))
          (g.questionLimit cfg w)).map (fun q => ((j : Int) + 1, q.ID, q.Text))) := by
    have hends : roundStarts
        (Message.state { ChanID := g.ChanID, Round := 0, State := State.Started,
                         RoundText := QNAMessage.zero } :: outs ++
          [Message.state { ChanID := g1.ChanID, Round := 0, State := State.Finished,
                           RoundText := QNAMessage.zero }]) = roundStarts outs := by
      have h1 : roundStarts
          ([Message.state { ChanID := g.ChanID, Round := 0, State := State.Started,
                            RoundText := QNAMessage.zero }] ++ (outs ++
            [Message.state { ChanID := g1.ChanID, Round := 0, State := State.Finished,
                             RoundText := QNAMessage.zero }])) = roundStarts outs := by
        rw [roundStarts_append, roundStarts_append]
        simp [roundStarts]
      exact h1
    rw [hends, ho]
    apply List.filterMap_congr
    intro j _
    have e : (1 : Int) + (j : Int) = (j : Int) + 1 := by omega
    rw [e]
  have hexact : g.TotalRoundPlayed + cfg.RoundPerGame < 2 ^ 63 →
      ∀ j ∈ List.range cfg.RoundPerGame.toNat,
        wrapInt (g.TotalRoundPlayed + ((j : Int) + 1)) = g.TotalRoundPlayed + ((j : Int) + 1) := by
    intro hsmall j hj
    have hjlt : j < cfg.RoundPerGame.toNat := List.mem_range.mp hj
    apply wrapInt_of_inRange
    unfold inRange at hT ⊢
    omega
  simp only [Game.Start, hloop]
  refine ⟨_, _, rfl, hstarts, ?_, ?_⟩
  · show g1.TotalRoundPlayed = _
    rw [ht, hNat]
  · intro hsmall
    have hmap : (List.range cfg.RoundPerGame.toNat).map
        (fun (j : Nat) => wrapInt (g.TotalRoundPlayed + ((j : Int) + 1))) =
        (List.range cfg.RoundPerGame.toNat).map
          (fun (j : Nat) => g.TotalRoundPlayed + ((j : Int) + 1)) :=
      List.map_congr_left (hexact hsmall)
    refine ⟨?_, ?_, hmap, ?_⟩
    · rw [hstarts]
      apply List.filterMap_congr
      intro j hj
      rw [hexact hsmall j hj]
    · show g1.TotalRoundPlayed = _
      rw [ht, hNat]
      apply wrapInt_of_inRange
      unfold inRange at hT ⊢
      omega
    · rw [hmap, List.pairwise_map]
      exact List.Pairwise.imp (fun {a b} (hab : a < b) => by omega) (List.pairwise_lt_range _)

/-- Witness of C16: the demo game (counter 0, three rounds) on a bank that
returns for index n a question with id n and has none for index 2: round 1
starts with question 1, round 2 fails to start, round 3 starts with question 3,
and the counter ends at 3. -/
theorem start_round_indices_witness :
    0 ≤ demoConfig.RoundPerGame ∧ inRange demoGame.TotalRoundPlayed ∧
    (∀ seed n limit q, (worldOf indexBank).NextQuestion seed n limit = some q → q.inBounds) ∧
    (∀ i, Event.timeUp ∈ demoSched i) ∧
    ((demoGame.Start demoConfig (worldOf indexBank) demoSched).map
      (fun o => (roundStarts o.2, o.1.TotalRoundPlayed))) =
      some ([(1, 1, "makanan pokok"), (3, 3, "makanan pokok")], 3) ∧
    ∃ g1 out, demoGame.Start demoConfig (worldOf indexBank) demoSched = some (g1, out) ∧
      roundStarts out = (List.range demoConfig.RoundPerGame.toNat).filterMap (fun (j : Nat) =>
        ((worldOf indexBank).NextQuestion demoGame.seed
          (wrapInt (demoGame.TotalRoundPlayed + ((j : Int) + 1)))
          (demoGame.questionLimit demoConfig (worldOf indexBank))).map
            (fun q => ((j : Int) + 1, q.ID, q.Text))) ∧
      g1.TotalRoundPlayed = wrapInt (demoGame.TotalRoundPlayed + demoConfig.RoundPerGame) ∧
      (demoGame.TotalRoundPlayed + demoConfig.RoundPerGame < 2 ^ 63 →
        roundStarts out = (List.range demoConfig.RoundPerGame.toNat).filterMap (fun (j : Nat) =>
          ((worldOf indexBank).NextQuestion demoGame.seed
            (demoGame.TotalRoundPlayed + ((j : Int) + 1))
            (demoGame.questionLimit demoConfig (worldOf indexBank))).map
              (fun q => ((j : Int) + 1, q.ID, q.Text))) ∧
        g1.TotalRoundPlayed = demoGame.TotalRoundPlayed + demoConfig.RoundPerGame ∧
        (List.range demoConfig.RoundPerGame.toNat).map
            (fun (j : Nat) => wrapInt (demoGame.TotalRoundPlayed + ((j : Int) + 1))) =
          (List.range demoConfig.RoundPerGame.toNat).map
            (fun (j : Nat) => demoGame.TotalRoundPlayed + ((j : Int) + 1)) ∧
        ((List.range demoConfig.RoundPerGame.toNat).map
            (fun (j : Nat) => wrapInt (demoGame.TotalRoundPlayed + ((j : Int) + 1)))).Pairwise
          (fun a b => a < b)) :=
  ⟨by decide, by decide, indexBank_inBounds, demoSched_timeUp, by decide,
    start_round_indices demoConfig (worldOf indexBank) demoSched demoGame (by decide)
      (by decide) indexBank_inBounds demoSched_timeUp⟩

/-! ## Merging ranks -/

theorem rankIDs_addEntry (c : Rank) (e : PlayerScore) :
    rankIDs (Rank.addEntry c e) =
      if e.PlayerID ∈ rankIDs c then rankIDs c else rankIDs c ++ [e.PlayerID] := by
  induction c with
  | nil => simp [Rank.addEntry, rankIDs]
  | cons x xs ih =>
    unfold rankIDs at ih ⊢
    by_cases hx : x.PlayerID = e.PlayerID
    · simp [Rank.addEntry, hx]
    · have hx' : ¬ e.PlayerID = x.PlayerID := fun h => hx h.symm
      by_cases hm : e.PlayerID ∈ List.map (fun e => e.PlayerID) xs
      · simp [Rank.addEntry, hx, hx', hm, ih]
      · simp [Rank.addEntry, hx, hx', hm, ih]

theorem mem_rankIDs_addEntry (c : Rank) (e : PlayerScore) (pid : PlayerID) :
    pid ∈ rankIDs (Rank.addEntry c e) ↔ pid ∈ rankIDs c ∨ pid = e.PlayerID := by
  rw [rankIDs_addEntry]
  by_cases hm : e.PlayerID ∈ rankIDs c
  · simp only [hm, if_true]
    constructor
    · exact Or.inl
    · rintro (h | rfl)
      · exact h
      · exact hm
  · simp [hm]

theorem nodup_rankIDs_addEntry (c : Rank) (e : PlayerScore) (hnd : (rankIDs c).Nodup) :
    (rankIDs (Rank.addEntry c e)).Nodup := by
  rw [rankIDs_addEntry]
  by_cases hm : e.PlayerID ∈ rankIDs c
  · simpa [hm] using hnd
  · simp only [hm, if_false]
    rw [List.nodup_append]
    exact ⟨hnd, List.nodup_singleton _, by
      intro a ha hb
      rw [List.mem_singleton] at hb
      exact hm (hb ▸ ha)⟩

theorem rankScore_addEntry (c : Rank) (e : PlayerScore) (pid : PlayerID)
    (he : inRange e.Score) :
    rankScore (Rank.addEntry c e) pid =
      if e.PlayerID = pid then wrapInt (rankScore c pid + e.Score) else rankScore c pid := by
  induction c with
  | nil =>
    by_cases hp : e.PlayerID = pid
    · simp [Rank.addEntry, rankScore, hp, wrapInt_of_inRange _ he]
    · simp [Rank.addEntry, rankScore, hp]
  | cons x xs ih =>
    by_cases hx : x.PlayerID = e.PlayerID
    · by_cases hp : e.PlayerID = pid
      · have hxp : x.PlayerID = pid := hx.trans hp
        simp [Rank.addEntry, rankScore, hx, hp, intAdd]
      · have hxp : ¬ x.PlayerID = pid := fun h => hp (hx.symm.trans h)
        simp [Rank.addEntry, rankScore, hx, hp]
    · by_cases hxp : x.PlayerID = pid
      · have hp : ¬ e.PlayerID = pid := fun h => hx (hxp.trans h.symm)
        rw [show Rank.addEntry (x :: xs) e = x :: Rank.addEntry xs e by
          simp only [Rank.addEntry, hx, if_false]]
        simp only [rankScore, hxp, if_true, hp, if_false]
      · simp only [Rank.addEntry, hx, if_false, rankScore, hxp, ih]

theorem rankScore_inRange (c : Rank) (pid : PlayerID) (hc : ∀ e ∈ c, inRange e.Score) :
    inRange (rankScore c pid) := by
  induction c with
  | nil => exact inRange_zero
  | cons x xs ih =>
    by_cases hx : x.PlayerID = pid
    · simp only [rankScore, hx, if_true]
      exact hc x (List.mem_cons_self x xs)
    · simp only [rankScore, hx, if_false]
      exact ih (fun e he => hc e (List.mem_cons_of_mem x he))

theorem rankScore_of_not_mem (c : Rank) (pid : PlayerID) (h : pid ∉ rankIDs c) :
    rankScore c pid = 0 := by
  induction c with
  | nil => rfl
  | cons x xs ih =>
    simp only [rankIDs, List.map_cons, List.mem_cons, not_or] at h
    have hx : ¬ x.PlayerID = pid := fun e => h.1 e.symm
    simp only [rankScore, hx, if_false]
    exact ih h.2

theorem rankScore_of_mem (c : Rank) (v : PlayerScore) (hnd : (rankIDs c).Nodup)
    (hv : v ∈ c) : rankScore c v.PlayerID = v.Score := by
  induction c with
  | nil => simp at hv
  | cons x xs ih =>
    simp only [rankIDs, List.map_cons, List.nodup_cons] at hnd
    rcases List.mem_cons.mp hv with rfl | hmem
    · simp [rankScore]
    · have hx : ¬ x.PlayerID = v.PlayerID := by
        intro e
        exact hnd.1 (List.mem_map.mpr ⟨v, hmem, e.symm⟩)
      simp only [rankScore, hx, if_false]
      exact ih hnd.2 hmem

/-- The entries after all entries of the round rank have been merged: the ids
are those of either rank, each once. -/
theorem rankIDs_foldl_addEntry (r c : Rank) (hnd : (rankIDs c).Nodup) :
    (rankIDs (r.foldl Rank.addEntry c)).Nodup ∧
    ∀ pid, pid ∈ rankIDs (r.foldl Rank.addEntry c) ↔ pid ∈ rankIDs c ∨ pid ∈ rankIDs r := by
  induction r generalizing c with
  | nil => exact ⟨hnd, fun pid => by simp [rankIDs]⟩
  | cons e r ih =>
    obtain ⟨h1, h2⟩ := ih (Rank.addEntry c e) (nodup_rankIDs_addEntry c e hnd)
    refine ⟨h1, fun pid => ?_⟩
    rw [List.foldl_cons, h2, mem_rankIDs_addEntry]
    simp only [rankIDs, List.map_cons, List.mem_cons]
    constructor
    · rintro ((h | h) | h)
      · exact Or.inl h
      · exact Or.inr (Or.inl h)
      · exact Or.inr (Or.inr h)
    · rintro (h | h | h)
      · exact Or.inl (Or.inl h)
      · exact Or.inl (Or.inr h)
      · exact Or.inr h

/-- The score of a player after all entries of the round rank have been
merged: the score in the cumulative rank plus the score in the round rank, in
machine arithmetic. -/
theorem rankScore_foldl_addEntry (r c : Rank) (pid : PlayerID) (hr : (rankIDs r).Nodup)
    (hrs : ∀ e ∈ r, inRange e.Score) (hc : inRange (rankScore c pid)) :
    rankScore (r.foldl Rank.addEntry c) pid = wrapInt (rankScore c pid + rankScore r pid) := by
  induction r generalizing c with
  | nil =>
    simp only [List.foldl_nil, rankScore, Int.add_zero]
    exact (wrapInt_of_inRange _ hc).symm
  | cons e r ih =>
    simp only [rankIDs, List.map_cons, List.nodup_cons] at hr
    have he : inRange e.Score := hrs e (List.mem_cons_self e r)
    have hrs' : ∀ x ∈ r, inRange x.Score := fun x hx => hrs x (List.mem_cons_of_mem e hx)
    have hstep := rankScore_addEntry c e pid he
    rw [List.foldl_cons]
    by_cases hp : e.PlayerID = pid
    · simp only [hp, if_true] at hstep
      have hzero : rankScore r pid = 0 :=
        rankScore_of_not_mem r pid (by rw [← hp]; exact hr.1)
      rw [ih (Rank.addEntry c e) hr.2 hrs' (by rw [hstep]; exact wrapInt_inRange _), hstep,
        hzero, Int.add_zero, wrapInt_of_inRange _ (wrapInt_inRange _)]
      simp [rankScore, hp]
    · simp only [hp, if_false] at hstep
      rw [ih (Rank.addEntry c e) hr.2 hrs' (by rw [hstep]; exact hc), hstep]
      simp [rankScore, hp]

/-- C11: when the cumulative rank of the game and the rank of the round have at
most one entry per player id (scores being Go ints), the rank updateRanking
stores, g.rank.Add(r), has exactly one entry per player id occurring in either
rank; the score of an entry is the player's score in the cumulative rank plus
the player's score in the round rank (0 where absent), in Go int arithmetic,
and the exact sum whenever that sum is a Go int; the rank is ordered by
non-increasing score and its positions are 1..n.  Merging {A:10} and then
{B:20, A:5} into the empty rank gives [B:20 at position 1, A:15 at
position 2]. -/
theorem updateRanking_merges (g : Game) (r : Rank)
    (hc : (rankIDs g.rank).Nodup) (hr : (rankIDs r).Nodup)
    (hcs : ∀ e ∈ g.rank, inRange e.Score) (hrs : ∀ e ∈ r, inRange e.Score) :
    (g.updateRanking r).rank = Rank.Add g.rank r ∧
    (rankIDs (g.updateRanking r).rank).Nodup ∧
    (∀ pid, pid ∈ rankIDs (g.updateRanking r).rank ↔
      pid ∈ rankIDs g.rank ∨ pid ∈ rankIDs r) ∧
    (∀ e ∈ (g.updateRanking r).rank,
      e.Score = wrapInt (rankScore g.rank e.PlayerID + rankScore r e.PlayerID)) ∧
    (∀ e ∈ (g.updateRanking r).rank,
      inRange (rankScore g.rank e.PlayerID + rankScore r e.PlayerID) →
      e.Score = rankScore g.rank e.PlayerID + rankScore r e.PlayerID) ∧
    (g.updateRanking r).rank.Pairwise (fun a b => b.Score ≤ a.Score) ∧
    (g.updateRanking r).rank.map (fun e => e.Position) =
      (List.range (g.updateRanking r).rank.length).map (fun (k : Nat) => (k : Int) + 1) ∧
    Rank.Add (Rank.Add [] rankA10) rankB20A5 =
      [{ PlayerID := "B", Name := "Budi", Score := 20, Position := 1 },
       { PlayerID := "A", Name := "Ani", Score := 15, Position := 2 }] := by
  have hrank : (g.updateRanking r).rank =
      setPositions 0 (sortRank (r.foldl Rank.addEntry g.rank)) := rfl
  obtain ⟨hnd, hmem⟩ := rankIDs_foldl_addEntry r g.rank hc
  have hperm : (sortRank (r.foldl Rank.addEntry g.rank)).Perm (r.foldl Rank.addEntry g.rank) :=
    sortRank_perm _
  have hids : List.Perm (rankIDs (setPositions 0 (sortRank (r.foldl Rank.addEntry g.rank))))
      (rankIDs (r.foldl Rank.addEntry g.rank)) := by
    unfold rankIDs
    rw [setPositions_map_id]
    exact hperm.map _
  have hentry : ∀ e ∈ setPositions 0 (sortRank (r.foldl Rank.addEntry g.rank)),
      e.Score = wrapInt (rankScore g.rank e.PlayerID + rankScore r e.PlayerID) := by
    intro e he
    obtain ⟨v, hv, hid, hsc, _⟩ := mem_setPositions 0 _ e he
    have hvl : v ∈ r.foldl Rank.addEntry g.rank := hperm.mem_iff.mp hv
    have hscore := rankScore_of_mem _ v hnd hvl
    rw [rankScore_foldl_addEntry r g.rank v.PlayerID hr hrs
      (rankScore_inRange g.rank v.PlayerID hcs)] at hscore
    rw [← hsc, ← hid, ← hscore]
  rw [hrank]
  refine ⟨rfl, hids.nodup_iff.mpr hnd, ?_, hentry, ?_,
    setPositions_sorted 0 _ (sortRank_sorted _), ?_, by decide⟩
  · intro pid
    rw [hids.mem_iff]
    exact hmem pid
  · intro e he hin
    rw [hentry e he]
    exact wrapInt_of_inRange _ hin
  · rw [setPositions_map_position, setPositions_length]
    apply List.map_congr_left
    intro k _
    simp

/-- Witness of C11: the rank of a round in which B scored 20 and A scored 5 is
merged into the cumulative rank of a game that holds A with 10. -/
theorem updateRanking_merges_witness :
    (rankIDs ({ demoGame with rank := rankA10 } : Game).rank).Nodup ∧
    (rankIDs rankB20A5).Nodup ∧
    (∀ e ∈ ({ demoGame with rank := rankA10 } : Game).rank, inRange e.Score) ∧
    (∀ e ∈ rankB20A5, inRange e.Score) ∧
    (({ demoGame with rank := rankA10 } : Game).updateRanking rankB20A5).rank =
      [{ PlayerID := "B", Name := "Budi", Score := 20, Position := 1 },
       { PlayerID := "A", Name := "Ani", Score := 15, Position := 2 }] ∧
    (rankIDs (({ demoGame with rank := rankA10 } : Game).updateRanking rankB20A5).rank).Nodup ∧
    (∀ e ∈ (({ demoGame with rank := rankA10 } : Game).updateRanking rankB20A5).rank,
      e.Score = wrapInt (rankScore ({ demoGame with rank := rankA10 } : Game).rank e.PlayerID +
        rankScore rankB20A5 e.PlayerID)) :=
  ⟨by decide, by decide, by decide, by decide, by decide,
    (updateRanking_merges { demoGame with rank := rankA10 } rankB20A5 (by decide) (by decide)
      (by decide) (by decide)).2.1,
    (updateRanking_merges { demoGame with rank := rankA10 } rankB20A5 (by decide) (by decide)
      (by decide) (by decide)).2.2.2.1⟩

end Fam100
